import Mathlib

/-!
# Verification of the WITNESS lock-order verifier

A shallow embedding of the `witness' lock-order verifier (the code between
`witness_initialize` and `witness_restore` in `src/sys/dev/hme/if_hme.c`,
originally from BSD/OS `mutex_witness.c`).  Machine state is modelled as an
explicit value (`WState` for the verifier globals, `Sys` for the verifier
plus the lock objects and the per-context held-lock stacks); each C function
becomes a Lean function on that state, with kernel panics modelled as
`Except.error` and `printf` diagnostics collected in a report log.
-/

namespace WitnessV

/-- `WITNESS_COUNT` from the source: capacity of the witness pool. -/
def WITNESS_COUNT : Nat := 200

/-- `WITNESS_CHILDCOUNT` from the source: capacity of the child-chunk pool. -/
def WITNESS_CHILDCOUNT : Nat := WITNESS_COUNT * 4

/-- Modelled from the spec: `MAXCPU` is a machine parameter from a header that
is not part of the supplied sources; only the fact that the derived pool bound
`LOCK_CHILDCOUNT` is at least 2 is ever used below.  -/
def MAXCPU : Nat := 2

/-- `LOCK_CHILDCOUNT` from the source: capacity of the lock-list chunk pool,
`(MAXCPU + 1024) * 2`.  The source also uses this same constant as the
fullness test for a held-lock chunk in `witness_lock`. -/
def LOCK_CHILDCOUNT : Nat := (MAXCPU + 1024) * 2

/-- `WITNESS_NCHILDREN` from the source: inline fan-out of one child chunk. -/
def WITNESS_NCHILDREN : Nat := 6

/-- Lock class descriptor (`struct lock_class`).  The three class objects
live outside the supplied sources, so only their flag words are modelled. -/
structure LockClass where
  lc_name : String
  lc_spin : Bool        -- LC_SPINLOCK
  lc_sleep : Bool       -- LC_SLEEPLOCK
  lc_sleepable : Bool   -- LC_SLEEPABLE
  lc_recursable : Bool  -- LC_RECURSABLE
deriving DecidableEq, Repr

/-- Modelled from the spec: the blockable mutex class (`lock_class_mtx_sleep`,
declared in a header outside the supplied sources; a blockable spin-free
class that may not be held across a suspension). -/
def lock_class_mtx_sleep : LockClass :=
  { lc_name := "sleep mutex", lc_spin := false, lc_sleep := true
    lc_sleepable := false, lc_recursable := true }

/-- Modelled from the spec: the non-blockable mutex class
(`lock_class_mtx_spin`). -/
def lock_class_mtx_spin : LockClass :=
  { lc_name := "spin mutex", lc_spin := true, lc_sleep := false
    lc_sleepable := false, lc_recursable := true }

/-- Modelled from the spec: the shared/exclusive class (`lock_class_sx`), a
blockable class marked may-sleep-while-held. -/
def lock_class_sx : LockClass :=
  { lc_name := "sx", lc_spin := false, lc_sleep := true
    lc_sleepable := true, lc_recursable := false }

/-- The all-zero class a freshly `bzero`ed witness carries before `enroll`
binds the real one. -/
def zeroLockClass : LockClass :=
  { lc_name := "", lc_spin := false, lc_sleep := false
    lc_sleepable := false, lc_recursable := false }

/-- `struct witness`.  Child edges keep the chunked shape of the source
(`struct witness_child_list_entry` chains): a list of chunks, each chunk a
list of child witness ids of length `wcl_count`. -/
structure Witness where
  w_name : String
  w_class : LockClass
  w_children : List (List Nat)
  w_file : Option String
  w_line : Int
  w_level : Nat
  w_refcount : Nat
  w_Giant_squawked : Bool
  w_other_squawked : Bool
  w_same_squawked : Bool
deriving DecidableEq, Repr

/-- The `bzero`ed witness produced by `witness_get`. -/
def defaultWitness : Witness :=
  { w_name := "", w_class := zeroLockClass, w_children := []
    w_file := none, w_line := 0, w_level := 0, w_refcount := 0
    w_Giant_squawked := false, w_other_squawked := false
    w_same_squawked := false }

/-- `struct lock_object` (the parts the verifier reads and writes).  The
`lo_flags` bits become Booleans; `lo_recurse` mirrors the recursion depth the
lock primitive keeps in `mtx_recurse`. -/
structure LockObject where
  lo_name : String
  lo_class : LockClass
  lo_witness : Option Nat
  lo_initialized : Bool  -- LO_INITIALIZED
  lo_witnessed : Bool    -- LO_WITNESS
  lo_locked : Bool       -- LO_LOCKED
  lo_recursed : Bool     -- LO_RECURSED
  lo_recursable : Bool   -- LO_RECURSABLE
  lo_sleepable : Bool    -- LO_SLEEPABLE
  lo_recurse : Nat
  lo_file : Option String
  lo_line : Int
deriving DecidableEq, Repr

/-- A zeroed lock object (unused slots of the lock map). -/
def defaultLockObject : LockObject :=
  { lo_name := "", lo_class := zeroLockClass, lo_witness := none
    lo_initialized := false, lo_witnessed := false, lo_locked := false
    lo_recursed := false, lo_recursable := false, lo_sleepable := false
    lo_recurse := 0, lo_file := none, lo_line := 0 }

/-- Which fixed pool ran out (the `witness exhausted` printf sites). -/
inductive PoolKind where
  | witnessPool | childPool | lockListPool
deriving DecidableEq, Repr

/-- One console diagnostic (`printf`) emitted by the verifier. -/
inductive Report where
  /-- `acquring duplicate lock of same type` in `witness_lock`. -/
  | duplicate (wid : Nat)
  /-- `lock order reversal` in `witness_lock`: the witness being acquired,
  the held witness it reaches, whether the held lock instance is the global
  Giant mutex, the held lock instance, the earlier instance found by the
  backward search for the `1st` line, and the instance being acquired. -/
  | reversal (acquired held : Nat) (heldIsGiant : Bool)
      (heldLock : Nat) (earlier : Option Nat) (lock : Nat)
  /-- `witness exhausted` from a pool `acquire`. -/
  | exhausted (pool : PoolKind)
  /-- the per-lock `sleeping with ... locked` line in `witness_sleep`. -/
  | sleepWarn (lockid : Nat)
deriving DecidableEq, Repr

/-- A kernel `panic` (or a fatal `KASSERT`/`MPASS`/null dereference, which
likewise stops the process in the modelled configuration). -/
inductive CPanic where
  | lockNotLocked           -- "lock ... is not locked"
  | recursedNonRecursive    -- "recursed on non-recursive lock"
  | blockableSleepLock      -- "blockable sleep lock"
  | switchableSleepUnlock   -- "switchable sleep unlock"
  | recursedNotLocked       -- "recursed lock ... is not locked"
  | lockClassMismatch       -- "lock ... does not match earlier ... lock"
  | spinNotInOrderList      -- "spin lock ... not in order list"
  | classNotSleepOrSpin     -- "lock class ... is not sleep or spin"
  | mixedLockDomain         -- "parent ... and child ... are not the same lock type"
  | alreadyInitialized      -- witness_init double-initialization
  | cannotRecurse           -- witness_init LO_RECURSABLE vs class
  | cannotSleep             -- witness_init LO_SLEEPABLE vs class
  | destroyedWhileCold      -- witness_destroy while witness_cold
  | notInitialized          -- witness_destroy of uninitialized lock
  | destroyedWhileHeld      -- witness_destroy of held lock
  | assertFailed            -- a KASSERT/MPASS firing
  | nullDeref               -- dereference of a NULL witness pointer
  | invalidRef              -- event referring to a lock object that does not exist
  | recurseOnNonRecursable  -- lock primitive: recursing on a non-recursable lock
  | unlockNotHeld           -- lock primitive: releasing an unheld lock
deriving DecidableEq, Repr

/-- The verifier's global state: the witness registry, the type lists, the
three pools, the dead/cold flags, the two tunables and the diagnostic log. -/
structure WState where
  wmap : Nat → Witness
  w_count : Nat
  w_all : List Nat
  w_sleep : List Nat
  w_spin : List Nat
  w_free_count : Nat
  w_child_free_count : Nat
  w_lock_list_free_count : Nat
  witness_dead : Bool
  witness_cold : Bool
  witness_watch : Nat
  witness_skipspin : Bool
  reports : List Report

/-- Read a witness by id (`struct witness *`). -/
def WState.getW (st : WState) (i : Nat) : Witness := st.wmap i

/-- Update one witness in place. -/
def WState.modifyW (st : WState) (i : Nat) (f : Witness → Witness) : WState :=
  { st with wmap := fun j => if j = i then f (st.wmap i) else st.wmap j }

/-- Append one console diagnostic. -/
def WState.addReport (st : WState) (r : Report) : WState :=
  { st with reports := st.reports ++ [r] }

/-- The whole machine: verifier state, the lock objects ever initialized
(`lockmap`, a model of kernel memory holding `struct lock_object`s), a
held-lock chunk chain per process (`p_sleeplocks`) and per processor
(`PCPU spinlocks`), and the `lock_cur_cnt`/`lock_max_cnt` counters. -/
structure Sys where
  wst : WState
  lockmap : Nat → LockObject
  lock_count : Nat
  sleepmap : Nat → List (List Nat)
  spinmap : Nat → List (List Nat)
  panicstr : Bool
  lock_cur_cnt : Nat
  lock_max_cnt : Nat

def Sys.getLock (sys : Sys) (i : Nat) : LockObject := sys.lockmap i

def Sys.modifyLock (sys : Sys) (i : Nat) (f : LockObject → LockObject) : Sys :=
  { sys with lockmap := fun j => if j = i then f (sys.lockmap i) else sys.lockmap j }

def Sys.sleepChain (sys : Sys) (pid : Nat) : List (List Nat) := sys.sleepmap pid

def Sys.spinChain (sys : Sys) (cpu : Nat) : List (List Nat) := sys.spinmap cpu

def Sys.setSleepChain (sys : Sys) (pid : Nat) (c : List (List Nat)) : Sys :=
  { sys with sleepmap := fun j => if j = pid then c else sys.sleepmap j }

def Sys.setSpinChain (sys : Sys) (cpu : Nat) (c : List (List Nat)) : Sys :=
  { sys with spinmap := fun j => if j = cpu then c else sys.spinmap j }

def Sys.addReport (sys : Sys) (r : Report) : Sys :=
  { sys with wst := sys.wst.addReport r }

/-- The lock id of the global Giant mutex (`&Giant.mtx_object`), the first
object in the modelled lock memory. -/
def giantLockId : Nat := 0

/-- The `LOP_TRYLOCK`/`LOP_NOSWITCH` bits of the `flags` argument. -/
structure LockFlags where
  trylock : Bool
  noswitch : Bool
deriving DecidableEq, Repr

/-! ## The fixed-capacity pools -/

/-- `witness_get`: take a witness from the freelist; on exhaustion set
`witness_dead`, log `witness exhausted` and return NULL.  The freed structs
are interchangeable, so the pool is its remaining capacity and a fresh id is
the next unused index of `wmap`. -/
def witness_get (st : WState) : Option Nat × WState :=
  if st.w_free_count = 0 then
    (none, { st with witness_dead := true,
                     reports := st.reports ++ [.exhausted .witnessPool] })
  else
    (some st.w_count,
     { st with wmap := fun j => if j = st.w_count then defaultWitness else st.wmap j,
               w_count := st.w_count + 1,
               w_free_count := st.w_free_count - 1 })

/-- `witness_free`: return a witness struct to the freelist. -/
def witness_free (st : WState) : WState :=
  { st with w_free_count := st.w_free_count + 1 }

/-- `witness_child_get`: take a child chunk; on exhaustion set the dead flag,
log, and return NULL.  Chunks are stored inline in `w_children`, so the pool
is its remaining capacity. -/
def witness_child_get (st : WState) : Option Unit × WState :=
  if st.w_child_free_count = 0 then
    (none, { st with witness_dead := true,
                     reports := st.reports ++ [.exhausted .childPool] })
  else
    (some (), { st with w_child_free_count := st.w_child_free_count - 1 })

/-- `witness_child_free`. -/
def witness_child_free (st : WState) : WState :=
  { st with w_child_free_count := st.w_child_free_count + 1 }

/-- `witness_lock_list_get`: take a held-lock chunk; on exhaustion set the
dead flag, log, and return NULL. -/
def witness_lock_list_get (st : WState) : Option Unit × WState :=
  if st.w_lock_list_free_count = 0 then
    (none, { st with witness_dead := true,
                     reports := st.reports ++ [.exhausted .lockListPool] })
  else
    (some (), { st with w_lock_list_free_count := st.w_lock_list_free_count - 1 })

/-- `witness_lock_list_free`. -/
def witness_lock_list_free (st : WState) : WState :=
  { st with w_lock_list_free_count := st.w_lock_list_free_count + 1 }

/-! ## The child-edge graph -/

/-- All child ids of a witness, chunk chain flattened in order. -/
def childrenFlat (st : WState) (p : Nat) : List Nat :=
  ((st.getW p).w_children).flatten

/-- `isitmychild`: is `child` in some chunk of `parent`'s child list? -/
def isitmychild (st : WState) (parent child : Nat) : Bool :=
  (childrenFlat st parent).contains child

/-- The recursive descendant search of `isitmydescendant`, with explicit
fuel standing in for the C recursion (which terminates exactly on the
acyclic graphs the verifier maintains; fuel one more than the number of
witnesses is always enough there, see `isitmydescendantF_complete`). -/
def isitmydescendantF (st : WState) : Nat → Nat → Nat → Bool
  | 0, _, _ => false
  | fuel + 1, parent, child =>
    if isitmychild st parent child then true
    else (childrenFlat st parent).any fun c => isitmydescendantF st fuel c child

/-- `isitmydescendant`, at the fuel the acyclic invariant makes sufficient. -/
def isitmydescendant (st : WState) (parent child : Nat) : Bool :=
  isitmydescendantF st (st.w_count + 1) parent child

/-- Swap-removal of index `i` from one chunk: `removechild` moves the last
entry of the chunk into the vacated slot and shrinks the count. -/
def swapRemove (c : List Nat) (i : Nat) : List Nat :=
  (c.set i (c.getLastD 0)).dropLast

/-- The chunk-chain part of `removechild`: find the first chunk holding
`child` (first index within it), swap-remove it there, unlink the chunk if
its count reaches zero.  Returns the new chain and whether a chunk was
unlinked (to be freed). -/
def removechildChunks : List (List Nat) → Nat → List (List Nat) × Bool
  | [], _ => ([], false)
  | c :: rest, x =>
    match c.findIdx? (fun y => y = x) with
    | some i =>
      let c' := swapRemove c i
      if c'.isEmpty then (rest, true) else (c' :: rest, false)
    | none =>
      let (rest', b) := removechildChunks rest x
      (c :: rest', b)

/-- `removechild`. -/
def removechild (st : WState) (parent child : Nat) : WState :=
  let (chunks', freed) := removechildChunks ((st.getW parent).w_children) child
  let st := st.modifyW parent fun w => { w with w_children := chunks' }
  if freed then witness_child_free st else st

/-- The chunk walk of `itismychild`: insert into the first chunk whose count
is below `WITNESS_NCHILDREN`; `none` if every chunk is full (a new chunk is
then needed). -/
def insertIntoChunks : List (List Nat) → Nat → Option (List (List Nat))
  | [], _ => none
  | c :: rest, x =>
    if c.length = WITNESS_NCHILDREN then (insertIntoChunks rest x).map (c :: ·)
    else some ((c ++ [x]) :: rest)

/-- The insertion half of `itismychild` (everything before the pruning
pass).  Returns the C result int as a Bool: `true` when the child-chunk pool
was exhausted (edge not inserted, dead flag set). -/
def itismychildRaw (st : WState) (parent child : Nat) : Bool × WState :=
  match insertIntoChunks ((st.getW parent).w_children) child with
  | some chunks' =>
    (false, st.modifyW parent fun w => { w with w_children := chunks' })
  | none =>
    match witness_child_get st with
    | (none, st') => (true, st')
    | (some _, st') =>
      (false, st'.modifyW parent fun w => { w with w_children := w.w_children ++ [[child]] })

/-- `itismychild` as called with the static `recursed` flag already set (the
re-insertion inside the pruning pass): the same-lock-type panic check and the
insertion, but no pruning. -/
def itismychildR (st : WState) (parent child : Nat) : Except CPanic (Bool × WState) :=
  if ((st.getW parent).w_class.lc_sleep, (st.getW parent).w_class.lc_spin) ≠
     ((st.getW child).w_class.lc_sleep, (st.getW child).w_class.lc_spin) then
    .error .mixedLockDomain
  else .ok (itismychildRaw st parent child)

/-- One step of the pruning pass, for the pair (`parent`, `child`): if the
edge is present, remove it; if the child is still a descendant the direct
link stays removed, otherwise it is re-inserted (via `itismychild` with
`recursed` set). -/
def pruneStep (st : WState) (pc : Nat × Nat) : Except CPanic WState :=
  if isitmychild st pc.1 pc.2 then
    if isitmydescendant (removechild st pc.1 pc.2) pc.1 pc.2 then
      .ok (removechild st pc.1 pc.2)
    else
      match itismychildR (removechild st pc.1 pc.2) pc.1 pc.2 with
      | .error e => .error e
      | .ok (_, st2) => .ok st2
  else .ok st

/-- The pair ordering of the pruning pass's two nested `STAILQ_FOREACH`
loops: outer loop over `child`, inner loop over `parent`. -/
def prunePairs (L : List Nat) : List (Nat × Nat) :=
  L.flatMap fun c => L.map fun p => (p, c)

/-- The whole pruning pass over one type list. -/
def prunePass (st : WState) (L : List Nat) : Except CPanic WState :=
  (prunePairs L).foldlM pruneStep st

/-- `witness_leveldescendents`, with fuel for the recursion. -/
def witness_leveldescendents : Nat → WState → Nat → Nat → WState
  | 0, st, _, _ => st
  | fuel + 1, st, parent, level =>
    let st :=
      if (st.getW parent).w_level < level then
        st.modifyW parent fun w => { w with w_level := level }
      else st
    (childrenFlat st parent).foldl
      (fun acc c => witness_leveldescendents fuel acc c (level + 1)) st

/-- `witness_levelall`: clear every level, then level the descendants of
every witness with no parent in its type list. -/
def witness_levelall (st : WState) : WState :=
  let st := st.w_all.foldl
    (fun acc i => acc.modifyW i fun w => { w with w_level := 0 }) st
  st.w_all.foldl
    (fun acc w =>
      let L := if (acc.getW w).w_class.lc_sleep then acc.w_sleep else acc.w_spin
      if L.any fun w1 => isitmychild acc w1 w then acc
      else witness_leveldescendents (acc.w_count + 1) acc w 0)
    st

/-- `itismychild` proper (outer call, `recursed` clear): the lock-type panic
check, the insertion, then — unless the insertion already failed — the global
pruning pass over the affected type list followed by `witness_levelall`. -/
def itismychild (st : WState) (parent child : Nat) : Except CPanic (Bool × WState) :=
  if ((st.getW parent).w_class.lc_sleep, (st.getW parent).w_class.lc_spin) ≠
     ((st.getW child).w_class.lc_sleep, (st.getW child).w_class.lc_spin) then
    .error .mixedLockDomain
  else
    match itismychildRaw st parent child with
    | (true, st') => .ok (true, st')
    | (false, st') =>
      let L := if (st'.getW parent).w_class.lc_sleep then st'.w_sleep else st'.w_spin
      match prunePass st' L with
      | .error e => .error e
      | .ok st'' => .ok (false, witness_levelall st'')

/-! ## The registry -/

/-- `enroll`: look the description up in the global list; on a hit check the
class and bump the reference count, otherwise take a fresh witness from the
pool, bind it and put it on the global and type lists. -/
def enroll (st : WState) (description : String) (lock_class : LockClass) :
    Except CPanic (Option Nat × WState) :=
  if st.witness_watch = 0 then .ok (none, st)
  else if lock_class.lc_spin && st.witness_skipspin then .ok (none, st)
  else
    match st.w_all.find? (fun i => (st.getW i).w_name = description) with
    | some i =>
      let st' := st.modifyW i fun w => { w with w_refcount := w.w_refcount + 1 }
      if lock_class ≠ (st.getW i).w_class then .error .lockClassMismatch
      else .ok (some i, st')
    | none =>
      if lock_class.lc_spin && !st.witness_cold then .error .spinNotInOrderList
      else
        match witness_get st with
        | (none, st') => .ok (none, st')
        | (some i, st') =>
          let st' := st'.modifyW i fun w =>
            { w with w_name := description, w_class := lock_class, w_refcount := 1 }
          let st' := { st' with w_all := i :: st'.w_all }
          if lock_class.lc_spin then .ok (some i, { st' with w_spin := i :: st'.w_spin })
          else if lock_class.lc_sleep then .ok (some i, { st' with w_sleep := i :: st'.w_sleep })
          else .error .classNotSleepOrSpin

/-- `dup_list`: lock names exempt from the duplicate warning. -/
def dup_list : List String := ["process lock"]

/-- `dup_ok`. -/
def dup_ok (w : Witness) : Bool :=
  dup_list.any fun d => w.w_name = d

/-- `blessed_list`: empty in this source. -/
def blessed_list : List (String × String) := []

/-- `blessed`: does the name pair appear, in either order, on the blessed
list? -/
def blessed (w1 w2 : Witness) : Bool :=
  blessed_list.any fun b =>
    (w1.w_name = b.1 && w2.w_name = b.2) || (w1.w_name = b.2 && w2.w_name = b.1)

/-! ## witness_lock -/

/-- Is this held-lock entry a violation against the acquired witness `wid`:
entries whose lock has no witness are skipped, otherwise the violation test
is `isitmydescendant(w, w1)`. -/
def violEntry (sys : Sys) (wid lid : Nat) : Bool :=
  match (sys.getLock lid).lo_witness with
  | none => false
  | some w1 => isitmydescendant sys.wst wid w1

/-- The inner `for (i = ll_count - 1; i >= 0; i--)` of the violation scan on
one chunk, returning the first violating entry and its index. -/
def chunkScanDown (sys : Sys) (wid : Nat) (c : List Nat) : Nat → Option (Nat × Nat)
  | 0 => if violEntry sys wid (c.getD 0 0) then some (c.getD 0 0, 0) else none
  | i + 1 =>
    if violEntry sys wid (c.getD (i + 1) 0) then some (c.getD (i + 1) 0, i + 1)
    else chunkScanDown sys wid c i

/-- The outer loop of the violation scan over the chunk chain; on a hit it
also returns the chunk-chain suffix and index where the hit occurred, which
the diagnostic's backward search starts from. -/
def findViolationAux (sys : Sys) (wid : Nat) :
    List (List Nat) → Option (Nat × List (List Nat) × Nat)
  | [] => none
  | c :: rest =>
    if c.isEmpty then findViolationAux sys wid rest
    else
      match chunkScanDown sys wid c (c.length - 1) with
      | some (lid, i) => some (lid, c :: rest, i)
      | none => findViolationAux sys wid rest

/-- The `do { ... } while (i >= 0)` search for an earlier lock with the
acquired witness, used only to label the `1st` line of the reversal
diagnostic.  Mirrors the source exactly, including the jump to the next
chunk that skips index 0 of the current chunk. -/
def earlierScan (sys : Sys) (wid : Nat) : List (List Nat) → Nat → Option Nat
  | [], _ => none
  | c :: rest, i =>
    if (sys.getLock (c.getD i 0)).lo_witness = some wid then some (c.getD i 0)
    else if i = 0 then none
    else if i - 1 = 0 && !rest.isEmpty then
      match rest with
      | [] => none
      | c2 :: rest2 => earlierScan sys wid (c2 :: rest2) (c2.length - 1)
    else earlierScan sys wid (c :: rest) (i - 1)
termination_by cs i => (cs.length, i)

/-- The `out:` tail of `witness_lock`: record the acquisition site on the
witness and the lock, then append the lock to the context's held-lock chain,
taking a fresh chunk when there is none or the head chunk's count has
reached the fullness bound (`LOCK_CHILDCOUNT` in this source); if the chunk
pool is exhausted the entry is silently dropped. -/
def witness_lock_out (sys : Sys) (pid cpu lockid wid : Nat)
    (file : String) (line : Int) : Sys :=
  let sys := { sys with
    wst := sys.wst.modifyW wid fun w => { w with w_file := some file, w_line := line } }
  let sys := sys.modifyLock lockid fun lk =>
    { lk with lo_file := some file, lo_line := line }
  let useSleep := (sys.getLock lockid).lo_class.lc_sleep
  let chain := if useSleep then sys.sleepChain pid else sys.spinChain cpu
  if chain.isEmpty || (chain.headD []).length = LOCK_CHILDCOUNT then
    match witness_lock_list_get sys.wst with
    | (none, wst') => { sys with wst := wst' }
    | (some _, wst') =>
      let sys := { sys with wst := wst' }
      let chain' := [lockid] :: chain
      if useSleep then sys.setSleepChain pid chain' else sys.setSpinChain cpu chain'
  else
    let chain' := ((chain.headD []) ++ [lockid]) :: chain.tail
    if useSleep then sys.setSleepChain pid chain' else sys.setSpinChain cpu chain'

/-- `witness_lock`.  The calling context is (`pid`, `cpu`): the process
whose `p_sleeplocks` chain is used for blockable classes and the processor
whose spin-lock chain is used for the rest. -/
def witness_lock (sys : Sys) (pid cpu lockid : Nat) (flags : LockFlags)
    (file : String) (line : Int) : Except CPanic Sys :=
  if sys.wst.witness_cold || sys.wst.witness_dead || sys.panicstr then .ok sys
  else match (sys.getLock lockid).lo_witness with
  | none => .ok sys
  | some wid =>
    let lock := sys.getLock lockid
    let cls := lock.lo_class
    if !lock.lo_locked then .error .lockNotLocked
    else if lock.lo_recursed then
      if !lock.lo_recursable then .error .recursedNonRecursive else .ok sys
    else if cls.lc_sleep && !(sys.spinChain cpu).isEmpty then .error .blockableSleepLock
    else
      if flags.trylock then .ok (witness_lock_out sys pid cpu lockid wid file line)
      else
        let chain := if cls.lc_sleep then sys.sleepChain pid else sys.spinChain cpu
        if chain.isEmpty then .ok (witness_lock_out sys pid cpu lockid wid file line)
        else
          let lock1 := (chain.headD []).getLastD 0
          let w1opt := (sys.getLock lock1).lo_witness
          if w1opt = some wid then
            -- duplicate lock of the same type
            if (sys.wst.getW wid).w_same_squawked || dup_ok (sys.wst.getW wid) then
              .ok (witness_lock_out sys pid cpu lockid wid file line)
            else
              let wst1 := sys.wst.modifyW wid fun w => { w with w_same_squawked := true }
              let sys := { sys with wst := wst1.addReport (.duplicate wid) }
              .ok (witness_lock_out sys pid cpu lockid wid file line)
          else
            match w1opt with
            | none => .error .nullDeref
            | some w1 =>
              if sys.wst.witness_watch > 1 &&
                 (sys.wst.getW wid).w_level > (sys.wst.getW w1).w_level then
                .ok (witness_lock_out sys pid cpu lockid wid file line)
              else if isitmydescendant sys.wst w1 wid then
                .ok (witness_lock_out sys pid cpu lockid wid file line)
              else
                match findViolationAux sys wid chain with
                | some (lock1v, cs, i) =>
                  match (sys.getLock lock1v).lo_witness with
                  | none => .error .nullDeref
                  | some w1v =>
                    if blessed (sys.wst.getW wid) (sys.wst.getW w1v) then
                      .ok (witness_lock_out sys pid cpu lockid wid file line)
                    else if lock1v = giantLockId then
                      if (sys.wst.getW w1v).w_Giant_squawked then
                        .ok (witness_lock_out sys pid cpu lockid wid file line)
                      else
                        let sys1 := { sys with wst := sys.wst.modifyW w1v fun w =>
                          { w with w_Giant_squawked := true } }
                        let sys1 := sys1.addReport
                          (.reversal wid w1v true lock1v (earlierScan sys wid cs i) lockid)
                        .ok (witness_lock_out sys1 pid cpu lockid wid file line)
                    else
                      if (sys.wst.getW w1v).w_other_squawked then
                        .ok (witness_lock_out sys pid cpu lockid wid file line)
                      else
                        let sys1 := { sys with wst := sys.wst.modifyW w1v fun w =>
                          { w with w_other_squawked := true } }
                        let sys1 := sys1.addReport
                          (.reversal wid w1v false lock1v (earlierScan sys wid cs i) lockid)
                        .ok (witness_lock_out sys1 pid cpu lockid wid file line)
                | none =>
                  -- no relation: learn the observed order
                  match (sys.getLock ((chain.headD []).getLastD 0)).lo_witness with
                  | none => .error .assertFailed
                  | some pw =>
                    match itismychild sys.wst pw wid with
                    | .error e => .error e
                    | .ok (_, wst') =>
                      .ok (witness_lock_out { sys with wst := wst' }
                            pid cpu lockid wid file line)

/-! ## witness_unlock -/

/-- The removal scan of `witness_unlock`: chunks in chain order, indices
ascending within a chunk; the first matching entry is removed by shifting
the tail of its chunk left.  Returns `none` when the lock is on no chunk;
otherwise the new chain and whether the chunk emptied (and is to be freed). -/
def removeFromChain : List (List Nat) → Nat → Option (List (List Nat) × Bool)
  | [], _ => none
  | c :: rest, x =>
    match c.findIdx? (fun y => y = x) with
    | some i =>
      let c' := c.eraseIdx i
      some (if c'.isEmpty then (rest, true) else (c' :: rest, false))
    | none =>
      (removeFromChain rest x).map fun rb => (c :: rb.1, rb.2)

/-- `witness_unlock`.  Note that when the released lock is found on no chunk
of the context's chain the function simply runs off the end of its loop and
returns. -/
def witness_unlock (sys : Sys) (pid cpu lockid : Nat) (flags : LockFlags)
    (file : String) (line : Int) : Except CPanic Sys :=
  if sys.wst.witness_cold || sys.wst.witness_dead || sys.panicstr then .ok sys
  else match (sys.getLock lockid).lo_witness with
  | none => .ok sys
  | some _ =>
    let lock := sys.getLock lockid
    let cls := lock.lo_class
    if lock.lo_recursed then
      if !lock.lo_locked then .error .recursedNotLocked else .ok sys
    else if cls.lc_sleep then
      if !flags.noswitch && !(sys.spinChain cpu).isEmpty then .error .switchableSleepUnlock
      else
        match removeFromChain (sys.sleepChain pid) lockid with
        | none => .ok sys
        | some (chain', freed) =>
          let sys := sys.setSleepChain pid chain'
          .ok (if freed then { sys with wst := witness_lock_list_free sys.wst } else sys)
    else
      match removeFromChain (sys.spinChain cpu) lockid with
      | none => .ok sys
      | some (chain', freed) =>
        let sys := sys.setSpinChain cpu chain'
        .ok (if freed then { sys with wst := witness_lock_list_free sys.wst } else sys)

/-! ## witness_sleep -/

/-- The scan order of `witness_sleep`: the context's sleep chain then the
processor's spin chain, each chunk walked from its last index down. -/
def sleepScanEntries (sys : Sys) (pid cpu : Nat) : List Nat :=
  (sys.sleepChain pid).flatMap List.reverse ++ (sys.spinChain cpu).flatMap List.reverse

/-- `witness_sleep`: count (and log) every held lock except the exempted
argument, Giant, and locks flagged `LO_SLEEPABLE`. -/
def witness_sleep (sys : Sys) (check_only : Bool) (pid cpu : Nat)
    (lockarg : Option Nat) (file : String) (line : Int) :
    Except CPanic (Nat × Sys) :=
  if sys.wst.witness_dead || sys.panicstr then .ok (0, sys)
  else if sys.wst.witness_cold then .error .assertFailed
  else
    .ok ((sleepScanEntries sys pid cpu).foldl
      (fun acc lid =>
        if some lid = lockarg || lid = giantLockId ||
           (sys.getLock lid).lo_sleepable then acc
        else (acc.1 + 1, acc.2.addReport (.sleepWarn lid)))
      (0, sys))

/-- Modelled from the claim's words, not from the source (C6): the number of
held entries across the context's two stacks that are neither the exempted
lock argument nor marked sleep-while-held; the claim's wording has no
exemption for Giant. -/
def c6_claimCount (sys : Sys) (pid cpu : Nat) (lockarg : Option Nat) : Nat :=
  ((sleepScanEntries sys pid cpu).filter (fun lid =>
    !(some lid = lockarg) && !(sys.getLock lid).lo_sleepable)).length

/-- Reversal reports carrying a given held witness and Giant tag: the key
the source's sticky suppression actually uses (`w_Giant_squawked` /
`w_other_squawked` live on the held witness). -/
def isRevHeld (v : Nat) (g : Bool) : Report → Bool
  | .reversal _ h2 gi _ _ _ => h2 == v && gi == g
  | _ => false

/-- Modelled from the claim's words, not from the source (C4): reversal
reports for one offending pair (acquired witness, held witness), however
they are tagged. -/
def isRevPair (a hld : Nat) : Report → Bool
  | .reversal a2 h2 _ _ _ _ => a2 == a && h2 == hld
  | _ => false

/-! ## witness_init, witness_destroy, witness_save, witness_restore -/

/-- `witness_init` on a freshly allocated lock object (the caller's memory is
modelled as the next slot of `lockmap`, so the double-initialization and
flag-compatibility panics are checked against a zeroed object). -/
def witness_init (sys : Sys) (name : String) (cls : LockClass)
    (witnessed recursable sleepable : Bool) : Except CPanic Sys :=
  let lock : LockObject :=
    { lo_name := name, lo_class := cls, lo_witness := none
      lo_initialized := false, lo_witnessed := witnessed, lo_locked := false
      lo_recursed := false, lo_recursable := recursable, lo_sleepable := sleepable
      lo_recurse := 0, lo_file := none, lo_line := 0 }
  if lock.lo_initialized then .error .alreadyInitialized
  else if lock.lo_recursable && !cls.lc_recursable then .error .cannotRecurse
  else if lock.lo_sleepable && !cls.lc_sleepable then .error .cannotSleep
  else
    let lock := { lock with lo_initialized := true }
    let cur := sys.lock_cur_cnt + 1
    let sys := { sys with lock_cur_cnt := cur,
                          lock_max_cnt := if cur > sys.lock_max_cnt then cur else sys.lock_max_cnt }
    if !sys.wst.witness_cold && !sys.wst.witness_dead && lock.lo_witnessed then
      match enroll sys.wst name cls with
      | .error e => .error e
      | .ok (widopt, wst') =>
        .ok { sys with wst := wst',
                       lockmap := fun j => if j = sys.lock_count then
                         { lock with lo_witness := widopt } else sys.lockmap j,
                       lock_count := sys.lock_count + 1 }
    else
      .ok { sys with lockmap := fun j => if j = sys.lock_count then lock else sys.lockmap j,
                     lock_count := sys.lock_count + 1 }

/-- `witness_destroy`.  `lock->lo_flags &= LO_INITIALIZED` keeps only the
initialized bit; the witness keeps its identity but is renamed `(dead)` when
its reference count reaches zero. -/
def witness_destroy (sys : Sys) (lockid : Nat) : Except CPanic Sys :=
  let lock := sys.getLock lockid
  if sys.wst.witness_cold then .error .destroyedWhileCold
  else if !lock.lo_initialized then .error .notInitialized
  else if lock.lo_locked then .error .destroyedWhileHeld
  else
    let sys :=
      match lock.lo_witness with
      | none => sys
      | some wid =>
        { sys with wst := sys.wst.modifyW wid fun w =>
            let w := { w with w_refcount := w.w_refcount - 1 }
            if w.w_refcount = 0 then
              { w with w_name := "(dead)", w_file := some "(dead)", w_line := 0 }
            else w }
    let sys := { sys with lock_cur_cnt := sys.lock_cur_cnt - 1 }
    .ok (sys.modifyLock lockid fun lk =>
      { lk with lo_witnessed := false, lo_locked := false, lo_recursed := false,
                lo_recursable := false, lo_sleepable := false })

/-- `witness_save`: read back the lock's saved acquisition site (no-op on an
unwatched lock). -/
def witness_save (sys : Sys) (lockid : Nat) :
    Except CPanic (Option (Option String × Int)) :=
  if sys.wst.witness_cold then .error .assertFailed
  else match (sys.getLock lockid).lo_witness with
  | none => .ok none
  | some _ => .ok (some ((sys.getLock lockid).lo_file, (sys.getLock lockid).lo_line))

/-- `witness_restore`: write the site back to the witness and the lock. -/
def witness_restore (sys : Sys) (lockid : Nat) (file : String) (line : Int) :
    Except CPanic Sys :=
  if sys.wst.witness_cold then .error .assertFailed
  else match (sys.getLock lockid).lo_witness with
  | none => .ok sys
  | some wid =>
    let sys := { sys with wst := sys.wst.modifyW wid fun w =>
      { w with w_file := some file, w_line := line } }
    .ok (sys.modifyLock lockid fun lk => { lk with lo_file := some file, lo_line := line })

/-! ## Startup (`witness_initialize`) -/

/-- The static `order_lists` table, one inner list per NULL-terminated chain,
in the configuration without `__i386__` and without `SMP`. -/
def order_lists : List (List (String × LockClass)) :=
  [ [("Giant", lock_class_mtx_sleep), ("proctree", lock_class_sx),
     ("allproc", lock_class_sx), ("process lock", lock_class_mtx_sleep),
     ("uidinfo hash", lock_class_mtx_sleep), ("uidinfo struct", lock_class_mtx_sleep)],
    [("sio", lock_class_mtx_spin), ("ng_node", lock_class_mtx_spin),
     ("ng_worklist", lock_class_mtx_spin), ("ithread table lock", lock_class_mtx_spin),
     ("ithread list lock", lock_class_mtx_spin), ("sched lock", lock_class_mtx_spin),
     ("callout", lock_class_mtx_spin)] ]

/-- The inner loop of the order-list seeding: enroll each successive name and
chain it under the previous one with `itismychild`. -/
def seedChainAux (st : WState) (prev : Nat) :
    List (String × LockClass) → Except CPanic WState
  | [] => .ok st
  | (n, c) :: rest =>
    match enroll st n c with
    | .error e => .error e
    | .ok (none, _) => .error .nullDeref
    | .ok (some w1, st') =>
      let st' := st'.modifyW w1 fun w => { w with w_file := some "order list" }
      match itismychild st' prev w1 with
      | .error e => .error e
      | .ok (_, st'') => seedChainAux st'' w1 rest

/-- Seed one chain of `order_lists`. -/
def seedChain (st : WState) : List (String × LockClass) → Except CPanic WState
  | [] => .ok st
  | (n, c) :: rest =>
    match enroll st n c with
    | .error e => .error e
    | .ok (none, _) => .error .nullDeref
    | .ok (some w0, st') =>
      let st' := st'.modifyW w0 fun w => { w with w_file := some "order list" }
      seedChainAux st' w0 rest

/-- The verifier's zeroed global state before `witness_initialize`: empty
registry, full pools, `witness_cold` set, the default tunables
(`witness_watch = 1`, `witness_skipspin = 0`). -/
def wstate0 : WState :=
  { wmap := fun _ => defaultWitness, w_count := 0
    w_all := [], w_sleep := [], w_spin := []
    w_free_count := WITNESS_COUNT
    w_child_free_count := WITNESS_CHILDCOUNT
    w_lock_list_free_count := LOCK_CHILDCOUNT
    witness_dead := false, witness_cold := true
    witness_watch := 1, witness_skipspin := false, reports := [] }

/-- The Giant mutex object as it stands on `all_locks` when
`witness_initialize` runs (initialized with `LO_WITNESS`, recursable). -/
def giantLock0 : LockObject :=
  { lo_name := "Giant", lo_class := lock_class_mtx_sleep, lo_witness := none
    lo_initialized := true, lo_witnessed := true, lo_locked := false
    lo_recursed := false, lo_recursable := true, lo_sleepable := false
    lo_recurse := 0, lo_file := none, lo_line := 0 }

/-- The static `all_mtx` (`All locks list`), initialized without
`LO_WITNESS`. -/
def allMtxLock : LockObject :=
  { lo_name := "All locks list", lo_class := lock_class_mtx_sleep, lo_witness := none
    lo_initialized := true, lo_witnessed := false, lo_locked := false
    lo_recursed := false, lo_recursable := false, lo_sleepable := false
    lo_recurse := 0, lo_file := none, lo_line := 0 }

/-- `witness_initialize`: release the pool entries to the freelists (already
reflected in the capacities of `wstate0`), seed the order lists, enroll every
`LO_WITNESS` lock already on `all_locks` (here Giant and `all_mtx`), and
clear `witness_cold`. -/
def witnessBoot : Except CPanic Sys :=
  let sys0 : Sys :=
    { wst := wstate0
      lockmap := fun j =>
        if j = 0 then giantLock0 else if j = 1 then allMtxLock else defaultLockObject
      lock_count := 2
      sleepmap := fun _ => [], spinmap := fun _ => []
      panicstr := false, lock_cur_cnt := 2, lock_max_cnt := 2 }
  match order_lists.foldlM seedChain sys0.wst with
  | .error e => .error e
  | .ok st =>
    let enrollLock : Sys → Nat → Except CPanic Sys := fun s lid =>
      if (s.getLock lid).lo_witnessed then
        match enroll s.wst (s.getLock lid).lo_name (s.getLock lid).lo_class with
        | .error e => .error e
        | .ok (wopt, wst') =>
          .ok { s.modifyLock lid (fun lk => { lk with lo_witness := wopt }) with wst := wst' }
      else .ok (s.modifyLock lid fun lk => { lk with lo_witness := none })
    match (List.range sys0.lock_count).foldlM enrollLock { sys0 with wst := st } with
    | .error e => .error e
    | .ok s => .ok { s with wst := { s.wst with witness_cold := false } }

/-- A throwaway state (the boot provably succeeds, see `witnessBoot_ok`). -/
def emptySys : Sys :=
  { wst := wstate0, lockmap := fun _ => defaultLockObject, lock_count := 0
    sleepmap := fun _ => [], spinmap := fun _ => []
    panicstr := false, lock_cur_cnt := 0, lock_max_cnt := 0 }

/-- The machine state right after `witness_initialize`. -/
def initSys : Sys :=
  match witnessBoot with
  | .ok s => s
  | .error _ => emptySys

/-! ## The lock primitives and the event machine -/

/-- One call into the verifier, as made by the external collaborators. -/
inductive Event where
  | einit (name : String) (cls : LockClass) (witnessed recursable sleepable : Bool)
  | edestroy (lockid : Nat)
  | eacquire (pid cpu lockid : Nat) (flags : LockFlags) (file : String) (line : Int)
  | erelease (pid cpu lockid : Nat) (flags : LockFlags) (file : String) (line : Int)
  | esleep (pid cpu : Nat) (check_only : Bool) (lockarg : Option Nat)
      (file : String) (line : Int)
  | erestore (lockid : Nat) (file : String) (line : Int)
deriving Repr

/-- Modelled from the spec: the acquire half of a lock primitive (code such
as `_mtx_lock_flags`, outside the supplied sources).  It obtains the lock —
recursing when the owner already holds it, bumping `mtx_recurse` and setting
`LO_RECURSED` — and then calls `on_acquire` (`witness_lock`). -/
def mtxAcquire (sys : Sys) (pid cpu lockid : Nat) (flags : LockFlags)
    (file : String) (line : Int) : Except CPanic Sys :=
  if sys.lock_count ≤ lockid then .error .invalidRef
  else
    let lock := sys.getLock lockid
    if lock.lo_locked then
      if !lock.lo_recursable then .error .recurseOnNonRecursable
      else
        let sys := sys.modifyLock lockid fun lk =>
          { lk with lo_recursed := true, lo_recurse := lk.lo_recurse + 1 }
        witness_lock sys pid cpu lockid flags file line
    else
      let sys := sys.modifyLock lockid fun lk => { lk with lo_locked := true }
      witness_lock sys pid cpu lockid flags file line

/-- Modelled from the spec: the release half of a lock primitive.  It calls
`on_release` (`witness_unlock`) first — so a recursive release still carries
`LO_RECURSED` — and then unwinds one level of recursion or drops the lock. -/
def mtxRelease (sys : Sys) (pid cpu lockid : Nat) (flags : LockFlags)
    (file : String) (line : Int) : Except CPanic Sys :=
  if sys.lock_count ≤ lockid then .error .invalidRef
  else if !(sys.getLock lockid).lo_locked then .error .unlockNotHeld
  else
    match witness_unlock sys pid cpu lockid flags file line with
    | .error e => .error e
    | .ok sys =>
      .ok (sys.modifyLock lockid fun lk =>
        if 0 < lk.lo_recurse then
          { lk with lo_recurse := lk.lo_recurse - 1,
                    lo_recursed := lk.lo_recurse - 1 != 0 }
        else { lk with lo_locked := false })

/-- Run one event against the machine. -/
def stepEvent (sys : Sys) : Event → Except CPanic Sys
  | .einit n c w r s =>
    -- the kernel's static lock classes are all exactly one of blockable
    -- (LC_SLEEPLOCK) and non-blockable (LC_SPINLOCK); `enroll` panics on a
    -- class that is neither, and nothing stops a class that is both, so the
    -- machine only accepts calls from such classes
    if c.lc_sleep = !c.lc_spin then witness_init sys n c w r s
    else .error .invalidRef
  | .edestroy l =>
    if sys.lock_count ≤ l then .error .invalidRef else witness_destroy sys l
  | .eacquire pid cpu l f fi li => mtxAcquire sys pid cpu l f fi li
  | .erelease pid cpu l f fi li => mtxRelease sys pid cpu l f fi li
  | .esleep pid cpu co la fi li =>
    match witness_sleep sys co pid cpu la fi li with
    | .error e => .error e
    | .ok (_, s) => .ok s
  | .erestore l fi li =>
    if sys.lock_count ≤ l then .error .invalidRef else witness_restore sys l fi li

/-- Run a list of events; a panic aborts the run. -/
def runEvents (sys : Sys) (evs : List Event) : Except CPanic Sys :=
  evs.foldlM stepEvent sys

/-- One chain push of `witness_lock`'s `out:` tail, as a pure function on a
chunk chain: the outcome of the chunk logic when the chunk pool holds out. -/
def pushChain (c : List (List Nat)) (l : Nat) : List (List Nat) :=
  if c.isEmpty || (c.headD []).length = LOCK_CHILDCOUNT then [l] :: c
  else (c.headD [] ++ [l]) :: c.tail

/-- The lock ids acquired by a list of events. -/
def aLocks (evs : List Event) : List Nat :=
  evs.flatMap fun e => match e with
    | .eacquire _ _ l _ _ _ => [l]
    | _ => []

/-- Well-nested acquire/release sequences of one context (`pid`, `cpu`):
empty, concatenation of two well-nested sequences, or a bracket
`acquire l; body; release l` around a well-nested body. -/
inductive WNEvents (pid cpu : Nat) : List Event → Prop where
  | nil : WNEvents pid cpu []
  | seq {s t : List Event} : WNEvents pid cpu s → WNEvents pid cpu t →
      WNEvents pid cpu (s ++ t)
  | bracket {s : List Event} {l : Nat} {fl1 fl2 : LockFlags} {f1 f2 : String}
      {n1 n2 : Int} : WNEvents pid cpu s →
      WNEvents pid cpu
        (.eacquire pid cpu l fl1 f1 n1 :: (s ++ [.erelease pid cpu l fl2 f2 n2]))

/-- The possible effects of one acquire call on the calling context's two
held-lock chains: untouched, or one push onto the chain matching the lock's
class (only possible for a watched, non-recursed lock). -/
def chainDisj (sys X : Sys) (pid cpu l : Nat) : Prop :=
  (X.sleepChain pid = sys.sleepChain pid ∧ X.spinChain cpu = sys.spinChain cpu) ∨
  ((sys.getLock l).lo_class.lc_sleep = true ∧ (sys.getLock l).lo_recursed = false ∧
   (sys.getLock l).lo_witness ≠ none ∧
   X.sleepChain pid = pushChain (sys.sleepChain pid) l ∧
   X.spinChain cpu = sys.spinChain cpu) ∨
  ((sys.getLock l).lo_class.lc_sleep = false ∧ (sys.getLock l).lo_recursed = false ∧
   (sys.getLock l).lo_witness ≠ none ∧
   X.spinChain cpu = pushChain (sys.spinChain cpu) l ∧
   X.sleepChain pid = sys.sleepChain pid)

/-- A machine state the verifier can actually be in: reached from the state
after `witness_initialize` by some sequence of non-panicking calls. -/
def Reachable (s : Sys) : Prop :=
  ∃ evs, runEvents initSys evs = .ok s

/-! ## The witness graph as a relation -/

/-- The adjacency relation of the witness graph: the union of all child
chunk sets, read through `isitmychild`. -/
def Edge (st : WState) (p c : Nat) : Prop := isitmychild st p c = true

/-- Reachability along child edges (what `isitmydescendant` computes on the
graphs the verifier maintains). -/
def Reach (st : WState) (a b : Nat) : Prop := Relation.TransGen (Edge st) a b

/-- Reflexive reachability. -/
def ReachR (st : WState) (a b : Nat) : Prop := Relation.ReflTransGen (Edge st) a b

/-- The graph has no (nontrivial) cycle. -/
def Acyclic (st : WState) : Prop := ∀ a, ¬ Reach st a a

/-- Every direct edge is essential: removing it kills reachability from its
parent to its child, i.e. no child is also independently reachable from its
parent through a longer path.  This is the postcondition of the pruning
pass, stated through the code's own `removechild`. -/
def Pruned (st : WState) : Prop :=
  ∀ p c, Edge st p c → ¬ Reach (removechild st p c) p c

theorem edge_iff_mem {st : WState} {p c : Nat} :
    Edge st p c ↔ c ∈ childrenFlat st p := by
  simp only [Edge, isitmychild]
  exact List.elem_iff

instance (st : WState) (p c : Nat) : Decidable (Edge st p c) := by
  unfold Edge; infer_instance

/-- A path witness: `isWPath st a xs b` means the edges
`a → xs₀ → xs₁ → ⋯ → b` all exist. -/
def isWPath (st : WState) : Nat → List Nat → Nat → Prop
  | a, [], b => Edge st a b
  | a, x :: xs, b => Edge st a x ∧ isWPath st x xs b

theorem isWPath_append {st : WState} {a b c : Nat} {xs ys : List Nat}
    (h1 : isWPath st a xs b) (h2 : isWPath st b ys c) :
    isWPath st a (xs ++ b :: ys) c := by
  induction xs generalizing a with
  | nil => exact ⟨h1, h2⟩
  | cons x xs ih => exact ⟨h1.1, ih h1.2⟩

theorem isWPath_split {st : WState} {a c : Nat} {xs ys : List Nat} {b : Nat}
    (h : isWPath st a (xs ++ b :: ys) c) :
    isWPath st a xs b ∧ isWPath st b ys c := by
  induction xs generalizing a with
  | nil => exact ⟨h.1, h.2⟩
  | cons x xs ih =>
    obtain ⟨h1, h2⟩ := h
    obtain ⟨h3, h4⟩ := ih h2
    exact ⟨⟨h1, h3⟩, h4⟩

theorem reach_of_path {st : WState} {a b : Nat} {xs : List Nat}
    (h : isWPath st a xs b) : Reach st a b := by
  induction xs generalizing a with
  | nil => exact Relation.TransGen.single h
  | cons x xs ih => exact Relation.TransGen.head h.1 (ih h.2)

theorem path_of_reach {st : WState} {a b : Nat} (h : Reach st a b) :
    ∃ xs, isWPath st a xs b := by
  induction h with
  | single h => exact ⟨[], h⟩
  | @tail m c _ h2 ih =>
    obtain ⟨xs, hp⟩ := ih
    exact ⟨xs ++ [m], isWPath_append hp h2⟩

/-- Whenever an intermediate node repeats on a path, the loop between two of
its occurrences can be cut out, shortening the path. -/
theorem path_cut {st : WState} {a b : Nat} {xs : List Nat}
    (h : isWPath st a xs b) (hd : ¬ xs.Nodup) :
    ∃ zs : List Nat, isWPath st a zs b ∧ zs.length < xs.length ∧ zs ⊆ xs := by
  rw [List.nodup_iff_count_le_one] at hd
  push_neg at hd
  obtain ⟨x, hx2⟩ := hd
  have hx : x ∈ xs := List.count_pos_iff.mp (by omega)
  obtain ⟨l₁, l₂, rfl⟩ := List.append_of_mem hx
  have hcnt : (l₁ ++ x :: l₂).count x = l₁.count x + (1 + l₂.count x) := by
    rw [List.count_append, List.count_cons_self]; ring
  rw [hcnt] at hx2
  have hcase : x ∈ l₁ ∨ x ∈ l₂ := by
    rcases Nat.lt_or_ge 0 (l₁.count x) with h1 | h1
    · exact Or.inl (List.count_pos_iff.mp h1)
    · exact Or.inr (List.count_pos_iff.mp (by omega))
  rcases hcase with hmem | hmem
  · obtain ⟨m₁, m₂, rfl⟩ := List.append_of_mem hmem
    have p := @isWPath_split st a b m₁ (m₂ ++ x :: l₂) x
      (by simpa [List.append_assoc] using h)
    have q := @isWPath_split st x b m₂ l₂ x p.2
    refine ⟨m₁ ++ x :: l₂, isWPath_append p.1 q.2, by simp; omega, ?_⟩
    intro y hy; simp at hy ⊢; tauto
  · obtain ⟨m₁, m₂, rfl⟩ := List.append_of_mem hmem
    have p := @isWPath_split st a b l₁ (m₁ ++ x :: m₂) x h
    have q := @isWPath_split st x b m₁ m₂ x p.2
    refine ⟨l₁ ++ x :: m₂, isWPath_append p.1 q.2, by simp; omega, ?_⟩
    intro y hy; simp at hy ⊢; tauto

/-- A duplicate-free path can always be extracted. -/
theorem path_dedup {st : WState} {a b : Nat} {xs : List Nat}
    (h : isWPath st a xs b) : ∃ ys, isWPath st a ys b ∧ ys.Nodup ∧ ys ⊆ xs := by
  suffices H : ∀ (n : Nat) (xs : List Nat), xs.length ≤ n → isWPath st a xs b →
      ∃ ys, isWPath st a ys b ∧ ys.Nodup ∧ ys ⊆ xs from
    H xs.length xs le_rfl h
  intro n
  induction n with
  | zero =>
    intro xs hlen h
    have : xs = [] := List.eq_nil_of_length_eq_zero (Nat.le_zero.mp hlen)
    exact ⟨xs, h, by simp [this], fun _ hx => hx⟩
  | succ n ih =>
    intro xs hlen h
    by_cases hd : xs.Nodup
    · exact ⟨xs, h, hd, fun _ hx => hx⟩
    · obtain ⟨zs, hz1, hz2, hz3⟩ := path_cut h hd
      obtain ⟨ys, hy1, hy2, hy3⟩ := ih zs (by omega) hz1
      exact ⟨ys, hy1, hy2, fun y hy => hz3 (hy3 hy)⟩

/-- `isitmydescendant` only reports true descendants (any fuel). -/
theorem dfs_sound {st : WState} {fuel a b : Nat}
    (h : isitmydescendantF st fuel a b = true) : Reach st a b := by
  induction fuel generalizing a with
  | zero => simp [isitmydescendantF] at h
  | succ fuel ih =>
    rw [isitmydescendantF] at h
    split at h
    · next hc => exact Relation.TransGen.single hc
    · rw [List.any_eq_true] at h
      obtain ⟨c, hc, hrec⟩ := h
      exact Relation.TransGen.head (edge_iff_mem.mpr hc) (ih hrec)

/-- A path shorter than the fuel is found by the search. -/
theorem path_to_dfs {st : WState} {a b : Nat} {xs : List Nat} {fuel : Nat}
    (h : isWPath st a xs b) (hlen : xs.length < fuel) :
    isitmydescendantF st fuel a b = true := by
  induction xs generalizing a fuel with
  | nil =>
    obtain ⟨fuel, rfl⟩ := Nat.exists_eq_succ_of_ne_zero (by omega : fuel ≠ 0)
    have he : isitmychild st a b = true := h
    rw [isitmydescendantF]
    simp [he]
  | cons x xs ih =>
    obtain ⟨fuel, rfl⟩ := Nat.exists_eq_succ_of_ne_zero (by omega : fuel ≠ 0)
    rw [isitmydescendantF]
    split
    · rfl
    · rw [List.any_eq_true]
      refine ⟨x, edge_iff_mem.mp h.1, ih h.2 (by simp at hlen; omega)⟩

/-- Every node on a path is the target of some edge. -/
theorem path_targets_edge {st : WState} {a b : Nat} {xs : List Nat}
    (h : isWPath st a xs b) : ∀ x ∈ xs, ∃ p, Edge st p x := by
  induction xs generalizing a with
  | nil => simp
  | cons x xs ih =>
    intro y hy
    rcases List.mem_cons.mp hy with rfl | hy'
    · exact ⟨a, h.1⟩
    · exact ih h.2 y hy'

theorem length_le_of_nodup_lt {l : List Nat} {n : Nat}
    (hd : l.Nodup) (hb : ∀ x ∈ l, x < n) : l.length ≤ n := by
  have hsub : l.toFinset ⊆ Finset.range n := by
    intro x hx
    rw [Finset.mem_range]
    exact hb x (List.mem_toFinset.mp hx)
  have := Finset.card_le_card hsub
  rwa [List.toFinset_card_of_nodup hd, Finset.card_range] at this

/-- On a graph whose edges all point below `w_count`, fuel `w_count + 1` is
enough for the search: `isitmydescendant` decides reachability. -/
theorem dfs_complete {st : WState} {a b : Nat}
    (hb : ∀ p c, Edge st p c → c < st.w_count)
    (h : Reach st a b) : isitmydescendant st a b = true := by
  obtain ⟨xs, hp⟩ := path_of_reach h
  obtain ⟨ys, hy, hnd, _⟩ := path_dedup hp
  have hbound : ∀ x ∈ ys, x < st.w_count := by
    intro x hx
    obtain ⟨p, hpe⟩ := path_targets_edge hy x hx
    exact hb p x hpe
  exact path_to_dfs hy (by have := length_le_of_nodup_lt hnd hbound; omega)

theorem reach_iff_dfs {st : WState} {a b : Nat}
    (hb : ∀ p c, Edge st p c → c < st.w_count) :
    Reach st a b ↔ isitmydescendant st a b = true :=
  ⟨dfs_complete hb, dfs_sound⟩

theorem not_reach_of_dfs_false {st : WState} {a b : Nat}
    (hb : ∀ p c, Edge st p c → c < st.w_count)
    (h : isitmydescendant st a b = false) : ¬ Reach st a b := by
  intro hr
  rw [dfs_complete hb hr] at h
  exact Bool.noConfusion h

theorem reach_mono {st st' : WState}
    (h : ∀ p c, Edge st p c → Edge st' p c) {a b : Nat} :
    Reach st a b → Reach st' a b :=
  Relation.TransGen.mono h

theorem reachR_mono {st st' : WState}
    (h : ∀ p c, Edge st p c → Edge st' p c) {a b : Nat} :
    ReachR st a b → ReachR st' a b :=
  Relation.ReflTransGen.mono h

/-- Decompose reachability after adding the single edge `u → v`. -/
theorem reach_insert_cases {st st' : WState} {u v : Nat}
    (hiff : ∀ p c, Edge st' p c ↔ (Edge st p c ∨ (p = u ∧ c = v))) {x y : Nat}
    (h : Reach st' x y) :
    Reach st x y ∨ (ReachR st x u ∧ ReachR st v y) := by
  induction h with
  | single h1 =>
    rcases (hiff _ _).mp h1 with he | ⟨rfl, rfl⟩
    · exact Or.inl (Relation.TransGen.single he)
    · exact Or.inr ⟨Relation.ReflTransGen.refl, Relation.ReflTransGen.refl⟩
  | @tail m c _ hmc ih =>
    rcases (hiff _ _).mp hmc with he | ⟨rfl, rfl⟩
    · rcases ih with h1 | ⟨h1, h2⟩
      · exact Or.inl (h1.tail he)
      · exact Or.inr ⟨h1, h2.tail he⟩
    · rcases ih with h1 | ⟨h1, _⟩
      · exact Or.inr ⟨h1.to_reflTransGen, Relation.ReflTransGen.refl⟩
      · exact Or.inr ⟨h1, Relation.ReflTransGen.refl⟩

/-- Adding the edge `u → v` keeps the graph acyclic as long as `v` did not
already reach `u` (exactly the guard `witness_lock` checks before learning an
order). -/
theorem acyclic_insert {st st' : WState} {u v : Nat}
    (hiff : ∀ p c, Edge st' p c ↔ (Edge st p c ∨ (p = u ∧ c = v)))
    (hne : u ≠ v) (hnr : ¬ Reach st v u) (hac : Acyclic st) : Acyclic st' := by
  intro x hx
  rcases reach_insert_cases hiff hx with h | ⟨h1, h2⟩
  · exact hac x h
  · have hvu : ReachR st v u := Relation.ReflTransGen.trans h2 h1
    rcases (Relation.reflTransGen_iff_eq_or_transGen.mp hvu) with heq | htg
    · exact hne heq
    · exact hnr htg

/-- Pointwise equality of the child sets transfers every edge, and so the
whole reachability structure. -/
theorem edge_congr_mem {st st' : WState}
    (h : ∀ q x, x ∈ childrenFlat st' q ↔ x ∈ childrenFlat st q) :
    ∀ p c, Edge st' p c ↔ Edge st p c := by
  intro p c
  rw [edge_iff_mem, edge_iff_mem, h]

theorem reach_congr_mem {st st' : WState}
    (h : ∀ q x, x ∈ childrenFlat st' q ↔ x ∈ childrenFlat st q) {a b : Nat} :
    Reach st' a b ↔ Reach st a b :=
  ⟨reach_mono fun p c => (edge_congr_mem h p c).mp,
   reach_mono fun p c => (edge_congr_mem h p c).mpr⟩

/-! ## State accessor lemmas -/

theorem getW_modifyW (st : WState) (i : Nat) (f : Witness → Witness) (j : Nat) :
    (st.modifyW i f).getW j = if j = i then f (st.getW i) else st.getW j := rfl

theorem getW_modifyW_self (st : WState) (i : Nat) (f : Witness → Witness) :
    (st.modifyW i f).getW i = f (st.getW i) := by
  simp [getW_modifyW]

theorem getW_modifyW_ne (st : WState) {i j : Nat} (f : Witness → Witness)
    (h : j ≠ i) : (st.modifyW i f).getW j = st.getW j := by
  simp [getW_modifyW, h]

theorem getLock_modifyLock (sys : Sys) (i : Nat) (f : LockObject → LockObject) (j : Nat) :
    (sys.modifyLock i f).getLock j = if j = i then f (sys.getLock i) else sys.getLock j := rfl

/-- The three sticky squawk flags of a witness. -/
def squawks (w : Witness) : Bool × Bool × Bool :=
  (w.w_Giant_squawked, w.w_other_squawked, w.w_same_squawked)

/-- Equality of everything the witness graph, the registry invariants and
the sticky reporting state depend on: the counts, the three lists, every
witness's class, child chunks and squawk flags, and the diagnostic log
(witnesses past the allocation point unchanged entirely). -/
structure GraphEq (st st' : WState) : Prop where
  count : st'.w_count = st.w_count
  all : st'.w_all = st.w_all
  sleep : st'.w_sleep = st.w_sleep
  spin : st'.w_spin = st.w_spin
  cls : ∀ i, (st'.getW i).w_class = (st.getW i).w_class
  children : ∀ i, (st'.getW i).w_children = (st.getW i).w_children
  flags : ∀ i, squawks (st'.getW i) = squawks (st.getW i)
  reports : st'.reports = st.reports
  beyond : ∀ i, st.w_count ≤ i → st'.wmap i = st.wmap i

theorem GraphEq.grefl (st : WState) : GraphEq st st :=
  ⟨rfl, rfl, rfl, rfl, fun _ => rfl, fun _ => rfl, fun _ => rfl, rfl, fun _ _ => rfl⟩

theorem GraphEq.gtrans {s1 s2 s3 : WState} (h1 : GraphEq s1 s2) (h2 : GraphEq s2 s3) :
    GraphEq s1 s3 where
  count := h2.count.trans h1.count
  all := h2.all.trans h1.all
  sleep := h2.sleep.trans h1.sleep
  spin := h2.spin.trans h1.spin
  cls i := (h2.cls i).trans (h1.cls i)
  children i := (h2.children i).trans (h1.children i)
  flags i := (h2.flags i).trans (h1.flags i)
  reports := h2.reports.trans h1.reports
  beyond i hi := (h2.beyond i (h1.count ▸ hi)).trans (h1.beyond i hi)

theorem GraphEq.childrenFlat_eq {st st' : WState} (h : GraphEq st st') (q : Nat) :
    childrenFlat st' q = childrenFlat st q := by
  unfold childrenFlat
  rw [h.children]

theorem GraphEq.gedge_iff {st st' : WState} (h : GraphEq st st') (p c : Nat) :
    Edge st' p c ↔ Edge st p c := by
  rw [edge_iff_mem, edge_iff_mem, h.childrenFlat_eq]

theorem GraphEq.reach_iff {st st' : WState} (h : GraphEq st st') {a b : Nat} :
    Reach st' a b ↔ Reach st a b :=
  reach_congr_mem fun q x => by rw [h.childrenFlat_eq]

theorem graphEq_modifyW {st : WState} {i : Nat} {f : Witness → Witness}
    (hi : i < st.w_count)
    (hc : (f (st.getW i)).w_class = (st.getW i).w_class)
    (hch : (f (st.getW i)).w_children = (st.getW i).w_children)
    (hfl : squawks (f (st.getW i)) = squawks (st.getW i)) :
    GraphEq st (st.modifyW i f) := by
  refine ⟨rfl, rfl, rfl, rfl, fun j => ?_, fun j => ?_, fun j => ?_, rfl, fun j hj => ?_⟩
  · rw [getW_modifyW]; split
    · next hj => rw [hj, hc]
    · rfl
  · rw [getW_modifyW]; split
    · next hj => rw [hj, hch]
    · rfl
  · rw [getW_modifyW]; split
    · next hj => rw [hj, hfl]
    · rfl
  · show (if j = i then _ else _) = _
    rw [if_neg (by omega)]

/-! ## Characterizing the child-chunk operations -/

theorem getLastD_of_ne_nil {l : List Nat} (h : l ≠ []) (d : Nat) :
    l.getLastD d = l.getLast h := by
  rw [List.getLastD_eq_getLast?, List.getLast?_eq_getLast l h, Option.getD_some]

theorem insertIntoChunks_flatten {cs : List (List Nat)} {x : Nat}
    {cs' : List (List Nat)} (h : insertIntoChunks cs x = some cs') :
    cs'.flatten.Perm (cs.flatten ++ [x]) := by
  induction cs generalizing cs' with
  | nil => simp [insertIntoChunks] at h
  | cons c rest ih =>
    rw [insertIntoChunks] at h
    split at h
    · rw [Option.map_eq_some'] at h
      obtain ⟨rest', hr, rfl⟩ := h
      have := ih hr
      simp only [List.flatten_cons, List.append_assoc]
      exact this.append_left c
    · rw [Option.some_inj] at h
      subst h
      simp only [List.flatten_cons, List.append_assoc]
      exact List.Perm.append_left c List.perm_append_comm

theorem insertIntoChunks_none {cs : List (List Nat)} {x : Nat}
    (h : insertIntoChunks cs x = none) : ∀ c ∈ cs, c.length = WITNESS_NCHILDREN := by
  induction cs with
  | nil => simp
  | cons c rest ih =>
    rw [insertIntoChunks] at h
    split at h
    · next hc =>
      rw [Option.map_eq_none'] at h
      intro d hd
      rcases List.mem_cons.mp hd with rfl | hd'
      · exact hc
      · exact ih h d hd'
    · simp at h

theorem swapRemove_perm {c : List Nat} {i : Nat} (hi : i < c.length) :
    (swapRemove c i).Perm (c.eraseIdx i) := by
  induction c generalizing i with
  | nil => simp at hi
  | cons a c ih =>
    cases i with
    | zero =>
      cases c with
      | nil => simp [swapRemove]
      | cons b d =>
        have hbd : (b :: d) ≠ [] := by simp
        have hL : (a :: b :: d).getLastD 0 = (b :: d).getLast hbd := by
          rw [getLastD_of_ne_nil (by simp) 0]
          exact List.getLast_cons hbd
        show ((a :: b :: d).set 0 ((a :: b :: d).getLastD 0)).dropLast.Perm
          ((a :: b :: d).eraseIdx 0)
        rw [hL, List.set_cons_zero]
        rw [List.dropLast_cons_of_ne_nil hbd]
        show (((b :: d).getLast hbd :: (b :: d).dropLast)).Perm (b :: d)
        have h1 := List.dropLast_append_getLast hbd
        have h2 : ([(b :: d).getLast hbd] ++ (b :: d).dropLast).Perm
            ((b :: d).dropLast ++ [(b :: d).getLast hbd]) := List.perm_append_comm
        calc ((b :: d).getLast hbd :: (b :: d).dropLast).Perm
              ((b :: d).dropLast ++ [(b :: d).getLast hbd]) := h2
          _ = (b :: d) := h1
    | succ i =>
      have hi' : i < c.length := by simpa using hi
      have hc : c ≠ [] := by
        intro h; subst h; simp at hi'
      show ((a :: c).set (i + 1) ((a :: c).getLastD 0)).dropLast.Perm
        ((a :: c).eraseIdx (i + 1))
      rw [List.set_cons_succ]
      have hset : c.set i ((a :: c).getLastD 0) ≠ [] := by
        intro h
        have h2 : c = [] := by
          have := congrArg List.length h
          rw [List.length_set] at this
          exact List.length_eq_zero.mp this
        exact hc h2
      rw [List.dropLast_cons_of_ne_nil hset]
      have hlast : (a :: c).getLastD 0 = c.getLastD 0 := by
        rw [@getLastD_of_ne_nil (a :: c) (by simp) 0,
          @getLastD_of_ne_nil c hc 0]
        exact List.getLast_cons hc
      rw [hlast]
      show (a :: swapRemove c i).Perm (a :: c.eraseIdx i)
      exact (ih hi').cons a

/-! ### Record-update accessor lemmas -/

@[simp] theorem modifyW_w_count (st : WState) (i : Nat) (f : Witness → Witness) :
    (st.modifyW i f).w_count = st.w_count := rfl
@[simp] theorem modifyW_w_all (st : WState) (i : Nat) (f : Witness → Witness) :
    (st.modifyW i f).w_all = st.w_all := rfl
@[simp] theorem modifyW_w_sleep (st : WState) (i : Nat) (f : Witness → Witness) :
    (st.modifyW i f).w_sleep = st.w_sleep := rfl
@[simp] theorem modifyW_w_spin (st : WState) (i : Nat) (f : Witness → Witness) :
    (st.modifyW i f).w_spin = st.w_spin := rfl
@[simp] theorem modifyW_reports (st : WState) (i : Nat) (f : Witness → Witness) :
    (st.modifyW i f).reports = st.reports := rfl
@[simp] theorem modifyW_dead (st : WState) (i : Nat) (f : Witness → Witness) :
    (st.modifyW i f).witness_dead = st.witness_dead := rfl
@[simp] theorem modifyW_cold (st : WState) (i : Nat) (f : Witness → Witness) :
    (st.modifyW i f).witness_cold = st.witness_cold := rfl
@[simp] theorem modifyW_watch (st : WState) (i : Nat) (f : Witness → Witness) :
    (st.modifyW i f).witness_watch = st.witness_watch := rfl
@[simp] theorem modifyW_child_free (st : WState) (i : Nat) (f : Witness → Witness) :
    (st.modifyW i f).w_child_free_count = st.w_child_free_count := rfl
@[simp] theorem addReport_getW (st : WState) (r : Report) (i : Nat) :
    (st.addReport r).getW i = st.getW i := rfl
@[simp] theorem addReport_w_count (st : WState) (r : Report) :
    (st.addReport r).w_count = st.w_count := rfl
@[simp] theorem addReport_reports (st : WState) (r : Report) :
    (st.addReport r).reports = st.reports ++ [r] := rfl
@[simp] theorem addReport_dead (st : WState) (r : Report) :
    (st.addReport r).witness_dead = st.witness_dead := rfl
@[simp] theorem child_free_getW (st : WState) (i : Nat) :
    (witness_child_free st).getW i = st.getW i := rfl
@[simp] theorem child_free_w_count (st : WState) :
    (witness_child_free st).w_count = st.w_count := rfl
@[simp] theorem child_free_reports (st : WState) :
    (witness_child_free st).reports = st.reports := rfl
@[simp] theorem child_free_dead (st : WState) :
    (witness_child_free st).witness_dead = st.witness_dead := rfl
@[simp] theorem lock_list_free_getW (st : WState) (i : Nat) :
    (witness_lock_list_free st).getW i = st.getW i := rfl
@[simp] theorem lock_list_free_w_count (st : WState) :
    (witness_lock_list_free st).w_count = st.w_count := rfl
@[simp] theorem lock_list_free_reports (st : WState) :
    (witness_lock_list_free st).reports = st.reports := rfl

theorem graphEq_child_free (st : WState) : GraphEq st (witness_child_free st) :=
  ⟨rfl, rfl, rfl, rfl, fun _ => rfl, fun _ => rfl, fun _ => rfl, rfl, fun _ _ => rfl⟩

theorem graphEq_lock_list_free (st : WState) : GraphEq st (witness_lock_list_free st) :=
  ⟨rfl, rfl, rfl, rfl, fun _ => rfl, fun _ => rfl, fun _ => rfl, rfl, fun _ _ => rfl⟩

/-! ### Characterizing `removechild` -/

/-- Any list is a permutation of any of its elements consed onto the list
with that position erased. -/
theorem perm_cons_eraseIdx {c : List Nat} {i : Nat} (hi : i < c.length) :
    c.Perm (c.get ⟨i, hi⟩ :: c.eraseIdx i) := by
  induction c generalizing i with
  | nil => simp at hi
  | cons a c ih =>
    cases i with
    | zero => exact List.Perm.refl _
    | succ i =>
      have hi' : i < c.length := by simpa using hi
      have step := (ih hi').cons a
      exact step.trans (List.Perm.swap _ _ _)

theorem eraseIdx_perm_erase {c : List Nat} {i : Nat} {x : Nat}
    (hi : i < c.length) (hx : c.get ⟨i, hi⟩ = x) :
    (c.eraseIdx i).Perm (c.erase x) := by
  have h1 := perm_cons_eraseIdx hi
  rw [hx] at h1
  have hmem : x ∈ c := h1.mem_iff.mpr (List.mem_cons_self x _)
  have h2 := List.perm_cons_erase hmem
  have := h1.symm.trans h2
  exact List.Perm.cons_inv this

theorem findIdx?_eq_some_pred {c : List Nat} {x : Nat} {i : Nat}
    (h : c.findIdx? (fun y => y = x) = some i) :
    ∃ hi : i < c.length, c.get ⟨i, hi⟩ = x := by
  have hlt : i < c.length := List.findIdx?_eq_some_iff_findIdx_eq.mp h |>.1
  refine ⟨hlt, ?_⟩
  have := List.findIdx?_eq_some_iff_getElem.mp h
  obtain ⟨_, hp, _⟩ := this
  have := of_decide_eq_true hp
  simpa [List.get_eq_getElem] using this

theorem findIdx?_eq_none_not_mem {c : List Nat} {x : Nat}
    (h : c.findIdx? (fun y => y = x) = none) : x ∉ c := by
  intro hmem
  rw [List.findIdx?_eq_none_iff] at h
  have := h x hmem
  simp at this

theorem removechildChunks_not_mem {cs : List (List Nat)} {x : Nat}
    (h : x ∉ cs.flatten) : removechildChunks cs x = (cs, false) := by
  induction cs with
  | nil => rfl
  | cons c rest ih =>
    have hxc : x ∉ c := fun hc => h (by simp [hc])
    have hxr : x ∉ rest.flatten := fun hc => h (by simp [hc])
    rw [removechildChunks]
    have hf : c.findIdx? (fun y => y = x) = none := by
      rw [List.findIdx?_eq_none_iff]
      intro y hy
      simp only [decide_eq_false_iff_not]
      intro hxy
      exact hxc (hxy ▸ hy)
    rw [hf, ih hxr]

theorem removechildChunks_flatten {cs : List (List Nat)} {x : Nat}
    (h : x ∈ cs.flatten) :
    ((removechildChunks cs x).1).flatten.Perm (cs.flatten.erase x) := by
  induction cs with
  | nil => simp at h
  | cons c rest ih =>
    rw [removechildChunks]
    cases hf : c.findIdx? (fun y => y = x) with
    | some i =>
      obtain ⟨hi, hx⟩ := findIdx?_eq_some_pred hf
      have hmemc : x ∈ c := hx ▸ List.get_mem c i hi
      have hperm : (swapRemove c i).Perm (c.erase x) :=
        (swapRemove_perm hi).trans (eraseIdx_perm_erase hi hx)
      have herase : (c ++ rest.flatten).erase x = c.erase x ++ rest.flatten :=
        List.erase_append_left _ hmemc
      simp only [List.flatten_cons, herase]
      split
      · next hemp =>
        have : swapRemove c i = [] := by
          simpa [List.isEmpty_iff] using hemp
        rw [this] at hperm
        have : c.erase x = [] := (List.Perm.nil_eq hperm).symm
        simp [this]
      · next hemp =>
        simp only [List.flatten_cons]
        exact hperm.append_right rest.flatten
    | none =>
      have hxc : x ∉ c := findIdx?_eq_none_not_mem hf
      have hxr : x ∈ rest.flatten := by
        rw [List.flatten_cons] at h
        rcases List.mem_append.mp h with hc | hr
        · exact absurd hc hxc
        · exact hr
      have herase : (c ++ rest.flatten).erase x = c ++ rest.flatten.erase x :=
        List.erase_append_right _ hxc
      simp only [List.flatten_cons, herase]
      have := ih hxr
      cases hr : removechildChunks rest x with
      | mk rest' b =>
        rw [hr] at this
        simpa using this.append_left c

/-- `removechild` only rewrites the parent's chunk chain (and possibly the
chunk pool): every projection of every other witness is untouched. -/
theorem getW_removechild_ne (st : WState) {p : Nat} (c : Nat) {q : Nat}
    (h : q ≠ p) : ((removechild st p c).getW q) = st.getW q := by
  rcases hrc : removechildChunks ((st.getW p).w_children) c with ⟨chunks', freed⟩
  unfold removechild
  rw [hrc]
  cases freed <;> simp [getW_modifyW, h]

theorem getW_removechild_self (st : WState) (p c : Nat) :
    ((removechild st p c).getW p) =
      { st.getW p with w_children := (removechildChunks ((st.getW p).w_children) c).1 } := by
  rcases hrc : removechildChunks ((st.getW p).w_children) c with ⟨chunks', freed⟩
  unfold removechild
  rw [hrc]
  cases freed <;> simp [getW_modifyW]

@[simp] theorem removechild_w_count (st : WState) (p c : Nat) :
    (removechild st p c).w_count = st.w_count := by
  rcases hrc : removechildChunks ((st.getW p).w_children) c with ⟨chunks', freed⟩
  unfold removechild; rw [hrc]; cases freed <;> rfl

@[simp] theorem removechild_w_all (st : WState) (p c : Nat) :
    (removechild st p c).w_all = st.w_all := by
  rcases hrc : removechildChunks ((st.getW p).w_children) c with ⟨chunks', freed⟩
  unfold removechild; rw [hrc]; cases freed <;> rfl

@[simp] theorem removechild_w_sleep (st : WState) (p c : Nat) :
    (removechild st p c).w_sleep = st.w_sleep := by
  rcases hrc : removechildChunks ((st.getW p).w_children) c with ⟨chunks', freed⟩
  unfold removechild; rw [hrc]; cases freed <;> rfl

@[simp] theorem removechild_w_spin (st : WState) (p c : Nat) :
    (removechild st p c).w_spin = st.w_spin := by
  rcases hrc : removechildChunks ((st.getW p).w_children) c with ⟨chunks', freed⟩
  unfold removechild; rw [hrc]; cases freed <;> rfl

@[simp] theorem removechild_reports (st : WState) (p c : Nat) :
    (removechild st p c).reports = st.reports := by
  rcases hrc : removechildChunks ((st.getW p).w_children) c with ⟨chunks', freed⟩
  unfold removechild; rw [hrc]; cases freed <;> rfl

@[simp] theorem removechild_dead (st : WState) (p c : Nat) :
    (removechild st p c).witness_dead = st.witness_dead := by
  rcases hrc : removechildChunks ((st.getW p).w_children) c with ⟨chunks', freed⟩
  unfold removechild; rw [hrc]; cases freed <;> rfl

@[simp] theorem removechild_cold (st : WState) (p c : Nat) :
    (removechild st p c).witness_cold = st.witness_cold := by
  rcases hrc : removechildChunks ((st.getW p).w_children) c with ⟨chunks', freed⟩
  unfold removechild; rw [hrc]; cases freed <;> rfl

@[simp] theorem removechild_watch (st : WState) (p c : Nat) :
    (removechild st p c).witness_watch = st.witness_watch := by
  rcases hrc : removechildChunks ((st.getW p).w_children) c with ⟨chunks', freed⟩
  unfold removechild; rw [hrc]; cases freed <;> rfl

theorem childrenFlat_removechild (st : WState) (p c q : Nat) :
    childrenFlat (removechild st p c) q =
      if q = p then ((removechildChunks ((st.getW p).w_children) c).1).flatten
      else childrenFlat st q := by
  unfold childrenFlat
  by_cases h : q = p
  · subst h; rw [getW_removechild_self]; simp
  · rw [getW_removechild_ne st c h, if_neg h]

/-- When the edge is present, removal is (up to permutation on the multiset
of children) erasure of one occurrence; when absent, it is the identity on
the graph. -/
theorem childrenFlat_removechild_perm (st : WState) {p c : Nat}
    (h : c ∈ childrenFlat st p) :
    (childrenFlat (removechild st p c) p).Perm ((childrenFlat st p).erase c) := by
  rw [childrenFlat_removechild, if_pos rfl]
  exact removechildChunks_flatten h

theorem childrenFlat_removechild_not_mem (st : WState) {p c : Nat}
    (h : c ∉ childrenFlat st p) (q : Nat) :
    childrenFlat (removechild st p c) q = childrenFlat st q := by
  rw [childrenFlat_removechild]
  split
  · next hq =>
    subst hq
    rw [removechildChunks_not_mem h]
    rfl
  · rfl

theorem removechild_flags (st : WState) (p c q : Nat) :
    squawks ((removechild st p c).getW q) = squawks (st.getW q) := by
  by_cases hq : q = p
  · subst hq; rw [getW_removechild_self]; rfl
  · rw [getW_removechild_ne st c hq]

/-- Reports appended between two states are all pool-exhaustion logs. -/
def ReportsExh (st st' : WState) : Prop :=
  ∃ Δ, st'.reports = st.reports ++ Δ ∧ ∀ r ∈ Δ, ∃ k, r = Report.exhausted k

theorem ReportsExh.rrefl (st : WState) : ReportsExh st st :=
  ⟨[], by simp, by simp⟩

theorem ReportsExh.rtrans {s1 s2 s3 : WState}
    (h1 : ReportsExh s1 s2) (h2 : ReportsExh s2 s3) : ReportsExh s1 s3 := by
  obtain ⟨d1, e1, p1⟩ := h1
  obtain ⟨d2, e2, p2⟩ := h2
  refine ⟨d1 ++ d2, by rw [e2, e1, List.append_assoc], ?_⟩
  intro r hr
  rcases List.mem_append.mp hr with h | h
  · exact p1 r h
  · exact p2 r h

theorem ReportsExh.of_eq {s1 s2 : WState} (h : s2.reports = s1.reports) :
    ReportsExh s1 s2 := ⟨[], by simp [h], by simp⟩

/-! ### Characterizing the insertion half of `itismychild` -/

/-- What a successful child insertion does to the state: the parent's chunk
chain gains exactly one copy of the child, nothing else changes. -/
structure InsertSpec (st : WState) (p c : Nat) (st' : WState) : Prop where
  other : ∀ q, q ≠ p → st'.getW q = st.getW q
  self_eq : ∃ chs, st'.getW p = { st.getW p with w_children := chs }
  self_perm : (childrenFlat st' p).Perm (childrenFlat st p ++ [c])
  count : st'.w_count = st.w_count
  all : st'.w_all = st.w_all
  sleep : st'.w_sleep = st.w_sleep
  spin : st'.w_spin = st.w_spin
  cold : st'.witness_cold = st.witness_cold
  watch : st'.witness_watch = st.witness_watch
  reports : st'.reports = st.reports
  beyond : ∀ i, st.w_count ≤ i → i ≠ p → st'.wmap i = st.wmap i

theorem InsertSpec.cls {st : WState} {p c : Nat} {st' : WState}
    (h : InsertSpec st p c st') (q : Nat) :
    (st'.getW q).w_class = (st.getW q).w_class := by
  by_cases hq : q = p
  · subst hq; obtain ⟨chs, he⟩ := h.self_eq; rw [he]
  · rw [h.other q hq]

theorem InsertSpec.flags {st : WState} {p c : Nat} {st' : WState}
    (h : InsertSpec st p c st') (q : Nat) :
    squawks (st'.getW q) = squawks (st.getW q) := by
  by_cases hq : q = p
  · subst hq; obtain ⟨chs, he⟩ := h.self_eq; rw [he]; rfl
  · rw [h.other q hq]

theorem InsertSpec.mem_iff {st : WState} {p c : Nat} {st' : WState}
    (h : InsertSpec st p c st') (q x : Nat) :
    x ∈ childrenFlat st' q ↔ (x ∈ childrenFlat st q ∨ (q = p ∧ x = c)) := by
  by_cases hq : q = p
  · subst hq
    rw [h.self_perm.mem_iff]
    simp
  · unfold childrenFlat
    rw [h.other q hq]
    simp [hq]

theorem InsertSpec.iedge_iff {st : WState} {p c : Nat} {st' : WState}
    (h : InsertSpec st p c st') (q x : Nat) :
    Edge st' q x ↔ (Edge st q x ∨ (q = p ∧ x = c)) := by
  rw [edge_iff_mem, edge_iff_mem, h.mem_iff]

theorem itismychildRaw_ok {st : WState} {p c : Nat} {st' : WState}
    (h : itismychildRaw st p c = (false, st')) : InsertSpec st p c st' := by
  unfold itismychildRaw at h
  cases hins : insertIntoChunks ((st.getW p).w_children) c with
  | some chunks' =>
    rw [hins] at h
    simp only [Prod.mk.injEq] at h
    obtain ⟨-, rfl⟩ := h
    refine ⟨fun q hq => getW_modifyW_ne st _ hq, ⟨chunks', getW_modifyW_self st p _⟩,
      ?_, rfl, rfl, rfl, rfl, rfl, rfl, rfl, fun i hi hip => ?_⟩
    · show ((st.modifyW p _).getW p).w_children.flatten.Perm _
      rw [getW_modifyW_self]
      exact insertIntoChunks_flatten hins
    · show (if i = p then _ else _) = _
      rw [if_neg hip]
  | none =>
    rw [hins] at h
    cases hg : witness_child_get st with
    | mk ro st1 =>
      rw [hg] at h
      cases ro with
      | none => simp at h
      | some u =>
        simp only [Prod.mk.injEq] at h
        obtain ⟨-, rfl⟩ := h
        have hg1 : st1 = { st with w_child_free_count := st.w_child_free_count - 1 } := by
          unfold witness_child_get at hg
          split at hg
          · simp at hg
          · simp only [Prod.mk.injEq] at hg
            exact hg.2.symm
        subst hg1
        refine ⟨fun q hq => getW_modifyW_ne _ _ hq,
          ⟨(st.getW p).w_children ++ [[c]], by rw [getW_modifyW_self]; rfl⟩,
          ?_, rfl, rfl, rfl, rfl, rfl, rfl, rfl, fun i hi hip => ?_⟩
        · show ((WState.modifyW _ p _).getW p).w_children.flatten.Perm _
          rw [getW_modifyW_self]
          show (((st.getW p).w_children ++ [[c]]).flatten).Perm _
          rw [List.flatten_append]
          simp [childrenFlat]
        · show (if i = p then _ else _) = _
          rw [if_neg hip]

theorem itismychildRaw_fail {st : WState} {p c : Nat} {st' : WState}
    (h : itismychildRaw st p c = (true, st')) :
    (∀ q, st'.getW q = st.getW q) ∧ st'.witness_dead = true ∧
    st'.reports = st.reports ++ [.exhausted .childPool] ∧
    st'.w_count = st.w_count ∧ st'.w_all = st.w_all ∧
    st'.w_sleep = st.w_sleep ∧ st'.w_spin = st.w_spin ∧
    st'.witness_cold = st.witness_cold ∧ st'.witness_watch = st.witness_watch ∧
    (∀ i, st.w_count ≤ i → st'.wmap i = st.wmap i) := by
  unfold itismychildRaw at h
  cases hins : insertIntoChunks ((st.getW p).w_children) c with
  | some chunks' =>
    rw [hins] at h
    simp at h
  | none =>
    rw [hins] at h
    cases hg : witness_child_get st with
    | mk ro st1 =>
      rw [hg] at h
      cases ro with
      | some u => simp at h
      | none =>
        simp only [Prod.mk.injEq] at h
        obtain ⟨-, rfl⟩ := h
        unfold witness_child_get at hg
        split at hg
        · simp only [Prod.mk.injEq] at hg
          rw [← hg.2]
          exact ⟨fun _ => rfl, rfl, rfl, rfl, rfl, rfl, rfl, rfl, rfl, fun _ _ => rfl⟩
        · simp at hg

/-! ### `witness_levelall` does not touch the graph -/

theorem graphEq_leveldescendents :
    ∀ (fuel : Nat) (st : WState) (p level : Nat),
    (∀ q c, c ∈ childrenFlat st q → c < st.w_count) → p < st.w_count →
    GraphEq st (witness_leveldescendents fuel st p level) := by
  intro fuel
  induction fuel with
  | zero => intro st p level _ _; exact GraphEq.grefl st
  | succ fuel ih =>
    intro st p level hvalid hp
    rw [witness_leveldescendents]
    set st1 := if (st.getW p).w_level < level then
        st.modifyW p fun w => { w with w_level := level }
      else st with hst1
    have h1 : GraphEq st st1 := by
      rw [hst1]
      split
      · exact graphEq_modifyW hp rfl rfl rfl
      · exact GraphEq.grefl st
    have hflat : childrenFlat st1 p = childrenFlat st p := h1.childrenFlat_eq p
    rw [hflat]
    have haux : ∀ (l : List Nat) (acc : WState), GraphEq st acc →
        (∀ x ∈ l, x < st.w_count) →
        GraphEq st (l.foldl (fun a c => witness_leveldescendents fuel a c (level + 1)) acc) := by
      intro l
      induction l with
      | nil => intro acc hacc _; exact hacc
      | cons x xs ihl =>
        intro acc hacc hl
        rw [List.foldl_cons]
        have hx : x < acc.w_count := by rw [hacc.count]; exact hl x (by simp)
        have hvalid' : ∀ q c, c ∈ childrenFlat acc q → c < acc.w_count := by
          intro q c hc
          rw [hacc.childrenFlat_eq] at hc
          rw [hacc.count]
          exact hvalid q c hc
        have := ih acc x (level + 1) hvalid' hx
        exact ihl _ (hacc.gtrans this) fun y hy => hl y (by simp [hy])
    exact haux _ st1 h1 fun x hx => hvalid p x hx

theorem graphEq_levelall (st : WState)
    (hall : ∀ i ∈ st.w_all, i < st.w_count)
    (hvalid : ∀ q c, c ∈ childrenFlat st q → c < st.w_count) :
    GraphEq st (witness_levelall st) := by
  unfold witness_levelall
  have phase1 : ∀ (l : List Nat) (acc : WState), GraphEq st acc →
      (∀ x ∈ l, x < st.w_count) →
      GraphEq st (l.foldl (fun a i => a.modifyW i fun w => { w with w_level := 0 }) acc) := by
    intro l
    induction l with
    | nil => intro acc hacc _; exact hacc
    | cons x xs ihl =>
      intro acc hacc hl
      rw [List.foldl_cons]
      have hx : x < acc.w_count := by rw [hacc.count]; exact hl x (by simp)
      exact ihl _ (hacc.gtrans (graphEq_modifyW hx rfl rfl rfl)) fun y hy => hl y (by simp [hy])
  have phase2 : ∀ (l : List Nat) (acc : WState), GraphEq st acc →
      (∀ x ∈ l, x < st.w_count) →
      GraphEq st (l.foldl (fun a w =>
        let L := if (a.getW w).w_class.lc_sleep then a.w_sleep else a.w_spin
        if L.any fun w1 => isitmychild a w1 w then a
        else witness_leveldescendents (a.w_count + 1) a w 0) acc) := by
    intro l
    induction l with
    | nil => intro acc hacc _; exact hacc
    | cons x xs ihl =>
      intro acc hacc hl
      rw [List.foldl_cons]
      have hx : x < acc.w_count := by rw [hacc.count]; exact hl x (by simp)
      have hvalid' : ∀ q c, c ∈ childrenFlat acc q → c < acc.w_count := by
        intro q c hc
        rw [hacc.childrenFlat_eq] at hc
        rw [hacc.count]
        exact hvalid q c hc
      have hstep : ∀ L : List Nat, GraphEq acc
          (if L.any (fun w1 => isitmychild acc w1 x) then acc
           else witness_leveldescendents (acc.w_count + 1) acc x 0) := by
        intro L
        split
        · exact GraphEq.grefl acc
        · exact graphEq_leveldescendents _ acc x 0 hvalid' hx
      exact ihl _ (hacc.gtrans (hstep _)) fun y hy => hl y (by simp [hy])
  refine phase2 _ _ ?_ ?_
  · exact phase1 _ _ (GraphEq.grefl st) hall
  · have hp1 := phase1 st.w_all st (GraphEq.grefl st) hall
    intro x hx
    rw [hp1.all] at hx
    exact hall x hx

/-! ### The pruning pass -/

theorem removechild_mem_iff {st : WState} {p c : Nat}
    (hnd : (childrenFlat st p).Nodup) (hmem : c ∈ childrenFlat st p) (q x : Nat) :
    x ∈ childrenFlat (removechild st p c) q ↔
      (x ∈ childrenFlat st q ∧ ¬(q = p ∧ x = c)) := by
  by_cases hq : q = p
  · subst hq
    rw [(childrenFlat_removechild_perm st hmem).mem_iff, hnd.mem_erase_iff]
    constructor
    · rintro ⟨hne, hm⟩; exact ⟨hm, fun hpr => hne hpr.2⟩
    · rintro ⟨hm, hne⟩; exact ⟨fun he => hne ⟨rfl, he⟩, hm⟩
  · rw [childrenFlat_removechild, if_neg hq]
    simp [hq]

theorem acyclic_of_sub {st st' : WState}
    (hsub : ∀ q x, Edge st' q x → Edge st q x) (hacy : Acyclic st) :
    Acyclic st' := fun a ha => hacy a (reach_mono hsub ha)

/-- Keeping edges only shrinks reachability, so a pruned (essential) direct
edge stays essential. -/
theorem good_mono {st st' : WState}
    (hsub : ∀ q x, Edge st' q x → Edge st q x)
    (hnd : ∀ q, (childrenFlat st q).Nodup)
    (hnd' : ∀ q, (childrenFlat st' q).Nodup)
    {p c : Nat} (he' : Edge st' p c)
    (hg : ¬ Reach (removechild st p c) p c) :
    ¬ Reach (removechild st' p c) p c := by
  intro hr
  apply hg
  have he : Edge st p c := hsub p c he'
  refine reach_mono ?_ hr
  intro q x hqx
  rw [edge_iff_mem] at hqx ⊢
  rw [removechild_mem_iff (hnd' p) (edge_iff_mem.mp he')] at hqx
  rw [removechild_mem_iff (hnd p) (edge_iff_mem.mp he)]
  exact ⟨edge_iff_mem.mp (hsub q x (edge_iff_mem.mpr hqx.1)), hqx.2⟩

/-- Everything one step of the pruning pass guarantees.  `PruneStepFacts st
pc st'` relates the state before and after processing the pair `pc`. -/
structure PruneStepFacts (st : WState) (pc : Nat × Nat) (st' : WState) : Prop where
  sub : ∀ q x, Edge st' q x → Edge st q x
  nodup : ∀ q, (childrenFlat st' q).Nodup
  valid : ∀ q x, x ∈ childrenFlat st' q → x < st'.w_count
  count : st'.w_count = st.w_count
  all : st'.w_all = st.w_all
  sleep : st'.w_sleep = st.w_sleep
  spin : st'.w_spin = st.w_spin
  cls : ∀ i, (st'.getW i).w_class = (st.getW i).w_class
  cold : st'.witness_cold = st.witness_cold
  watch : st'.witness_watch = st.witness_watch
  beyond : ∀ i, st.w_count ≤ i → st'.wmap i = st.wmap i
  otherq : ∀ q, q ≠ pc.1 → (st'.getW q).w_children = (st.getW q).w_children
  flags : ∀ i, squawks (st'.getW i) = squawks (st.getW i)
  reps : ReportsExh st st'
  pairGood : Edge st' pc.1 pc.2 → ¬ Reach (removechild st' pc.1 pc.2) pc.1 pc.2

theorem pruneStep_ok {st : WState} {p c : Nat} {st' : WState}
    (hnd : ∀ q, (childrenFlat st q).Nodup)
    (hvalid : ∀ q x, x ∈ childrenFlat st q → x < st.w_count)
    (hdef : ∀ i, st.w_count ≤ i → st.wmap i = defaultWitness)
    (h : pruneStep st (p, c) = .ok st') :
    PruneStepFacts st (p, c) st' := by
  unfold pruneStep at h
  dsimp only at h
  by_cases hedge : isitmychild st p c = true
  case neg =>
    rw [if_neg hedge] at h
    cases h
    refine ⟨fun q x hx => hx, hnd, hvalid, rfl, rfl, rfl, rfl, fun _ => rfl,
      rfl, rfl, fun _ _ => rfl, fun _ _ => rfl, fun _ => rfl, ReportsExh.rrefl st, ?_⟩
    intro hedge'
    exact absurd hedge' hedge
  case pos =>
  rw [if_pos hedge] at h
  have hmem : c ∈ childrenFlat st p := edge_iff_mem.mp hedge
  have hp_lt : p < st.w_count := by
    by_contra hge
    have hd := hdef p (by omega)
    have hnil : childrenFlat st p = [] := by
      unfold childrenFlat WState.getW
      rw [hd]
      rfl
    rw [hnil] at hmem
    simp at hmem
  set st1 := removechild st p c with hst1
  have hc1 : st1.w_count = st.w_count := removechild_w_count st p c
  have ha1 : st1.w_all = st.w_all := removechild_w_all st p c
  have hsl1 : st1.w_sleep = st.w_sleep := removechild_w_sleep st p c
  have hsp1 : st1.w_spin = st.w_spin := removechild_w_spin st p c
  have hcold1 : st1.witness_cold = st.witness_cold := removechild_cold st p c
  have hwatch1 : st1.witness_watch = st.witness_watch := removechild_watch st p c
  have h1mem : ∀ q x, x ∈ childrenFlat st1 q ↔
      (x ∈ childrenFlat st q ∧ ¬(q = p ∧ x = c)) :=
    removechild_mem_iff (hnd p) hmem
  have h1sub : ∀ q x, Edge st1 q x → Edge st q x := by
    intro q x hx
    rw [edge_iff_mem] at hx ⊢
    exact ((h1mem q x).mp hx).1
  have h1nd : ∀ q, (childrenFlat st1 q).Nodup := by
    intro q
    by_cases hq : q = p
    · rw [hq]
      exact (childrenFlat_removechild_perm st hmem).nodup_iff.mpr ((hnd p).erase c)
    · rw [hst1, childrenFlat_removechild, if_neg hq]
      exact hnd q
  have h1valid : ∀ q x, x ∈ childrenFlat st1 q → x < st1.w_count := by
    intro q x hx
    rw [hc1]
    exact hvalid q x ((h1mem q x).mp hx).1
  have h1cls : ∀ i, (st1.getW i).w_class = (st.getW i).w_class := by
    intro i
    by_cases hip : i = p
    · subst hip; rw [hst1, getW_removechild_self]
    · rw [hst1, getW_removechild_ne st c hip]
  have h1beyond : ∀ i, st.w_count ≤ i → st1.wmap i = st.wmap i := by
    intro i hi
    have hip : i ≠ p := by omega
    rw [hst1]
    exact getW_removechild_ne st c hip
  have h1notc : c ∉ childrenFlat st1 p := by
    intro hc
    exact ((h1mem p c).mp hc).2 ⟨rfl, rfl⟩
  split at h
  · -- still a descendant via a longer path: the direct edge stays removed
    rw [Except.ok.injEq] at h
    subst h
    refine ⟨h1sub, h1nd, h1valid, hc1, ha1, hsl1, hsp1, h1cls, hcold1, hwatch1,
      h1beyond, ?_, ?_, ?_, fun hedge' => absurd (edge_iff_mem.mp hedge') h1notc⟩
    · intro q hq
      rw [hst1, getW_removechild_ne st c hq]
    · intro i
      rw [hst1]
      exact removechild_flags st p c i
    · exact ReportsExh.of_eq (by rw [hst1, removechild_reports])
  · -- not a descendant any more: re-insert the direct edge
    next hdesc =>
    have hnreach : ¬ Reach st1 p c := by
      apply not_reach_of_dfs_false
      · intro q x hx
        exact h1valid q x (edge_iff_mem.mp hx)
      · exact Bool.of_not_eq_true hdesc
    cases hR : itismychildR st1 p c with
    | error e => rw [hR] at h; cases h
    | ok pst =>
      rw [hR] at h
      obtain ⟨fail, st2⟩ := pst
      rw [Except.ok.injEq] at h
      subst h
      unfold itismychildR at hR
      split at hR
      · cases hR
      · rw [Except.ok.injEq] at hR
        cases fail with
        | true =>
          obtain ⟨hgw, _, hrep2, hcnt, hall, hsl, hsp, hcold, hwatch, hbey⟩ :=
            itismychildRaw_fail hR
          have h2flat : ∀ q, childrenFlat st2 q = childrenFlat st1 q := by
            intro q
            unfold childrenFlat
            rw [hgw q]
          refine ⟨?_, ?_, ?_, ?_, ?_, ?_, ?_, ?_, ?_, ?_, ?_, ?_, ?_, ?_, ?_⟩
          · intro q x hx
            rw [edge_iff_mem, h2flat] at hx
            exact h1sub q x (edge_iff_mem.mpr hx)
          · intro q; rw [h2flat]; exact h1nd q
          · intro q x hx
            rw [h2flat] at hx
            rw [hcnt]
            exact h1valid q x hx
          · rw [hcnt]; exact hc1
          · rw [hall]; exact ha1
          · rw [hsl]; exact hsl1
          · rw [hsp]; exact hsp1
          · intro i; rw [hgw i]; exact h1cls i
          · rw [hcold]; exact hcold1
          · rw [hwatch]; exact hwatch1
          · intro i hi
            rw [hbey i (by omega : st1.w_count ≤ i)]
            exact h1beyond i hi
          · intro q hq
            rw [hgw q, hst1, getW_removechild_ne st c hq]
          · intro i
            have hsq : ∀ w w1 : Witness, w = w1 → squawks w = squawks w1 := by
              intro w w1 hw; rw [hw]
            rw [hsq _ _ (hgw i), hst1]
            exact removechild_flags st p c i
          · refine ⟨[.exhausted .childPool], ?_, by simp⟩
            rw [hrep2, hst1, removechild_reports]
          · intro hedge'
            rw [edge_iff_mem, h2flat] at hedge'
            exact absurd hedge' h1notc
        | false =>
          have hins : InsertSpec st1 p c st2 := itismychildRaw_ok hR
          have h2mem := hins.mem_iff
          have h2nd : ∀ q, (childrenFlat st2 q).Nodup := by
            intro q
            by_cases hq : q = p
            · rw [hq]
              refine hins.self_perm.nodup_iff.mpr ?_
              rw [List.nodup_append]
              exact ⟨h1nd p, List.nodup_singleton c, by simp [h1notc]⟩
            · unfold childrenFlat
              rw [hins.other q hq]
              exact h1nd q
          refine ⟨?_, h2nd, ?_, ?_, ?_, ?_, ?_, ?_, ?_, ?_, ?_, ?_, ?_, ?_, ?_⟩
          · intro q x hx
            rw [edge_iff_mem, h2mem] at hx
            rcases hx with hx | ⟨rfl, rfl⟩
            · exact h1sub q x (edge_iff_mem.mpr hx)
            · exact hedge
          · intro q x hx
            rw [h2mem] at hx
            rw [hins.count, hc1]
            rcases hx with hx | ⟨hq2, hx2⟩
            · rw [← hc1]; exact h1valid q x hx
            · rw [hx2]; exact hvalid p c hmem
          · rw [hins.count]; exact hc1
          · rw [hins.all]; exact ha1
          · rw [hins.sleep]; exact hsl1
          · rw [hins.spin]; exact hsp1
          · intro i
            rw [hins.cls i]
            exact h1cls i
          · rw [hins.cold]; exact hcold1
          · rw [hins.watch]; exact hwatch1
          · intro i hi
            have hip : i ≠ p := by omega
            rw [hins.beyond i (by omega : st1.w_count ≤ i) hip]
            exact h1beyond i hi
          · intro q hq
            rw [hins.other q hq, hst1, getW_removechild_ne st c hq]
          · intro i
            rw [hins.flags i, hst1]
            exact removechild_flags st p c i
          · refine ReportsExh.of_eq ?_
            rw [hins.reports, hst1, removechild_reports]
          · intro _
            have hrm : ∀ q x, x ∈ childrenFlat (removechild st2 p c) q ↔
                x ∈ childrenFlat st1 q := by
              intro q x
              rw [removechild_mem_iff (h2nd p)
                (by rw [h2mem]; exact Or.inr ⟨rfl, rfl⟩), h2mem]
              constructor
              · rintro ⟨hx | ⟨rfl, rfl⟩, hne⟩
                · exact hx
                · exact absurd ⟨rfl, rfl⟩ hne
              · intro hx
                refine ⟨Or.inl hx, ?_⟩
                rintro ⟨rfl, rfl⟩
                exact h1notc hx
            intro hr
            exact hnreach ((reach_congr_mem hrm).mp hr)

theorem mem_prunePairs {L : List Nat} {p c : Nat} :
    (p, c) ∈ prunePairs L ↔ p ∈ L ∧ c ∈ L := by
  unfold prunePairs
  rw [List.mem_flatMap]
  constructor
  · rintro ⟨c1, hc1, hm⟩
    rw [List.mem_map] at hm
    obtain ⟨p1, hp1, heq⟩ := hm
    cases heq
    exact ⟨hp1, hc1⟩
  · rintro ⟨hp, hc⟩
    exact ⟨c, hc, List.mem_map.mpr ⟨p, hp, rfl⟩⟩

/-- What the whole pruning pass guarantees, relative to its starting
state. -/
structure PassFacts (st st' : WState) (pairs : List (Nat × Nat)) : Prop where
  sub : ∀ q x, Edge st' q x → Edge st q x
  nodup : ∀ q, (childrenFlat st' q).Nodup
  valid : ∀ q x, x ∈ childrenFlat st' q → x < st'.w_count
  count : st'.w_count = st.w_count
  all : st'.w_all = st.w_all
  sleep : st'.w_sleep = st.w_sleep
  spin : st'.w_spin = st.w_spin
  cls : ∀ i, (st'.getW i).w_class = (st.getW i).w_class
  cold : st'.witness_cold = st.witness_cold
  watch : st'.witness_watch = st.witness_watch
  beyond : ∀ i, st.w_count ≤ i → st'.wmap i = st.wmap i
  outside : ∀ q, (∀ pr ∈ pairs, q ≠ pr.1) → (st'.getW q).w_children = (st.getW q).w_children
  flags : ∀ i, squawks (st'.getW i) = squawks (st.getW i)
  reps : ReportsExh st st'
  good : ∀ p c, (p, c) ∈ pairs → Edge st' p c → ¬ Reach (removechild st' p c) p c

/-- Induction over the pruning pass: every processed pair either lost its
direct edge for good, or is essential in the final graph; the edge set only
shrinks, and everything else is framed. -/
theorem prunePass_fold :
    ∀ (pairs : List (Nat × Nat)) (st : WState),
    (∀ q, (childrenFlat st q).Nodup) →
    (∀ q x, x ∈ childrenFlat st q → x < st.w_count) →
    (∀ i, st.w_count ≤ i → st.wmap i = defaultWitness) →
    ∀ {st' : WState}, pairs.foldlM pruneStep st = .ok st' →
    PassFacts st st' pairs := by
  intro pairs
  induction pairs with
  | nil =>
    intro st _ _ _ st' h
    have : st = st' := by
      have h2 : (Except.ok st : Except CPanic WState) = .ok st' := h
      rw [Except.ok.injEq] at h2
      exact h2
    subst this
    exact ⟨fun _ _ hx => hx, by intro q; exact (by assumption : ∀ q, (childrenFlat st q).Nodup) q,
      by intro q x hx; exact (by assumption : ∀ q x, x ∈ childrenFlat st q → x < st.w_count) q x hx,
      rfl, rfl, rfl, rfl, fun _ => rfl, rfl, rfl, fun _ _ => rfl,
      fun _ _ => rfl, fun _ => rfl, ReportsExh.rrefl st, by simp⟩
  | cons pc rest ih =>
    intro st hnd hvalid hdef st' h
    rw [List.foldlM_cons] at h
    cases hstep : pruneStep st pc with
    | error e =>
      rw [hstep] at h
      replace h : (Except.error e : Except CPanic WState) = .ok st' := h
      cases h
    | ok st1 =>
      rw [hstep] at h
      replace h : rest.foldlM pruneStep st1 = .ok st' := h
      obtain ⟨p, c⟩ := pc
      have hf := pruneStep_ok hnd hvalid hdef hstep
      have hdef1 : ∀ i, st1.w_count ≤ i → st1.wmap i = defaultWitness := by
        intro i hi
        rw [hf.count] at hi
        rw [hf.beyond i hi]
        exact hdef i hi
      have hr := ih st1 hf.nodup hf.valid hdef1 h
      refine ⟨fun q x hx => hf.sub q x (hr.sub q x hx), hr.nodup, hr.valid,
        hr.count.trans hf.count, hr.all.trans hf.all, hr.sleep.trans hf.sleep,
        hr.spin.trans hf.spin, fun i => (hr.cls i).trans (hf.cls i),
        hr.cold.trans hf.cold, hr.watch.trans hf.watch, ?_, ?_, 
        fun i => (hr.flags i).trans (hf.flags i), hf.reps.rtrans hr.reps, ?_⟩
      · intro i hi
        have hi1 : st1.w_count ≤ i := by rw [hf.count]; exact hi
        rw [hr.beyond i hi1]
        exact hf.beyond i hi
      · intro q hq
        have hq1 : ∀ pr ∈ rest, q ≠ pr.1 := fun pr hpr => hq pr (by simp [hpr])
        rw [hr.outside q hq1]
        exact hf.otherq q (hq (p, c) (by simp))
      · intro p1 c1 hmem he'
        rcases List.mem_cons.mp hmem with heq | hmem'
        · rw [Prod.mk.injEq] at heq
          obtain ⟨rfl, rfl⟩ := heq
          have he1 : Edge st1 p1 c1 := hr.sub p1 c1 he'
          exact good_mono hr.sub hf.nodup hr.nodup he' (hf.pairGood he1)
        · exact hr.good p1 c1 hmem' he'

/-- A path in a graph whose edges respect a closed node set can be read off
in any other graph agreeing on that set. -/
theorem path_partition {st st' : WState} (S : Nat → Prop)
    (hclosed : ∀ q x, Edge st' q x → S q → S x)
    (hsame : ∀ q, S q → childrenFlat st' q = childrenFlat st q) :
    ∀ {a b : Nat} {xs : List Nat}, S a → isWPath st' a xs b → isWPath st a xs b := by
  intro a b xs
  induction xs generalizing a with
  | nil =>
    intro ha h
    show Edge st a b
    rw [edge_iff_mem, ← hsame a ha]
    exact edge_iff_mem.mp h
  | cons x xs ih =>
    intro ha h
    obtain ⟨h1, h2⟩ := h
    refine ⟨?_, ih (hclosed a x h1 ha) h2⟩
    rw [edge_iff_mem, ← hsame a ha]
    exact edge_iff_mem.mp h1

theorem reach_partition_mono {st st' : WState} (S : Nat → Prop)
    (hclosed : ∀ q x, Edge st' q x → S q → S x)
    (hsame : ∀ q, S q → childrenFlat st' q = childrenFlat st q)
    {a b : Nat} (ha : S a) (h : Reach st' a b) : Reach st a b := by
  obtain ⟨xs, hp⟩ := path_of_reach h
  exact reach_of_path (path_partition S hclosed hsame ha hp)

/-! ## The registry invariant -/

/-- The structural well-formedness of the witness registry: every allocated
witness is on the global list and on the type list matching its class, every
class is exactly one of blockable/non-blockable, child edges point to
allocated witnesses of the same partition without duplicates, and slots past
the allocation point are still zeroed. -/
structure WfW (st : WState) : Prop where
  default_beyond : ∀ i, st.w_count ≤ i → st.wmap i = defaultWitness
  all_iff : ∀ i, i ∈ st.w_all ↔ i < st.w_count
  sleep_mem : ∀ i ∈ st.w_sleep, i < st.w_count
  spin_mem : ∀ i ∈ st.w_spin, i < st.w_count
  class_xor : ∀ i, i < st.w_count →
      (st.getW i).w_class.lc_sleep = !(st.getW i).w_class.lc_spin
  typelist : ∀ i, i < st.w_count →
      (if (st.getW i).w_class.lc_spin then i ∈ st.w_spin else i ∈ st.w_sleep)
  sleep_cls : ∀ i ∈ st.w_sleep, (st.getW i).w_class.lc_sleep = true
  spin_cls : ∀ i ∈ st.w_spin, (st.getW i).w_class.lc_spin = true
  child_valid : ∀ p c, c ∈ childrenFlat st p → c < st.w_count
  child_nodup : ∀ p, (childrenFlat st p).Nodup
  child_partition : ∀ p c, c ∈ childrenFlat st p →
      (st.getW p).w_class.lc_sleep = (st.getW c).w_class.lc_sleep ∧
      (st.getW p).w_class.lc_spin = (st.getW c).w_class.lc_spin

/-- An edge's source is an allocated witness (zeroed slots have no
children). -/
theorem edge_src_valid {st : WState} (hw : WfW st) {p c : Nat}
    (h : c ∈ childrenFlat st p) : p < st.w_count := by
  by_contra hge
  have hd := hw.default_beyond p (by omega)
  have : childrenFlat st p = [] := by
    unfold childrenFlat WState.getW
    rw [hd]
    rfl
  rw [this] at h
  simp at h

theorem WfW.wfw_of_graphEq {st st' : WState} (h : GraphEq st st') (hw : WfW st) :
    WfW st' where
  default_beyond i hi := by
    rw [h.count] at hi
    rw [h.beyond i hi]
    exact hw.default_beyond i hi
  all_iff i := by rw [h.count, h.all]; exact hw.all_iff i
  sleep_mem i hi := by
    rw [h.count]
    exact hw.sleep_mem i (h.sleep ▸ hi)
  spin_mem i hi := by
    rw [h.count]
    exact hw.spin_mem i (h.spin ▸ hi)
  class_xor i hi := by
    rw [h.cls i]
    exact hw.class_xor i (h.count ▸ hi)
  typelist i hi := by
    rw [h.cls i, h.sleep, h.spin]
    exact hw.typelist i (h.count ▸ hi)
  sleep_cls i hi := by
    rw [h.cls i]
    exact hw.sleep_cls i (h.sleep ▸ hi)
  spin_cls i hi := by
    rw [h.cls i]
    exact hw.spin_cls i (h.spin ▸ hi)
  child_valid p c hc := by
    rw [h.count]
    exact hw.child_valid p c (by rwa [h.childrenFlat_eq] at hc)
  child_nodup p := by
    rw [h.childrenFlat_eq]
    exact hw.child_nodup p
  child_partition p c hc := by
    rw [h.cls p, h.cls c]
    exact hw.child_partition p c (by rwa [h.childrenFlat_eq] at hc)

theorem Acyclic.acyclic_of_graphEq {st st' : WState} (h : GraphEq st st')
    (ha : Acyclic st) : Acyclic st' := fun a hr => ha a (h.reach_iff.mp hr)

theorem removechild_graphEq_congr {st st' : WState} (h : GraphEq st st')
    (p c q : Nat) :
    childrenFlat (removechild st' p c) q = childrenFlat (removechild st p c) q := by
  rw [childrenFlat_removechild, childrenFlat_removechild, h.children p]
  split
  · rfl
  · exact h.childrenFlat_eq q

theorem Pruned.pruned_of_graphEq {st st' : WState} (h : GraphEq st st')
    (hp : Pruned st) : Pruned st' := by
  intro p c he
  have he0 : Edge st p c := (h.gedge_iff p c).mp he
  have := hp p c he0
  intro hr
  apply this
  exact (reach_congr_mem fun q x => by
    rw [removechild_graphEq_congr h p c q]).mp hr

theorem childrenFlat_eq_of_children_eq {st st' : WState}
    (hch : ∀ q, (st'.getW q).w_children = (st.getW q).w_children) (q : Nat) :
    childrenFlat st' q = childrenFlat st q := by
  unfold childrenFlat
  rw [hch q]

theorem acyclic_of_children_eq {st st' : WState}
    (hch : ∀ q, (st'.getW q).w_children = (st.getW q).w_children)
    (ha : Acyclic st) : Acyclic st' := by
  intro a hr
  apply ha a
  exact (reach_congr_mem fun q x => by
    rw [childrenFlat_eq_of_children_eq hch q]).mp hr

theorem pruned_of_children_eq {st st' : WState}
    (hch : ∀ q, (st'.getW q).w_children = (st.getW q).w_children)
    (hp : Pruned st) : Pruned st' := by
  intro p c he
  have he0 : Edge st p c := by
    rw [edge_iff_mem, ← childrenFlat_eq_of_children_eq hch p]
    exact edge_iff_mem.mp he
  intro hr
  apply hp p c he0
  refine (reach_congr_mem fun q x => ?_).mp hr
  rw [childrenFlat_removechild, childrenFlat_removechild, hch p]
  split
  · rfl
  · rw [childrenFlat_eq_of_children_eq hch q]

theorem WfW.of_same {st st' : WState}
    (hgw : ∀ q, st'.getW q = st.getW q)
    (hcnt : st'.w_count = st.w_count) (hall : st'.w_all = st.w_all)
    (hsl : st'.w_sleep = st.w_sleep) (hsp : st'.w_spin = st.w_spin)
    (hw : WfW st) : WfW st' where
  default_beyond i hi := by
    show st'.getW i = defaultWitness
    rw [hgw i]
    exact hw.default_beyond i (hcnt ▸ hi)
  all_iff i := by rw [hcnt, hall]; exact hw.all_iff i
  sleep_mem i hi := by rw [hcnt]; exact hw.sleep_mem i (hsl ▸ hi)
  spin_mem i hi := by rw [hcnt]; exact hw.spin_mem i (hsp ▸ hi)
  class_xor i hi := by rw [hgw i]; exact hw.class_xor i (hcnt ▸ hi)
  typelist i hi := by
    rw [hgw i, hsl, hsp]
    exact hw.typelist i (hcnt ▸ hi)
  sleep_cls i hi := by rw [hgw i]; exact hw.sleep_cls i (hsl ▸ hi)
  spin_cls i hi := by rw [hgw i]; exact hw.spin_cls i (hsp ▸ hi)
  child_valid p c hc := by
    rw [hcnt]
    refine hw.child_valid p c ?_
    rwa [show childrenFlat st' p = childrenFlat st p from by
      unfold childrenFlat; rw [hgw p]] at hc
  child_nodup p := by
    rw [show childrenFlat st' p = childrenFlat st p from by
      unfold childrenFlat; rw [hgw p]]
    exact hw.child_nodup p
  child_partition p c hc := by
    rw [hgw p, hgw c]
    refine hw.child_partition p c ?_
    rwa [show childrenFlat st' p = childrenFlat st p from by
      unfold childrenFlat; rw [hgw p]] at hc

theorem leveldescendents_cold (fuel : Nat) :
    ∀ (st : WState) (parent level : Nat),
    (witness_leveldescendents fuel st parent level).witness_cold = st.witness_cold := by
  induction fuel with
  | zero => intro st parent level; rfl
  | succ n ih =>
    intro st parent level
    unfold witness_leveldescendents
    dsimp only
    have hfold : ∀ (l : List Nat) (acc : WState),
        (l.foldl (fun acc c => witness_leveldescendents n acc c (level + 1))
          acc).witness_cold = acc.witness_cold := by
      intro l
      induction l with
      | nil => intro acc; rfl
      | cons x xs ihl => intro acc; rw [List.foldl_cons, ihl, ih]
    rw [hfold]
    split <;> rfl

theorem leveldescendents_watch (fuel : Nat) :
    ∀ (st : WState) (parent level : Nat),
    (witness_leveldescendents fuel st parent level).witness_watch = st.witness_watch := by
  induction fuel with
  | zero => intro st parent level; rfl
  | succ n ih =>
    intro st parent level
    unfold witness_leveldescendents
    dsimp only
    have hfold : ∀ (l : List Nat) (acc : WState),
        (l.foldl (fun acc c => witness_leveldescendents n acc c (level + 1))
          acc).witness_watch = acc.witness_watch := by
      intro l
      induction l with
      | nil => intro acc; rfl
      | cons x xs ihl => intro acc; rw [List.foldl_cons, ihl, ih]
    rw [hfold]
    split <;> rfl

theorem levelall_cold (st : WState) :
    (witness_levelall st).witness_cold = st.witness_cold := by
  unfold witness_levelall
  dsimp only
  have h2 : ∀ (l : List Nat) (acc : WState),
      (l.foldl (fun acc w =>
        if (if (acc.getW w).w_class.lc_sleep then acc.w_sleep else acc.w_spin).any
            (fun w1 => isitmychild acc w1 w) then acc
        else witness_leveldescendents (acc.w_count + 1) acc w 0)
        acc).witness_cold = acc.witness_cold := by
    intro l
    induction l with
    | nil => intro acc; rfl
    | cons x xs ihl =>
      intro acc
      rw [List.foldl_cons, ihl]
      split <;> split <;> first
        | rfl
        | rw [leveldescendents_cold]
  have h1 : ∀ (l : List Nat) (acc : WState),
      (l.foldl (fun acc i =>
        acc.modifyW i fun w => { w with w_level := 0 }) acc).witness_cold
        = acc.witness_cold := by
    intro l
    induction l with
    | nil => intro acc; rfl
    | cons x xs ihl => intro acc; rw [List.foldl_cons, ihl]; rfl
  rw [h2, h1]

theorem levelall_watch (st : WState) :
    (witness_levelall st).witness_watch = st.witness_watch := by
  unfold witness_levelall
  dsimp only
  have h2 : ∀ (l : List Nat) (acc : WState),
      (l.foldl (fun acc w =>
        if (if (acc.getW w).w_class.lc_sleep then acc.w_sleep else acc.w_spin).any
            (fun w1 => isitmychild acc w1 w) then acc
        else witness_leveldescendents (acc.w_count + 1) acc w 0)
        acc).witness_watch = acc.witness_watch := by
    intro l
    induction l with
    | nil => intro acc; rfl
    | cons x xs ihl =>
      intro acc
      rw [List.foldl_cons, ihl]
      split <;> split <;> first
        | rfl
        | rw [leveldescendents_watch]
  have h1 : ∀ (l : List Nat) (acc : WState),
      (l.foldl (fun acc i =>
        acc.modifyW i fun w => { w with w_level := 0 }) acc).witness_watch
        = acc.witness_watch := by
    intro l
    induction l with
    | nil => intro acc; rfl
    | cons x xs ihl => intro acc; rw [List.foldl_cons, ihl]; rfl
  rw [h2, h1]

/-- `itismychildRaw` never renames a witness. -/
theorem itismychildRaw_name (st : WState) (p c i : Nat) :
    ((itismychildRaw st p c).2.getW i).w_name = (st.getW i).w_name := by
  unfold itismychildRaw
  cases h : insertIntoChunks ((st.getW p).w_children) c with
  | some chunks' =>
    dsimp only
    rw [getW_modifyW]
    split
    · next hip => rw [hip]
    · rfl
  | none =>
    dsimp only
    by_cases hz : st.w_child_free_count = 0
    · have hcg : witness_child_get st = (none, { st with witness_dead := true, reports := st.reports ++ [.exhausted .childPool] }) := by
        unfold witness_child_get
        rw [if_pos hz]
      rw [hcg]
      rfl
    · have hcg : witness_child_get st = (some (),
          { st with w_child_free_count := st.w_child_free_count - 1 }) := by
        unfold witness_child_get
        rw [if_neg hz]
      rw [hcg]
      dsimp only
      rw [getW_modifyW]
      split
      · next hip => rw [hip]; rfl
      · rfl

theorem removechild_name (st : WState) (p c i : Nat) :
    ((removechild st p c).getW i).w_name = (st.getW i).w_name := by
  by_cases h : i = p
  · rw [h, getW_removechild_self]
  · rw [getW_removechild_ne st c h]

theorem itismychildR_name {st : WState} {p c : Nat} {b : Bool} {st' : WState}
    (h : itismychildR st p c = .ok (b, st')) (i : Nat) :
    (st'.getW i).w_name = (st.getW i).w_name := by
  unfold itismychildR at h
  split at h
  · cases h
  · rw [Except.ok.injEq] at h
    have h2 := itismychildRaw_name st p c i
    rw [h] at h2
    exact h2

theorem pruneStep_name {st : WState} {pc : Nat × Nat} {st' : WState}
    (h : pruneStep st pc = .ok st') (i : Nat) :
    (st'.getW i).w_name = (st.getW i).w_name := by
  unfold pruneStep at h
  split at h
  · split at h
    · rw [Except.ok.injEq] at h
      subst h
      exact removechild_name st pc.1 pc.2 i
    · cases hr : itismychildR (removechild st pc.1 pc.2) pc.1 pc.2 with
      | error e => rw [hr] at h; cases h
      | ok bs =>
        rw [hr] at h
        obtain ⟨b, st2⟩ := bs
        rw [Except.ok.injEq] at h
        subst h
        rw [itismychildR_name hr i]
        exact removechild_name st pc.1 pc.2 i
  · rw [Except.ok.injEq] at h
    subst h
    rfl

theorem prunePass_name :
    ∀ (ps : List (Nat × Nat)) (st : WState) {st' : WState},
    ps.foldlM pruneStep st = .ok st' →
    ∀ i, (st'.getW i).w_name = (st.getW i).w_name := by
  intro ps
  induction ps with
  | nil =>
    intro st st' h i
    have h2 : (Except.ok st : Except CPanic WState) = .ok st' := h
    rw [Except.ok.injEq] at h2
    rw [← h2]
  | cons pc rest ih =>
    intro st st' h i
    rw [List.foldlM_cons] at h
    cases hstep : pruneStep st pc with
    | error e =>
      rw [hstep] at h
      replace h : (Except.error e : Except CPanic WState) = .ok st' := h
      cases h
    | ok st1 =>
      rw [hstep] at h
      replace h : rest.foldlM pruneStep st1 = .ok st' := h
      rw [ih st1 h i, pruneStep_name hstep i]

theorem leveldescendents_name (fuel : Nat) :
    ∀ (st : WState) (parent level i : Nat),
    ((witness_leveldescendents fuel st parent level).getW i).w_name
      = (st.getW i).w_name := by
  induction fuel with
  | zero => intro st parent level i; rfl
  | succ n ih =>
    intro st parent level i
    unfold witness_leveldescendents
    dsimp only
    have hfold : ∀ (l : List Nat) (acc : WState),
        ((l.foldl (fun acc c => witness_leveldescendents n acc c (level + 1))
          acc).getW i).w_name = (acc.getW i).w_name := by
      intro l
      induction l with
      | nil => intro acc; rfl
      | cons x xs ihl => intro acc; rw [List.foldl_cons, ihl, ih]
    rw [hfold]
    split
    · rw [getW_modifyW]
      split
      · next hip => rw [hip]
      · rfl
    · rfl

theorem levelall_name (st : WState) (i : Nat) :
    ((witness_levelall st).getW i).w_name = (st.getW i).w_name := by
  unfold witness_levelall
  dsimp only
  have h2 : ∀ (l : List Nat) (acc : WState),
      ((l.foldl (fun acc w =>
        if (if (acc.getW w).w_class.lc_sleep then acc.w_sleep else acc.w_spin).any
            (fun w1 => isitmychild acc w1 w) then acc
        else witness_leveldescendents (acc.w_count + 1) acc w 0)
        acc).getW i).w_name = (acc.getW i).w_name := by
    intro l
    induction l with
    | nil => intro acc; rfl
    | cons x xs ihl =>
      intro acc
      rw [List.foldl_cons, ihl]
      split <;> split <;> first
        | rfl
        | rw [leveldescendents_name]
  have h1 : ∀ (l : List Nat) (acc : WState),
      ((l.foldl (fun acc j =>
        acc.modifyW j fun w => { w with w_level := 0 }) acc).getW i).w_name
        = (acc.getW i).w_name := by
    intro l
    induction l with
    | nil => intro acc; rfl
    | cons x xs ihl =>
      intro acc
      rw [List.foldl_cons, ihl, getW_modifyW]
      split
      · next hip => rw [hip]
      · rfl
  rw [h2, h1]

/-- The structural invariant transfers along any rewriting that keeps the
registry lists, every class, every chunk chain and the zeroed tail. -/
theorem WfW.of_parts {st st' : WState}
    (hcnt : st'.w_count = st.w_count) (hall : st'.w_all = st.w_all)
    (hsl : st'.w_sleep = st.w_sleep) (hsp : st'.w_spin = st.w_spin)
    (hcls : ∀ q, (st'.getW q).w_class = (st.getW q).w_class)
    (hch : ∀ q, (st'.getW q).w_children = (st.getW q).w_children)
    (hbey : ∀ i, st.w_count ≤ i → st'.wmap i = st.wmap i)
    (hw : WfW st) : WfW st' where
  default_beyond i hi := by
    rw [hbey i (hcnt ▸ hi)]
    exact hw.default_beyond i (hcnt ▸ hi)
  all_iff i := by rw [hcnt, hall]; exact hw.all_iff i
  sleep_mem i hi := by rw [hcnt]; exact hw.sleep_mem i (hsl ▸ hi)
  spin_mem i hi := by rw [hcnt]; exact hw.spin_mem i (hsp ▸ hi)
  class_xor i hi := by rw [hcls i]; exact hw.class_xor i (hcnt ▸ hi)
  typelist i hi := by
    rw [hcls i, hsl, hsp]
    exact hw.typelist i (hcnt ▸ hi)
  sleep_cls i hi := by rw [hcls i]; exact hw.sleep_cls i (hsl ▸ hi)
  spin_cls i hi := by rw [hcls i]; exact hw.spin_cls i (hsp ▸ hi)
  child_valid p c hc := by
    rw [hcnt]
    exact hw.child_valid p c ((childrenFlat_eq_of_children_eq hch p) ▸ hc)
  child_nodup p := by
    rw [childrenFlat_eq_of_children_eq hch p]
    exact hw.child_nodup p
  child_partition p c hc := by
    rw [hcls p, hcls c]
    exact hw.child_partition p c ((childrenFlat_eq_of_children_eq hch p) ▸ hc)

/-- Everything the outer `itismychild` preserves and establishes, under the
guards `witness_lock` (and the seeding loop) provide: neither endpoint can
reach the other yet, both are allocated witnesses, and the graph is a
well-formed pruned DAG.  Afterwards it is again a well-formed pruned DAG. -/
theorem itismychild_preserves {st : WState} {p c : Nat} {b : Bool} {st2 : WState}
    (hw : WfW st) (hacy : Acyclic st) (hpr : Pruned st)
    (hp : p < st.w_count) (hc : c < st.w_count) (hne : p ≠ c)
    (hnrpc : ¬ Reach st p c) (hnrcp : ¬ Reach st c p)
    (h : itismychild st p c = .ok (b, st2)) :
    WfW st2 ∧ Acyclic st2 ∧ Pruned st2 ∧
    st2.w_count = st.w_count ∧ st2.w_all = st.w_all ∧
    st2.w_sleep = st.w_sleep ∧ st2.w_spin = st.w_spin ∧
    (∀ i, (st2.getW i).w_class = (st.getW i).w_class) ∧
    (∀ i, squawks (st2.getW i) = squawks (st.getW i)) ∧
    st2.witness_cold = st.witness_cold ∧
    st2.witness_watch = st.witness_watch ∧
    ReportsExh st st2 := by
  unfold itismychild at h
  split at h
  · cases h
  next hclseq =>
  rw [not_ne_iff, Prod.mk.injEq] at hclseq
  obtain ⟨hclsleep, hclspin⟩ := hclseq
  cases hraw : itismychildRaw st p c with
  | mk fail st1 =>
    rw [hraw] at h
    cases fail with
    | true =>
      simp only [Except.ok.injEq, Prod.mk.injEq] at h
      obtain ⟨-, rfl⟩ := h
      obtain ⟨hgw, -, hrep, hcnt, hall, hsl, hsp, hcold, hwatch, -⟩ :=
        itismychildRaw_fail hraw
      have hch : ∀ q, (st1.getW q).w_children = (st.getW q).w_children := by
        intro q
        rw [hgw q]
      refine ⟨WfW.of_same hgw hcnt hall hsl hsp hw,
        acyclic_of_children_eq hch hacy, pruned_of_children_eq hch hpr,
        hcnt, hall, hsl, hsp, fun i => by rw [hgw i],
        fun i => by show squawks (st1.getW i) = _; rw [hgw i],
        hcold, hwatch, ⟨[.exhausted .childPool], hrep, by simp⟩⟩
    | false =>
      have hins : InsertSpec st p c st1 := itismychildRaw_ok hraw
      have hnotmem : c ∉ childrenFlat st p := by
        intro hm
        exact hnrpc (Relation.TransGen.single (edge_iff_mem.mpr hm))
      have hnd1 : ∀ q, (childrenFlat st1 q).Nodup := by
        intro q
        by_cases hq : q = p
        · rw [hq]
          refine hins.self_perm.nodup_iff.mpr ?_
          rw [List.nodup_append]
          exact ⟨hw.child_nodup p, List.nodup_singleton c, by simp [hnotmem]⟩
        · rw [show childrenFlat st1 q = childrenFlat st q from by
            unfold childrenFlat; rw [hins.other q hq]]
          exact hw.child_nodup q
      have hvalid1 : ∀ q x, x ∈ childrenFlat st1 q → x < st1.w_count := by
        intro q x hx
        rw [hins.count]
        rcases (hins.mem_iff q x).mp hx with hx | ⟨rfl, rfl⟩
        · exact hw.child_valid q x hx
        · exact hc
      have hdef1 : ∀ i, st1.w_count ≤ i → st1.wmap i = defaultWitness := by
        intro i hi
        rw [hins.count] at hi
        have hip : i ≠ p := by omega
        rw [hins.beyond i hi hip]
        exact hw.default_beyond i hi
      have hacy1 : Acyclic st1 := acyclic_insert hins.iedge_iff hne hnrcp hacy
      -- the pruning pass
      dsimp only at h
      cases hpass : prunePass st1
          (if (st1.getW p).w_class.lc_sleep then st1.w_sleep else st1.w_spin) with
      | error e => rw [hpass] at h; cases h
      | ok stp =>
        rw [hpass] at h
        simp only [Except.ok.injEq, Prod.mk.injEq] at h
        obtain ⟨-, rfl⟩ := h
        have hpf := prunePass_fold _ st1 hnd1 hvalid1 hdef1 hpass
        -- translations
        have hcls1 : ∀ i, (st1.getW i).w_class = (st.getW i).w_class := hins.cls
        have hclsp : ∀ i, (stp.getW i).w_class = (st.getW i).w_class := by
          intro i
          rw [hpf.cls i, hcls1 i]
        have hcntp : stp.w_count = st.w_count := by rw [hpf.count, hins.count]
        have hallp : stp.w_all = st.w_all := by rw [hpf.all, hins.all]
        have hslp : stp.w_sleep = st.w_sleep := by rw [hpf.sleep, hins.sleep]
        have hspp : stp.w_spin = st.w_spin := by rw [hpf.spin, hins.spin]
        have hdefp : ∀ i, stp.w_count ≤ i → stp.wmap i = defaultWitness := by
          intro i hi
          rw [hcntp] at hi
          rw [hpf.beyond i (by rw [hins.count]; exact hi)]
          exact hdef1 i (by rw [hins.count]; exact hi)
        -- well-formedness of the post-pass graph
        have hsub1 : ∀ q x, Edge stp q x → Edge st1 q x := hpf.sub
        have hwp : WfW stp := by
          refine ⟨hdefp, ?_, ?_, ?_, ?_, ?_, ?_, ?_, hpf.valid, hpf.nodup, ?_⟩
          · intro i
            rw [hallp, hcntp]
            exact hw.all_iff i
          · intro i hi
            rw [hcntp]
            exact hw.sleep_mem i (hslp ▸ hi)
          · intro i hi
            rw [hcntp]
            exact hw.spin_mem i (hspp ▸ hi)
          · intro i hi
            rw [hclsp i]
            exact hw.class_xor i (hcntp ▸ hi)
          · intro i hi
            rw [hclsp i, hslp, hspp]
            exact hw.typelist i (hcntp ▸ hi)
          · intro i hi
            rw [hclsp i]
            exact hw.sleep_cls i (hslp ▸ hi)
          · intro i hi
            rw [hclsp i]
            exact hw.spin_cls i (hspp ▸ hi)
          · intro q x hx
            have hx1 : Edge st1 q x := hsub1 q x (edge_iff_mem.mpr hx)
            rw [hclsp q, hclsp x]
            rcases (hins.iedge_iff q x).mp hx1 with hqx | ⟨rfl, rfl⟩
            · exact hw.child_partition q x (edge_iff_mem.mp hqx)
            · exact ⟨hclsleep, hclspin⟩
        have hacyp : Acyclic stp := acyclic_of_sub hpf.sub hacy1
        -- membership of any partition member in the pass list
        have hmemL : ∀ n, n < st.w_count →
            (st.getW n).w_class.lc_sleep = (st.getW p).w_class.lc_sleep →
            n ∈ (if (st1.getW p).w_class.lc_sleep then st1.w_sleep else st1.w_spin) := by
          intro n hn hcl
          rw [hcls1 p, hins.sleep, hins.spin]
          have hx := hw.class_xor n hn
          have ht := hw.typelist n hn
          cases hps : (st.getW p).w_class.lc_sleep with
          | true =>
            rw [hps] at hcl
            rw [if_pos rfl]
            have : (st.getW n).w_class.lc_spin = false := by
              rw [hcl] at hx
              cases hsp2 : (st.getW n).w_class.lc_spin
              · rfl
              · rw [hsp2] at hx; simp at hx
            rw [this] at ht
            simpa using ht
          | false =>
            rw [hps] at hcl
            rw [if_neg (by simp)]
            have : (st.getW n).w_class.lc_spin = true := by
              rw [hcl] at hx
              cases hsp2 : (st.getW n).w_class.lc_spin
              · rw [hsp2] at hx; simp at hx
              · rfl
            rw [this] at ht
            simpa using ht
        have hprp : Pruned stp := by
          intro q x he
          have he1 : Edge st1 q x := hsub1 q x he
          have hqv : q < st.w_count := by
            have := edge_src_valid hwp (edge_iff_mem.mp he)
            rwa [hcntp] at this
          have hxv : x < st.w_count := by
            have := hpf.valid q x (edge_iff_mem.mp he)
            rwa [hpf.count, hins.count] at this
          by_cases hpart : (st.getW q).w_class.lc_sleep = (st.getW p).w_class.lc_sleep
          · -- same partition as the inserted edge: the pass processed it
            have hxcls : (st.getW x).w_class.lc_sleep = (st.getW q).w_class.lc_sleep := by
              have := hwp.child_partition q x (edge_iff_mem.mp he)
              rw [hclsp q, hclsp x] at this
              exact this.1.symm
            have hqL := hmemL q hqv hpart
            have hxL := hmemL x hxv (by rw [hxcls]; exact hpart)
            exact hpf.good q x (mem_prunePairs.mpr ⟨hqL, hxL⟩) he
          · -- the other partition: untouched by both insert and pass
            have hqp : q ≠ p := fun hqp => hpart (by rw [hqp])
            have he0 : Edge st q x := by
              rcases (hins.iedge_iff q x).mp he1 with h0 | ⟨rfl, rfl⟩
              · exact h0
              · exact absurd rfl hqp
            -- the untouched chunk chains
            have hchunks : ∀ n, n < st.w_count →
                (st.getW n).w_class.lc_sleep = (st.getW q).w_class.lc_sleep →
                (stp.getW n).w_children = (st.getW n).w_children := by
              intro n hn hcl
              have hnp : n ≠ p := fun hnp => hpart (by rw [← hnp]; exact hcl.symm ▸ rfl)
              rw [hpf.outside n ?hfirsts, hins.other n hnp]
              case hfirsts =>
                intro pr hpr
                obtain ⟨a, b2⟩ := pr
                have haL : a ∈ (if (st1.getW p).w_class.lc_sleep
                    then st1.w_sleep else st1.w_spin) := (mem_prunePairs.mp hpr).1
                intro hna
                subst hna
                rw [hcls1 p, hins.sleep, hins.spin] at haL
                cases hps : (st.getW p).w_class.lc_sleep with
                | true =>
                  rw [if_pos (by rw [hps])] at haL
                  have := hw.sleep_cls n haL
                  rw [hcl] at this
                  rw [hps] at hpart
                  exact hpart this
                | false =>
                  rw [if_neg (by rw [hps]; simp)] at haL
                  have hspin := hw.spin_cls n haL
                  have hx2 := hw.class_xor n hn
                  rw [hspin] at hx2
                  simp at hx2
                  rw [hcl] at hx2
                  rw [hps] at hpart
                  exact hpart hx2
            have hgood0 := hpr q x he0
            intro hr
            apply hgood0
            refine reach_partition_mono
              (fun n => n < st.w_count ∧
                (st.getW n).w_class.lc_sleep = (st.getW q).w_class.lc_sleep)
              ?_ ?_ ⟨hqv, rfl⟩ hr
            · -- closure of the removal graph over the partition
              intro a y hay ⟨hav, hacl⟩
              have hay2 : Edge stp a y := by
                rw [edge_iff_mem] at hay ⊢
                exact ((removechild_mem_iff (hpf.nodup q)
                  (edge_iff_mem.mp he) a y).mp hay).1
              have hyv : y < st.w_count := by
                have := hpf.valid a y (edge_iff_mem.mp hay2)
                rwa [hcntp] at this
              have := hwp.child_partition a y (edge_iff_mem.mp hay2)
              rw [hclsp a, hclsp y] at this
              exact ⟨hyv, by rw [← this.1]; exact hacl⟩
            · -- the two removal graphs agree on the partition
              intro n ⟨hnv, hncl⟩
              rw [childrenFlat_removechild, childrenFlat_removechild,
                hchunks q hqv rfl]
              split
              · rfl
              · unfold childrenFlat
                rw [hchunks n hnv hncl]
        -- transport through witness_levelall
        have hge : GraphEq stp (witness_levelall stp) :=
          graphEq_levelall stp
            (fun i hi => (hwp.all_iff i).mp hi)
            hwp.child_valid
        refine ⟨hwp.wfw_of_graphEq hge, hacyp.acyclic_of_graphEq hge, hprp.pruned_of_graphEq hge,
          ?_, ?_, ?_, ?_, ?_, ?_, ?_, ?_, ?_⟩
        · rw [hge.count, hcntp]
        · rw [hge.all, hallp]
        · rw [hge.sleep, hslp]
        · rw [hge.spin, hspp]
        · intro i
          rw [hge.cls i, hclsp i]
        · intro i
          rw [hge.flags i, hpf.flags i, hins.flags i]
        · show (witness_levelall stp).witness_cold = st.witness_cold
          rw [levelall_cold, hpf.cold, hins.cold]
        · show (witness_levelall stp).witness_watch = st.witness_watch
          rw [levelall_watch, hpf.watch, hins.watch]
        · refine (ReportsExh.of_eq hins.reports).rtrans (hpf.reps.rtrans ?_)
          exact ReportsExh.of_eq hge.reports

/-- Pushing a fresh witness slot (name, class, refcount 1, no children) onto
the global list and onto the type list of its class preserves the registry
invariant. -/
theorem wfw_fresh {st : WState} {nm : String} {cls : LockClass} {st' : WState}
    (hw : WfW st) (hcl : cls.lc_sleep = !cls.lc_spin)
    (hmap : ∀ j, st'.wmap j = if j = st.w_count then
      { defaultWitness with w_name := nm, w_class := cls, w_refcount := 1 }
      else st.wmap j)
    (hcnt : st'.w_count = st.w_count + 1)
    (hall : st'.w_all = st.w_count :: st.w_all)
    (hlists : (cls.lc_spin = true ∧ st'.w_spin = st.w_count :: st.w_spin ∧
               st'.w_sleep = st.w_sleep) ∨
              (cls.lc_spin = false ∧ cls.lc_sleep = true ∧
               st'.w_sleep = st.w_count :: st.w_sleep ∧ st'.w_spin = st.w_spin)) :
    WfW st' := by
  have hgw : ∀ j, st'.getW j = if j = st.w_count then
      { defaultWitness with w_name := nm, w_class := cls, w_refcount := 1 }
      else st.getW j := hmap
  have hch : ∀ j, (st'.getW j).w_children = (st.getW j).w_children := by
    intro j
    rw [hgw j]
    split
    · next hj =>
      rw [hj]
      have hd : st.getW st.w_count = defaultWitness := hw.default_beyond _ (le_refl _)
      rw [hd]
    · rfl
  have hchf : ∀ j, childrenFlat st' j = childrenFlat st j := by
    intro j
    unfold childrenFlat
    rw [hch j]
  refine ⟨?_, ?_, ?_, ?_, ?_, ?_, ?_, ?_, ?_, ?_, ?_⟩
  · intro i hi
    rw [hcnt] at hi
    rw [hmap i, if_neg (by omega)]
    exact hw.default_beyond i (by omega)
  · intro i
    rw [hall, hcnt, List.mem_cons]
    have := hw.all_iff i
    constructor
    · rintro (rfl | hm)
      · omega
      · have := this.mp hm; omega
    · intro hlt
      by_cases hic : i = st.w_count
      · exact Or.inl hic
      · exact Or.inr (this.mpr (by omega))
  · intro i hi
    rw [hcnt]
    rcases hlists with ⟨-, -, hsl⟩ | ⟨-, -, hsl, -⟩
    · rw [hsl] at hi
      have := hw.sleep_mem i hi; omega
    · rw [hsl] at hi
      rcases List.mem_cons.mp hi with rfl | hm
      · omega
      · have := hw.sleep_mem i hm; omega
  · intro i hi
    rw [hcnt]
    rcases hlists with ⟨-, hsp, -⟩ | ⟨-, -, -, hsp⟩
    · rw [hsp] at hi
      rcases List.mem_cons.mp hi with rfl | hm
      · omega
      · have := hw.spin_mem i hm; omega
    · rw [hsp] at hi
      have := hw.spin_mem i hi; omega
  · intro i hi
    rw [hgw i]
    split
    · exact hcl
    · next hic =>
      rw [hcnt] at hi
      exact hw.class_xor i (by omega)
  · intro i hi
    rw [hgw i]
    split
    · next hic =>
      rcases hlists with ⟨hspin, hsp, -⟩ | ⟨hspin, -, hsl, -⟩
      · show if cls.lc_spin then i ∈ st'.w_spin else i ∈ st'.w_sleep
        rw [hspin]
        simp only [if_true]
        rw [hsp, hic]
        exact List.mem_cons_self _ _
      · show if cls.lc_spin then i ∈ st'.w_spin else i ∈ st'.w_sleep
        rw [hspin]
        simp only [Bool.false_eq_true, if_false]
        rw [hsl, hic]
        exact List.mem_cons_self _ _
    · next hic =>
      rw [hcnt] at hi
      have ht := hw.typelist i (by omega)
      rcases hlists with ⟨-, hsp, hsl⟩ | ⟨-, -, hsl, hsp⟩
      · rw [hsp, hsl]
        split
        · next hc => rw [hc] at ht; simp only [if_true] at ht; exact List.mem_cons_of_mem _ ht
        · next hc => rw [Bool.not_eq_true] at hc; rw [hc] at ht; simpa using ht
      · rw [hsp, hsl]
        split
        · next hc => rw [hc] at ht; simpa using ht
        · next hc =>
          rw [Bool.not_eq_true] at hc; rw [hc] at ht
          simp only [Bool.false_eq_true, if_false] at ht
          exact List.mem_cons_of_mem _ ht
  · intro i hi
    rcases hlists with ⟨-, -, hsl⟩ | ⟨-, hsleep, hsl, -⟩
    · rw [hsl] at hi
      have hic : i ≠ st.w_count := by
        have := hw.sleep_mem i hi; omega
      rw [hgw i, if_neg hic]
      exact hw.sleep_cls i hi
    · rw [hsl] at hi
      rcases List.mem_cons.mp hi with rfl | hm
      · rw [hgw st.w_count, if_pos rfl]
        exact hsleep
      · have hic : i ≠ st.w_count := by
          have := hw.sleep_mem i hm; omega
        rw [hgw i, if_neg hic]
        exact hw.sleep_cls i hm
  · intro i hi
    rcases hlists with ⟨hspin, hsp, -⟩ | ⟨-, -, -, hsp⟩
    · rw [hsp] at hi
      rcases List.mem_cons.mp hi with rfl | hm
      · rw [hgw st.w_count, if_pos rfl]
        exact hspin
      · have hic : i ≠ st.w_count := by
          have := hw.spin_mem i hm; omega
        rw [hgw i, if_neg hic]
        exact hw.spin_cls i hm
    · rw [hsp] at hi
      have hic : i ≠ st.w_count := by
        have := hw.spin_mem i hi; omega
      rw [hgw i, if_neg hic]
      exact hw.spin_cls i hi
  · intro p c hc
    rw [hchf p] at hc
    rw [hcnt]
    have := hw.child_valid p c hc; omega
  · intro p
    rw [hchf p]
    exact hw.child_nodup p
  · intro p c hc
    rw [hchf p] at hc
    have hcv := hw.child_valid p c hc
    have hpv : p < st.w_count := edge_src_valid hw hc
    rw [hgw p, hgw c, if_neg (by omega), if_neg (by omega)]
    exact hw.child_partition p c hc

/-- What a successful `enroll` does to the registry: nothing to the child
graph, nothing to the names of already-allocated witnesses; it either finds
the name (witness count unchanged) or binds the next slot to it, and any
returned witness is an allocated slot. -/
theorem enroll_preserves {st : WState} {nm : String} {cls : LockClass}
    {wopt : Option Nat} {st' : WState}
    (hw : WfW st) (hcl : cls.lc_sleep = !cls.lc_spin)
    (h : enroll st nm cls = .ok (wopt, st')) :
    WfW st' ∧ st.w_count ≤ st'.w_count ∧
    (∀ w, wopt = some w → w < st'.w_count) ∧
    (∀ q, (st'.getW q).w_children = (st.getW q).w_children) ∧
    (∀ i, i < st.w_count → (st'.getW i).w_name = (st.getW i).w_name) ∧
    ((st'.w_count = st.w_count ∧
      (wopt = none ∨ ∃ i, wopt = some i ∧ i < st.w_count ∧ (st.getW i).w_name = nm)) ∨
      (st'.w_count = st.w_count + 1 ∧ wopt = some st.w_count ∧
       (st'.getW st.w_count).w_name = nm)) := by
  unfold enroll at h
  split at h
  · rw [Except.ok.injEq, Prod.mk.injEq] at h
    obtain ⟨hwo, hst⟩ := h
    subst hst
    refine ⟨hw, le_refl _, ?_, fun q => rfl, fun i _ => rfl,
      Or.inl ⟨rfl, Or.inl hwo.symm⟩⟩
    intro w hwo2
    rw [← hwo] at hwo2
    cases hwo2
  · split at h
    · rw [Except.ok.injEq, Prod.mk.injEq] at h
      obtain ⟨hwo, hst⟩ := h
      subst hst
      refine ⟨hw, le_refl _, ?_, fun q => rfl, fun i _ => rfl,
        Or.inl ⟨rfl, Or.inl hwo.symm⟩⟩
      intro w hwo2
      rw [← hwo] at hwo2
      cases hwo2
    · cases hfind : st.w_all.find? (fun i => (st.getW i).w_name = nm) with
      | some i =>
        rw [hfind] at h
        dsimp only at h
        by_cases hclseq : cls ≠ (st.getW i).w_class
        · rw [if_pos hclseq] at h
          cases h
        · rw [if_neg hclseq] at h
          rw [Except.ok.injEq, Prod.mk.injEq] at h
          obtain ⟨hwo, hst⟩ := h
          subst hst
          have hiv : i < st.w_count :=
            (hw.all_iff i).mp (List.mem_of_find?_eq_some hfind)
          have hcls2 : ∀ q, ((st.modifyW i fun w =>
              { w with w_refcount := w.w_refcount + 1 }).getW q).w_class
              = (st.getW q).w_class := by
            intro q
            rw [getW_modifyW]
            split
            · next hq => rw [hq]
            · rfl
          have hch2 : ∀ q, ((st.modifyW i fun w =>
              { w with w_refcount := w.w_refcount + 1 }).getW q).w_children
              = (st.getW q).w_children := by
            intro q
            rw [getW_modifyW]
            split
            · next hq => rw [hq]
            · rfl
          have hwf2 : WfW (st.modifyW i fun w =>
              { w with w_refcount := w.w_refcount + 1 }) := by
            refine WfW.of_parts ?_ ?_ ?_ ?_ hcls2 hch2 ?_ hw
            · rfl
            · rfl
            · rfl
            · rfl
            · intro j hj
              show (if j = i then _ else st.wmap j) = st.wmap j
              rw [if_neg (by omega)]
          have hnmi : (st.getW i).w_name = nm := by
            have := List.find?_some hfind
            simpa using this
          refine ⟨hwf2, le_refl _, ?_, hch2, ?_,
            Or.inl ⟨rfl, Or.inr ⟨i, hwo.symm, hiv, hnmi⟩⟩⟩
          · intro w hwo2
            rw [← hwo] at hwo2
            rw [Option.some.injEq] at hwo2
            subst hwo2
            exact hiv
          · intro q hq
            rw [getW_modifyW]
            split
            · next hq2 => rw [hq2]
            · rfl
      | none =>
        rw [hfind] at h
        dsimp only at h
        by_cases hsc : (cls.lc_spin && !st.witness_cold) = true
        · rw [if_pos hsc] at h
          cases h
        · rw [if_neg hsc] at h
          by_cases hz : st.w_free_count = 0
          · have hwg : witness_get st = (none, { st with witness_dead := true, reports := st.reports ++ [.exhausted .witnessPool] }) := by
              unfold witness_get
              rw [if_pos hz]
            rw [hwg] at h
            dsimp only at h
            rw [Except.ok.injEq, Prod.mk.injEq] at h
            obtain ⟨hwo, hst⟩ := h
            subst hst
            have hwf2 : WfW ({ st with witness_dead := true, reports := st.reports ++ [.exhausted .witnessPool] }) := by
              refine WfW.of_parts ?_ ?_ ?_ ?_ ?_ ?_ ?_ hw
              · rfl
              · rfl
              · rfl
              · rfl
              · intro q
                rfl
              · intro q
                rfl
              · intro j hj
                rfl
            refine ⟨hwf2, le_refl _, ?_, fun q => rfl, fun i _ => rfl,
              Or.inl ⟨rfl, Or.inl hwo.symm⟩⟩
            intro w hwo2
            rw [← hwo] at hwo2
            cases hwo2
          · have hwg : witness_get st = (some st.w_count, { st with wmap := fun j => if j = st.w_count then defaultWitness else st.wmap j, w_count := st.w_count + 1, w_free_count := st.w_free_count - 1 }) := by
              unfold witness_get
              rw [if_neg hz]
            rw [hwg] at h
            dsimp only at h
            by_cases hspin : cls.lc_spin = true
            · rw [if_pos hspin] at h
              rw [Except.ok.injEq, Prod.mk.injEq] at h
              obtain ⟨hwo, hst⟩ := h
              have hw_cnt : st'.w_count = st.w_count + 1 := by
                rw [← hst]
                rfl
              have hw_all : st'.w_all = st.w_count :: st.w_all := by
                rw [← hst]
                rfl
              have hw_spin2 : st'.w_spin = st.w_count :: st.w_spin := by
                rw [← hst]
                rfl
              have hw_sleep2 : st'.w_sleep = st.w_sleep := by
                rw [← hst]
                rfl
              have hmap2 : ∀ j, st'.wmap j = if j = st.w_count
                  then { defaultWitness with w_name := nm, w_class := cls, w_refcount := 1 }
                  else st.wmap j := by
                intro j
                rw [← hst]
                show (if j = st.w_count
                    then { (if st.w_count = st.w_count then defaultWitness else st.wmap st.w_count) with w_name := nm, w_class := cls, w_refcount := 1 }
                    else if j = st.w_count then defaultWitness else st.wmap j) = _
                by_cases hj : j = st.w_count
                · rw [if_pos hj, if_pos hj, if_pos rfl]
                · rw [if_neg hj, if_neg hj, if_neg hj]
              have hwf : WfW st' :=
                wfw_fresh hw hcl hmap2 hw_cnt hw_all (Or.inl ⟨hspin, hw_spin2, hw_sleep2⟩)
              refine ⟨hwf, by rw [hw_cnt]; omega, ?_, ?_, ?_,
                Or.inr ⟨hw_cnt, hwo.symm, ?_⟩⟩
              · intro w hwo2
                rw [← hwo, Option.some.injEq] at hwo2
                subst hwo2
                rw [hw_cnt]
                omega
              · intro q
                show (st'.wmap q).w_children = _
                rw [hmap2 q]
                split
                · next hq =>
                  rw [hq]
                  have hd : st.getW st.w_count = defaultWitness := hw.default_beyond _ (le_refl _)
                  rw [hd]
                · rfl
              · intro i hi
                show (st'.wmap i).w_name = _
                rw [hmap2 i, if_neg (by omega)]
                rfl
              · show (st'.wmap st.w_count).w_name = nm
                rw [hmap2 st.w_count, if_pos rfl]
            · rw [if_neg hspin] at h
              by_cases hsleep : cls.lc_sleep = true
              · rw [if_pos hsleep] at h
                rw [Except.ok.injEq, Prod.mk.injEq] at h
                obtain ⟨hwo, hst⟩ := h
                have hnspin : cls.lc_spin = false := by
                  rw [Bool.not_eq_true] at hspin
                  exact hspin
                have hw_cnt : st'.w_count = st.w_count + 1 := by
                  rw [← hst]
                  rfl
                have hw_all : st'.w_all = st.w_count :: st.w_all := by
                  rw [← hst]
                  rfl
                have hw_sleep2 : st'.w_sleep = st.w_count :: st.w_sleep := by
                  rw [← hst]
                  rfl
                have hw_spin2 : st'.w_spin = st.w_spin := by
                  rw [← hst]
                  rfl
                have hmap2 : ∀ j, st'.wmap j = if j = st.w_count
                    then { defaultWitness with w_name := nm, w_class := cls, w_refcount := 1 }
                    else st.wmap j := by
                  intro j
                  rw [← hst]
                  show (if j = st.w_count
                      then { (if st.w_count = st.w_count then defaultWitness else st.wmap st.w_count) with w_name := nm, w_class := cls, w_refcount := 1 }
                      else if j = st.w_count then defaultWitness else st.wmap j) = _
                  by_cases hj : j = st.w_count
                  · rw [if_pos hj, if_pos hj, if_pos rfl]
                  · rw [if_neg hj, if_neg hj, if_neg hj]
                have hwf : WfW st' :=
                  wfw_fresh hw hcl hmap2 hw_cnt hw_all
                    (Or.inr ⟨hnspin, hsleep, hw_sleep2, hw_spin2⟩)
                refine ⟨hwf, by rw [hw_cnt]; omega, ?_, ?_, ?_,
                  Or.inr ⟨hw_cnt, hwo.symm, ?_⟩⟩
                · intro w hwo2
                  rw [← hwo, Option.some.injEq] at hwo2
                  subst hwo2
                  rw [hw_cnt]
                  omega
                · intro q
                  show (st'.wmap q).w_children = _
                  rw [hmap2 q]
                  split
                  · next hq =>
                    rw [hq]
                    have hd : st.getW st.w_count = defaultWitness := hw.default_beyond _ (le_refl _)
                    rw [hd]
                  · rfl
                · intro i hi
                  show (st'.wmap i).w_name = _
                  rw [hmap2 i, if_neg (by omega)]
                  rfl
                · show (st'.wmap st.w_count).w_name = nm
                  rw [hmap2 st.w_count, if_pos rfl]
              · rw [if_neg hsleep] at h
                cases h

/-- The full `itismychild` never renames a witness. -/
theorem itismychild_name {st : WState} {p c : Nat} {b : Bool} {st' : WState}
    (h : itismychild st p c = .ok (b, st')) (i : Nat) :
    (st'.getW i).w_name = (st.getW i).w_name := by
  unfold itismychild at h
  split at h
  · cases h
  · cases hraw : itismychildRaw st p c with
    | mk fail st1 =>
      rw [hraw] at h
      cases fail with
      | true =>
        simp only [Except.ok.injEq, Prod.mk.injEq] at h
        obtain ⟨-, rfl⟩ := h
        have h1 := itismychildRaw_name st p c i
        rw [hraw] at h1
        exact h1
      | false =>
        dsimp only at h
        cases hpass : prunePass st1
            (if (st1.getW p).w_class.lc_sleep then st1.w_sleep else st1.w_spin) with
        | error e =>
          rw [hpass] at h
          cases h
        | ok stp =>
          rw [hpass] at h
          simp only [Except.ok.injEq, Prod.mk.injEq] at h
          obtain ⟨-, rfl⟩ := h
          have h1 := itismychildRaw_name st p c i
          rw [hraw] at h1
          have h2 := prunePass_name _ st1 hpass i
          rw [levelall_name, h2, h1]

/-- Nothing reaches a node that is the child of no witness. -/
theorem not_reach_into_fresh {st : WState} {w : Nat}
    (hno : ∀ q x, Edge st q x → x ≠ w) {a : Nat} : ¬ Reach st a w := by
  intro hr
  obtain ⟨b, -, he⟩ := Relation.TransGen.tail'_iff.mp hr
  exact hno b w he rfl

/-- Nothing is reachable from a witness with no children. -/
theorem not_reach_from_childless {st : WState} {w : Nat}
    (hch : childrenFlat st w = []) {a : Nat} : ¬ Reach st w a := by
  intro hr
  obtain ⟨b, he, -⟩ := Relation.TransGen.head'_iff.mp hr
  rw [edge_iff_mem, hch] at he
  exact (List.not_mem_nil b) he

/-- Seeding one order-list chain under an already-enrolled head keeps the
graph a well-formed pruned DAG; every witness it adds carries one of the
chain's names. -/
theorem seedChainAux_preserves :
    ∀ (l : List (String × LockClass)) (st : WState) (prev : Nat) {st' : WState},
    WfW st → Acyclic st → Pruned st →
    prev < st.w_count →
    (∀ nc ∈ l, nc.2.lc_sleep = !nc.2.lc_spin) →
    (∀ nc ∈ l, ∀ i, i < st.w_count → (st.getW i).w_name ≠ nc.1) →
    l.Pairwise (fun a b => a.1 ≠ b.1) →
    seedChainAux st prev l = .ok st' →
    WfW st' ∧ Acyclic st' ∧ Pruned st' ∧ st.w_count ≤ st'.w_count ∧
    (∀ i, i < st'.w_count →
      ((st'.getW i).w_name = (st.getW i).w_name ∧ i < st.w_count) ∨
      (st'.getW i).w_name ∈ l.map Prod.fst) := by
  intro l
  induction l with
  | nil =>
    intro st prev st' hw hacy hpr hprev hcls hfresh hnd h
    have h2 : (Except.ok st : Except CPanic WState) = .ok st' := h
    rw [Except.ok.injEq] at h2
    subst h2
    exact ⟨hw, hacy, hpr, le_refl _, fun i hi => Or.inl ⟨rfl, hi⟩⟩
  | cons nc rest ih =>
    intro st prev st' hw hacy hpr hprev hcls hfresh hnd h
    obtain ⟨n, c⟩ := nc
    rw [seedChainAux] at h
    cases henr : enroll st n c with
    | error e =>
      rw [henr] at h
      cases h
    | ok ws =>
      obtain ⟨wopt, st1⟩ := ws
      rw [henr] at h
      cases wopt with
      | none => cases h
      | some w1 =>
        dsimp only at h
        cases hiti : itismychild
            (st1.modifyW w1 fun w => { w with w_file := some "order list" }) prev w1 with
        | error e =>
          rw [hiti] at h
          cases h
        | ok bs =>
          obtain ⟨b, st3⟩ := bs
          rw [hiti] at h
          replace h : seedChainAux st3 w1 rest = .ok st' := h
          have hcl0 : c.lc_sleep = !c.lc_spin := hcls (n, c) (List.mem_cons_self _ _)
          obtain ⟨hw1, hle1, hwopt, hch1, hnames1, hcases⟩ := enroll_preserves hw hcl0 henr
          have hfreshn : ∀ i, i < st.w_count → (st.getW i).w_name ≠ n :=
            fun i hi => hfresh (n, c) (List.mem_cons_self _ _) i hi
          rcases hcases with ⟨hcnt1, hcase⟩ | ⟨hcnt1, hwo1, hname1⟩
          · rcases hcase with hnone | ⟨i, hsome, hiv, hnmi⟩
            · cases hnone
            · rw [Option.some.injEq] at hsome
              exact absurd hnmi (hfreshn i hiv)
          · rw [Option.some.injEq] at hwo1
            subst hwo1
            have hname2 : ∀ i, ((st1.modifyW st.w_count fun w =>
                { w with w_file := some "order list" }).getW i).w_name
                = (st1.getW i).w_name := by
              intro i
              rw [getW_modifyW]
              split
              · next hq => rw [hq]
              · rfl
            have hch2 : ∀ q, ((st1.modifyW st.w_count fun w =>
                { w with w_file := some "order list" }).getW q).w_children
                = (st.getW q).w_children := by
              intro q
              rw [getW_modifyW]
              split
              · next hq => rw [hq, ← hch1 st.w_count]
              · exact hch1 q
            have hwf2 : WfW (st1.modifyW st.w_count fun w =>
                { w with w_file := some "order list" }) := by
              refine WfW.of_parts ?_ ?_ ?_ ?_ ?_ ?_ ?_ hw1
              · rfl
              · rfl
              · rfl
              · rfl
              · intro q
                rw [getW_modifyW]
                split
                · next hq => rw [hq]
                · rfl
              · intro q
                rw [getW_modifyW]
                split
                · next hq => rw [hq]
                · rfl
              · intro j hj
                rw [hcnt1] at hj
                show (if j = st.w_count then _ else st1.wmap j) = st1.wmap j
                rw [if_neg (by omega)]
            have hacy2 : Acyclic (st1.modifyW st.w_count fun w =>
                { w with w_file := some "order list" }) :=
              acyclic_of_children_eq hch2 hacy
            have hpr2 : Pruned (st1.modifyW st.w_count fun w =>
                { w with w_file := some "order list" }) :=
              pruned_of_children_eq hch2 hpr
            have hcnt2 : (st1.modifyW st.w_count fun w =>
                { w with w_file := some "order list" }).w_count = st.w_count + 1 := by
              show st1.w_count = st.w_count + 1
              exact hcnt1
            have hprev2 : prev < (st1.modifyW st.w_count fun w =>
                { w with w_file := some "order list" }).w_count := by
              rw [hcnt2]
              omega
            have hcv : st.w_count < (st1.modifyW st.w_count fun w =>
                { w with w_file := some "order list" }).w_count := by
              rw [hcnt2]
              omega
            have hne : prev ≠ st.w_count := by omega
            have hnr1 : ¬ Reach (st1.modifyW st.w_count fun w =>
                { w with w_file := some "order list" }) prev st.w_count := by
              refine not_reach_into_fresh ?_
              intro q x he
              rw [edge_iff_mem] at he
              rw [show childrenFlat (st1.modifyW st.w_count fun w =>
                { w with w_file := some "order list" }) q = childrenFlat st q from by
                  unfold childrenFlat; rw [hch2 q]] at he
              have := hw.child_valid q x he
              omega
            have hnr2 : ¬ Reach (st1.modifyW st.w_count fun w =>
                { w with w_file := some "order list" }) st.w_count prev := by
              refine not_reach_from_childless ?_
              show ((st1.modifyW st.w_count fun w =>
                { w with w_file := some "order list" }).getW st.w_count).w_children.flatten = _
              rw [hch2 st.w_count]
              have hd : st.getW st.w_count = defaultWitness := hw.default_beyond _ (le_refl _)
              rw [hd]
              rfl
            obtain ⟨hw3, hacy3, hpr3, hcnt3, -, -, -, -, -, -, -, -⟩ :=
              itismychild_preserves hwf2 hacy2 hpr2 hprev2 hcv hne hnr1 hnr2 hiti
            have hname3 : ∀ i, (st3.getW i).w_name = (st1.getW i).w_name := by
              intro i
              rw [itismychild_name hiti i, hname2 i]
            rcases List.pairwise_cons.mp hnd with ⟨hhd, htl⟩
            have hrec := ih st3 st.w_count hw3 hacy3 hpr3
              (by rw [hcnt3, hcnt2]; omega)
              (fun nc2 hm => hcls nc2 (List.mem_cons_of_mem _ hm))
              (by
                intro nc2 hm i hi
                rw [hcnt3, hcnt2] at hi
                rw [hname3 i]
                by_cases hic : i < st.w_count
                · rw [hnames1 i hic]
                  exact hfresh nc2 (List.mem_cons_of_mem _ hm) i hic
                · have : i = st.w_count := by omega
                  rw [this, hname1]
                  exact hhd nc2 hm)
              htl h
            obtain ⟨hwR, hacyR, hprR, hleR, hnamesR⟩ := hrec
            refine ⟨hwR, hacyR, hprR, ?_, ?_⟩
            · rw [hcnt3, hcnt2] at hleR
              omega
            · intro i hi
              rcases hnamesR i hi with ⟨heq, hlt3⟩ | hmem
              · rw [hcnt3, hcnt2] at hlt3
                by_cases hic : i < st.w_count
                · refine Or.inl ⟨?_, hic⟩
                  rw [heq, hname3 i, hnames1 i hic]
                · have hieq : i = st.w_count := by omega
                  refine Or.inr ?_
                  rw [heq, hname3 i, hieq, hname1]
                  simp
              · exact Or.inr (by simpa using Or.inr (by simpa using hmem))

/-- Seeding a whole order-list chain from scratch. -/
theorem seedChain_preserves :
    ∀ (l : List (String × LockClass)) (st : WState) {st' : WState},
    WfW st → Acyclic st → Pruned st →
    (∀ nc ∈ l, nc.2.lc_sleep = !nc.2.lc_spin) →
    (∀ nc ∈ l, ∀ i, i < st.w_count → (st.getW i).w_name ≠ nc.1) →
    l.Pairwise (fun a b => a.1 ≠ b.1) →
    seedChain st l = .ok st' →
    WfW st' ∧ Acyclic st' ∧ Pruned st' ∧ st.w_count ≤ st'.w_count ∧
    (∀ i, i < st'.w_count →
      ((st'.getW i).w_name = (st.getW i).w_name ∧ i < st.w_count) ∨
      (st'.getW i).w_name ∈ l.map Prod.fst) := by
  intro l st st' hw hacy hpr hcls hfresh hnd h
  cases l with
  | nil =>
    have h2 : (Except.ok st : Except CPanic WState) = .ok st' := h
    rw [Except.ok.injEq] at h2
    subst h2
    exact ⟨hw, hacy, hpr, le_refl _, fun i hi => Or.inl ⟨rfl, hi⟩⟩
  | cons nc rest =>
    obtain ⟨n, c⟩ := nc
    rw [seedChain] at h
    cases henr : enroll st n c with
    | error e =>
      rw [henr] at h
      cases h
    | ok ws =>
      obtain ⟨wopt, st1⟩ := ws
      rw [henr] at h
      cases wopt with
      | none => cases h
      | some w0 =>
        dsimp only at h
        replace h : seedChainAux (st1.modifyW w0 fun w =>
          { w with w_file := some "order list" }) w0 rest = .ok st' := h
        have hcl0 : c.lc_sleep = !c.lc_spin := hcls (n, c) (List.mem_cons_self _ _)
        obtain ⟨hw1, hle1, hwopt, hch1, hnames1, hcases⟩ := enroll_preserves hw hcl0 henr
        have hfreshn : ∀ i, i < st.w_count → (st.getW i).w_name ≠ n :=
          fun i hi => hfresh (n, c) (List.mem_cons_self _ _) i hi
        rcases hcases with ⟨hcnt1, hcase⟩ | ⟨hcnt1, hwo1, hname1⟩
        · rcases hcase with hnone | ⟨i, hsome, hiv, hnmi⟩
          · cases hnone
          · rw [Option.some.injEq] at hsome
            exact absurd hnmi (hfreshn i hiv)
        · rw [Option.some.injEq] at hwo1
          subst hwo1
          have hname2 : ∀ i, ((st1.modifyW st.w_count fun w =>
              { w with w_file := some "order list" }).getW i).w_name
              = (st1.getW i).w_name := by
            intro i
            rw [getW_modifyW]
            split
            · next hq => rw [hq]
            · rfl
          have hch2 : ∀ q, ((st1.modifyW st.w_count fun w =>
              { w with w_file := some "order list" }).getW q).w_children
              = (st.getW q).w_children := by
            intro q
            rw [getW_modifyW]
            split
            · next hq => rw [hq, ← hch1 st.w_count]
            · exact hch1 q
          have hwf2 : WfW (st1.modifyW st.w_count fun w =>
              { w with w_file := some "order list" }) := by
            refine WfW.of_parts ?_ ?_ ?_ ?_ ?_ ?_ ?_ hw1
            · rfl
            · rfl
            · rfl
            · rfl
            · intro q
              rw [getW_modifyW]
              split
              · next hq => rw [hq]
              · rfl
            · intro q
              rw [getW_modifyW]
              split
              · next hq => rw [hq]
              · rfl
            · intro j hj
              rw [hcnt1] at hj
              show (if j = st.w_count then _ else st1.wmap j) = st1.wmap j
              rw [if_neg (by omega)]
          have hacy2 : Acyclic (st1.modifyW st.w_count fun w =>
              { w with w_file := some "order list" }) :=
            acyclic_of_children_eq hch2 hacy
          have hpr2 : Pruned (st1.modifyW st.w_count fun w =>
              { w with w_file := some "order list" }) :=
            pruned_of_children_eq hch2 hpr
          have hcnt2 : (st1.modifyW st.w_count fun w =>
              { w with w_file := some "order list" }).w_count = st.w_count + 1 := by
            show st1.w_count = st.w_count + 1
            exact hcnt1
          rcases List.pairwise_cons.mp hnd with ⟨hhd, htl⟩
          have hrec := seedChainAux_preserves rest _ st.w_count hwf2 hacy2 hpr2
            (by rw [hcnt2]; omega)
            (fun nc2 hm => hcls nc2 (List.mem_cons_of_mem _ hm))
            (by
              intro nc2 hm i hi
              rw [hcnt2] at hi
              rw [hname2 i]
              by_cases hic : i < st.w_count
              · rw [hnames1 i hic]
                exact hfresh nc2 (List.mem_cons_of_mem _ hm) i hic
              · have : i = st.w_count := by omega
                rw [this, hname1]
                exact hhd nc2 hm)
            htl h
          obtain ⟨hwR, hacyR, hprR, hleR, hnamesR⟩ := hrec
          refine ⟨hwR, hacyR, hprR, ?_, ?_⟩
          · rw [hcnt2] at hleR
            omega
          · intro i hi
            rcases hnamesR i hi with ⟨heq, hlt3⟩ | hmem
            · rw [hcnt2] at hlt3
              by_cases hic : i < st.w_count
              · refine Or.inl ⟨?_, hic⟩
                rw [heq, hname2 i, hnames1 i hic]
              · have hieq : i = st.w_count := by omega
                refine Or.inr ?_
                rw [heq, hname2 i, hieq, hname1]
                simp
            · exact Or.inr (by simpa using Or.inr (by simpa using hmem))

/-- Seeding every order-list chain. -/
theorem seed_fold_preserves :
    ∀ (chains : List (List (String × LockClass))) (st : WState) {st' : WState},
    WfW st → Acyclic st → Pruned st →
    (∀ ch ∈ chains, ∀ nc ∈ ch, nc.2.lc_sleep = !nc.2.lc_spin) →
    (∀ ch ∈ chains, ∀ nc ∈ ch, ∀ i, i < st.w_count → (st.getW i).w_name ≠ nc.1) →
    (∀ ch ∈ chains, ch.Pairwise (fun a b => a.1 ≠ b.1)) →
    chains.Pairwise (fun c1 c2 => ∀ a ∈ c1, ∀ b2 ∈ c2, a.1 ≠ b2.1) →
    chains.foldlM seedChain st = .ok st' →
    WfW st' ∧ Acyclic st' ∧ Pruned st' ∧ st.w_count ≤ st'.w_count ∧
    (∀ i, i < st'.w_count →
      ((st'.getW i).w_name = (st.getW i).w_name ∧ i < st.w_count) ∨
      (st'.getW i).w_name ∈ chains.flatMap (List.map Prod.fst)) := by
  intro chains
  induction chains with
  | nil =>
    intro st st' hw hacy hpr _ _ _ _ h
    have h2 : (Except.ok st : Except CPanic WState) = .ok st' := h
    rw [Except.ok.injEq] at h2
    subst h2
    exact ⟨hw, hacy, hpr, le_refl _, fun i hi => Or.inl ⟨rfl, hi⟩⟩
  | cons ch rest ih =>
    intro st st' hw hacy hpr hcls hfresh hnd hchnd h
    rw [List.foldlM_cons] at h
    cases hc1 : seedChain st ch with
    | error e =>
      rw [hc1] at h
      replace h : (Except.error e : Except CPanic WState) = .ok st' := h
      cases h
    | ok st1 =>
      rw [hc1] at h
      replace h : rest.foldlM seedChain st1 = .ok st' := h
      obtain ⟨hw1, hacy1, hpr1, hle1, hnames1⟩ := seedChain_preserves ch st hw hacy hpr
        (hcls ch (List.mem_cons_self _ _)) (hfresh ch (List.mem_cons_self _ _))
        (hnd ch (List.mem_cons_self _ _)) hc1
      rcases List.pairwise_cons.mp hchnd with ⟨hhd, htl⟩
      obtain ⟨hwR, hacyR, hprR, hleR, hnamesR⟩ := ih st1 hw1 hacy1 hpr1
        (fun ch2 hm => hcls ch2 (List.mem_cons_of_mem _ hm))
        (by
          intro ch2 hm nc2 hnc i hi
          rcases hnames1 i hi with ⟨heq, hlt⟩ | hmem
          · rw [heq]
            exact hfresh ch2 (List.mem_cons_of_mem _ hm) nc2 hnc i hlt
          · rw [List.mem_map] at hmem
            obtain ⟨a, ha, hna⟩ := hmem
            rw [← hna]
            exact hhd ch2 hm a ha nc2 hnc
        )
        (fun ch2 hm => hnd ch2 (List.mem_cons_of_mem _ hm)) htl h
      refine ⟨hwR, hacyR, hprR, le_trans hle1 hleR, ?_⟩
      intro i hi
      rcases hnamesR i hi with ⟨heq, hlt⟩ | hmem
      · rcases hnames1 i hlt with ⟨heq1, hlt1⟩ | hmem1
        · exact Or.inl ⟨heq.trans heq1, hlt1⟩
        · refine Or.inr ?_
          rw [List.flatMap_cons, List.mem_append]
          exact Or.inl (heq ▸ hmem1)
      · refine Or.inr ?_
        rw [List.flatMap_cons, List.mem_append]
        exact Or.inr hmem

/-- The zeroed pre-boot registry satisfies the invariant trivially. -/
theorem wfw_wstate0 : WfW wstate0 := by
  refine ⟨?_, ?_, ?_, ?_, ?_, ?_, ?_, ?_, ?_, ?_, ?_⟩
  · intro i _
    rfl
  · intro i
    constructor
    · intro hi
      exact absurd hi (List.not_mem_nil i)
    · intro hi
      rw [show wstate0.w_count = 0 from rfl] at hi
      omega
  · intro i hi
    exact absurd hi (List.not_mem_nil i)
  · intro i hi
    exact absurd hi (List.not_mem_nil i)
  · intro i hi
    rw [show wstate0.w_count = 0 from rfl] at hi
    omega
  · intro i hi
    rw [show wstate0.w_count = 0 from rfl] at hi
    omega
  · intro i hi
    exact absurd hi (List.not_mem_nil i)
  · intro i hi
    exact absurd hi (List.not_mem_nil i)
  · intro p c hc
    exact absurd hc (List.not_mem_nil c)
  · intro p
    exact List.nodup_nil
  · intro p c hc
    exact absurd hc (List.not_mem_nil c)

theorem acyclic_wstate0 : Acyclic wstate0 := by
  intro a hr
  exact not_reach_from_childless (show childrenFlat wstate0 a = [] from rfl) hr

theorem pruned_wstate0 : Pruned wstate0 := by
  intro p c he
  rw [edge_iff_mem] at he
  exact absurd he (List.not_mem_nil c)

/-- The machine invariant behind the DAG claim: the registry is well formed,
the child graph is a pruned DAG, every lock object's witness pointer names an
allocated witness, and no held-lock chain carries an empty chunk. -/
structure Inv (sys : Sys) : Prop where
  wf : WfW sys.wst
  acy : Acyclic sys.wst
  pr : Pruned sys.wst
  lockw : ∀ lid w, (sys.getLock lid).lo_witness = some w → w < sys.wst.w_count
  sleepne : ∀ pid ch, ch ∈ sys.sleepChain pid → ch ≠ []
  spinne : ∀ cpu ch, ch ∈ sys.spinChain cpu → ch ≠ []

/-- The lock-enrollment loop at the end of `witness_initialize`. -/
theorem enrollLock_fold :
    ∀ (lids : List Nat) (s : Sys) {s2 : Sys},
    WfW s.wst → Acyclic s.wst → Pruned s.wst →
    (∀ lid w, (s.getLock lid).lo_witness = some w → w < s.wst.w_count) →
    (∀ lid ∈ lids, (s.getLock lid).lo_class.lc_sleep = !(s.getLock lid).lo_class.lc_spin) →
    lids.foldlM (fun (s : Sys) (lid : Nat) =>
      if (s.getLock lid).lo_witnessed then
        match enroll s.wst (s.getLock lid).lo_name (s.getLock lid).lo_class with
        | Except.error e => (Except.error e : Except CPanic Sys)
        | Except.ok (wopt, wst') =>
          Except.ok { s.modifyLock lid (fun lk => { lk with lo_witness := wopt }) with wst := wst' }
      else Except.ok (s.modifyLock lid fun lk => { lk with lo_witness := none })) s = .ok s2 →
    WfW s2.wst ∧ Acyclic s2.wst ∧ Pruned s2.wst ∧
    (∀ lid w, (s2.getLock lid).lo_witness = some w → w < s2.wst.w_count) ∧
    s2.sleepmap = s.sleepmap ∧ s2.spinmap = s.spinmap := by
  intro lids
  induction lids with
  | nil =>
    intro s s2 hw hacy hpr hlk _ h
    have h2 : (Except.ok s : Except CPanic Sys) = .ok s2 := h
    rw [Except.ok.injEq] at h2
    subst h2
    exact ⟨hw, hacy, hpr, hlk, rfl, rfl⟩
  | cons lid rest ih =>
    intro s s2 hw hacy hpr hlk hcls h
    rw [List.foldlM_cons] at h
    by_cases hwit : (s.getLock lid).lo_witnessed
    · rw [if_pos hwit] at h
      cases henr : enroll s.wst (s.getLock lid).lo_name (s.getLock lid).lo_class with
      | error e =>
        rw [henr] at h
        replace h : (Except.error e : Except CPanic Sys) = .ok s2 := h
        cases h
      | ok ws =>
        obtain ⟨wopt, wst1⟩ := ws
        rw [henr] at h
        obtain ⟨hw1, hle1, hwopt, hch1, -, -⟩ :=
          enroll_preserves hw (hcls lid (List.mem_cons_self _ _)) henr
        refine ih { s.modifyLock lid (fun lk => { lk with lo_witness := wopt })
            with wst := wst1 } hw1 (acyclic_of_children_eq hch1 hacy)
          (pruned_of_children_eq hch1 hpr) ?_ ?_ h
        · intro x w hx
          have hx2 : (if x = lid then { s.getLock lid with lo_witness := wopt }
              else s.getLock x).lo_witness = some w := hx
          by_cases hxl : x = lid
          · rw [if_pos hxl] at hx2
            exact hwopt w hx2
          · rw [if_neg hxl] at hx2
            have := hlk x w hx2
            show w < wst1.w_count
            omega
        · intro x hm
          show (if x = lid then { s.getLock lid with lo_witness := wopt }
              else s.getLock x).lo_class.lc_sleep = !(if x = lid then
              { s.getLock lid with lo_witness := wopt }
              else s.getLock x).lo_class.lc_spin
          by_cases hxl : x = lid
          · rw [if_pos hxl]
            exact hcls lid (List.mem_cons_self _ _)
          · rw [if_neg hxl]
            exact hcls x (List.mem_cons_of_mem _ hm)
    · rw [if_neg hwit] at h
      refine ih (s.modifyLock lid fun lk => { lk with lo_witness := none })
        hw hacy hpr ?_ ?_ h
      · intro x w hx
        have hx2 : (if x = lid then { s.getLock lid with lo_witness := none }
            else s.getLock x).lo_witness = some w := hx
        by_cases hxl : x = lid
        · rw [if_pos hxl] at hx2
          exact absurd hx2 (by simp)
        · rw [if_neg hxl] at hx2
          exact hlk x w hx2
      · intro x hm
        show (if x = lid then { s.getLock lid with lo_witness := none }
            else s.getLock x).lo_class.lc_sleep = !(if x = lid then
            { s.getLock lid with lo_witness := none }
            else s.getLock x).lo_class.lc_spin
        by_cases hxl : x = lid
        · rw [if_pos hxl]
          exact hcls lid (List.mem_cons_self _ _)
        · rw [if_neg hxl]
          exact hcls x (List.mem_cons_of_mem _ hm)

theorem inv_emptySys : Inv emptySys := by
  refine ⟨wfw_wstate0, acyclic_wstate0, pruned_wstate0, ?_, ?_, ?_⟩
  · intro lid w hx
    cases hx
  · intro pid ch hm
    exact absurd hm (List.not_mem_nil ch)
  · intro cpu ch hm
    exact absurd hm (List.not_mem_nil ch)

/-- A successful `witness_initialize` establishes the invariant. -/
theorem witnessBoot_inv : ∀ {s : Sys}, witnessBoot = .ok s → Inv s := by
  intro s h
  unfold witnessBoot at h
  dsimp only at h
  cases hfold : order_lists.foldlM seedChain wstate0 with
  | error e =>
    rw [hfold] at h
    cases h
  | ok st =>
    rw [hfold] at h
    dsimp only at h
    obtain ⟨hwS, hacyS, hprS, -, -⟩ := seed_fold_preserves order_lists wstate0
      wfw_wstate0 acyclic_wstate0 pruned_wstate0
      (by decide)
      (by
        intro ch hch nc hnc i hi
        exact absurd hi (by rw [show wstate0.w_count = 0 from rfl]; omega))
      (by decide) (by decide) hfold
    split at h
    · cases h
    · next s3 heq =>
      rw [Except.ok.injEq] at h
      subst h
      obtain ⟨hw3, hacy3, hpr3, hlk3, hslm, hspm⟩ := enrollLock_fold (List.range 2)
        _ hwS hacyS hprS
        (by
          intro lid w hx
          have hx2 : (if lid = 0 then giantLock0 else if lid = 1 then allMtxLock
              else defaultLockObject).lo_witness = some w := hx
          by_cases h0 : lid = 0
          · rw [if_pos h0] at hx2
            cases hx2
          · rw [if_neg h0] at hx2
            by_cases h1 : lid = 1
            · rw [if_pos h1] at hx2
              cases hx2
            · rw [if_neg h1] at hx2
              cases hx2)
        (by
          intro lid hm
          rw [List.mem_range] at hm
          have h01 : lid = 0 ∨ lid = 1 := by omega
          rcases h01 with rfl | rfl
          · show giantLock0.lo_class.lc_sleep = !giantLock0.lo_class.lc_spin
            decide
          · show allMtxLock.lo_class.lc_sleep = !allMtxLock.lo_class.lc_spin
            decide)
        heq
      refine ⟨?_, ?_, ?_, ?_, ?_, ?_⟩
      · show WfW ({ s3.wst with witness_cold := false } : WState)
        refine WfW.of_parts ?_ ?_ ?_ ?_ ?_ ?_ ?_ hw3
        · rfl
        · rfl
        · rfl
        · rfl
        · intro q
          rfl
        · intro q
          rfl
        · intro j hj
          rfl
      · exact @acyclic_of_children_eq s3.wst _ (fun q => rfl) hacy3
      · exact @pruned_of_children_eq s3.wst _ (fun q => rfl) hpr3
      · intro lid w hx
        exact hlk3 lid w hx
      · intro pid ch hm
        have hm2 : ch ∈ ([] : List (List Nat)) := by
          have he : ({ s3 with wst := { s3.wst with witness_cold := false } } : Sys).sleepChain pid
              = s3.sleepmap pid := rfl
          rw [he, hslm] at hm
          exact hm
        exact absurd hm2 (List.not_mem_nil ch)
      · intro cpu ch hm
        have hm2 : ch ∈ ([] : List (List Nat)) := by
          have he : ({ s3 with wst := { s3.wst with witness_cold := false } } : Sys).spinChain cpu
              = s3.spinmap cpu := rfl
          rw [he, hspm] at hm
          exact hm
        exact absurd hm2 (List.not_mem_nil ch)

/-- The state after boot satisfies the invariant. -/
theorem inv_initSys : Inv initSys := by
  cases hb : witnessBoot with
  | ok s =>
    have he : initSys = s := by
      unfold initSys
      rw [hb]
    rw [he]
    exact witnessBoot_inv hb
  | error e =>
    have he : initSys = emptySys := by
      unfold initSys
      rw [hb]
    rw [he]
    exact inv_emptySys

/-- A chunk the violation scan rejected has no violating entry. -/
theorem chunkScanDown_none {sys : Sys} {wid : Nat} {c : List Nat} :
    ∀ i, chunkScanDown sys wid c i = none →
    ∀ j, j ≤ i → violEntry sys wid (c.getD j 0) = false := by
  intro i
  induction i with
  | zero =>
    intro h j hj
    have hj0 : j = 0 := by omega
    subst hj0
    rw [chunkScanDown] at h
    split at h
    · cases h
    · next hv => exact Bool.eq_false_iff.mpr hv
  | succ n ihn =>
    intro h j hj
    rw [chunkScanDown] at h
    split at h
    · cases h
    · next hv =>
      by_cases hjn : j = n + 1
      · subst hjn
        exact Bool.eq_false_iff.mpr hv
      · exact ihn h j (by omega)

/-- When the violation scan over the whole chain finds nothing, no held
entry violates. -/
theorem findViolationAux_none {sys : Sys} {wid : Nat} :
    ∀ {chain : List (List Nat)}, findViolationAux sys wid chain = none →
    ∀ c ∈ chain, ∀ lid ∈ c, violEntry sys wid lid = false := by
  intro chain
  induction chain with
  | nil =>
    intro h c hc
    exact absurd hc (List.not_mem_nil c)
  | cons c0 rest ih =>
    intro h c hc lid hl
    rw [findViolationAux] at h
    split at h
    · next hemp =>
      rcases List.mem_cons.mp hc with rfl | hcr
      · rw [List.isEmpty_iff] at hemp
        rw [hemp] at hl
        exact absurd hl (List.not_mem_nil lid)
      · exact ih h c hcr lid hl
    · next hemp =>
      cases hscan : chunkScanDown sys wid c0 (c0.length - 1) with
      | some v =>
        rw [hscan] at h
        cases h
      | none =>
        rw [hscan] at h
        rcases List.mem_cons.mp hc with rfl | hcr
        · obtain ⟨j, hjl, hje⟩ := List.getElem_of_mem hl
          have hv := chunkScanDown_none _ hscan j (by omega)
          rw [List.getD_eq_getElem?_getD, List.getElem?_eq_getElem hjl] at hv
          rw [Option.getD_some] at hv
          rw [hje] at hv
          exact hv
        · exact ih h c hcr lid hl

/-- Removing an entry never leaves an empty chunk on the chain. -/
theorem removeFromChain_ne :
    ∀ {chain : List (List Nat)} {x : Nat} {chain' : List (List Nat)} {b : Bool},
    (∀ c ∈ chain, c ≠ []) → removeFromChain chain x = some (chain', b) →
    ∀ c ∈ chain', c ≠ [] := by
  intro chain
  induction chain with
  | nil =>
    intro x chain' b _ h
    cases h
  | cons c0 rest ih =>
    intro x chain' b hne h
    rw [removeFromChain] at h
    cases hf : c0.findIdx? (fun y => y = x) with
    | some i =>
      rw [hf] at h
      dsimp only at h
      split at h
      · next hemp =>
        rw [Option.some.injEq, Prod.mk.injEq] at h
        obtain ⟨hh, -⟩ := h
        subst hh
        intro c hc
        exact hne c (List.mem_cons_of_mem _ hc)
      · next hemp =>
        rw [Option.some.injEq, Prod.mk.injEq] at h
        obtain ⟨hh, -⟩ := h
        subst hh
        intro c hc
        rcases List.mem_cons.mp hc with rfl | hcr
        · intro hc0
          exact hemp (by rw [hc0]; rfl)
        · exact hne c (List.mem_cons_of_mem _ hcr)
    | none =>
      rw [hf] at h
      cases hr : removeFromChain rest x with
      | none =>
        rw [hr] at h
        cases h
      | some rb =>
        rw [hr] at h
        obtain ⟨r1, b1⟩ := rb
        rw [Option.map_some', Option.some.injEq, Prod.mk.injEq] at h
        obtain ⟨hh, -⟩ := h
        subst hh
        intro c hc
        rcases List.mem_cons.mp hc with rfl | hcr
        · exact hne c (List.mem_cons_self _ _)
        · exact ih (fun c2 hc2 => hne c2 (List.mem_cons_of_mem _ hc2)) hr c hcr

/-- Transfer of the three graph invariants along a rewriting that keeps
count, the lists, every class and chunk chain, and the zeroed tail. -/
theorem wparts_inv {st st' : WState}
    (hw : WfW st) (hacy : Acyclic st) (hpr : Pruned st)
    (hcnt : st'.w_count = st.w_count) (hall : st'.w_all = st.w_all)
    (hsl : st'.w_sleep = st.w_sleep) (hsp : st'.w_spin = st.w_spin)
    (hcls : ∀ q, (st'.getW q).w_class = (st.getW q).w_class)
    (hch : ∀ q, (st'.getW q).w_children = (st.getW q).w_children)
    (hbey : ∀ i, st.w_count ≤ i → st'.wmap i = st.wmap i) :
    WfW st' ∧ Acyclic st' ∧ Pruned st' :=
  ⟨WfW.of_parts hcnt hall hsl hsp hcls hch hbey hw,
   acyclic_of_children_eq hch hacy, pruned_of_children_eq hch hpr⟩

/-- Replacing the verifier state by one with the same registry data (only
pool counters, flags or the report log changed) keeps the invariant. -/
theorem inv_set_wst_aux {sys : Sys} {wst' : WState} (hinv : Inv sys)
    (hmap : wst'.wmap = sys.wst.wmap) (hcnt : wst'.w_count = sys.wst.w_count)
    (hall : wst'.w_all = sys.wst.w_all) (hsl : wst'.w_sleep = sys.wst.w_sleep)
    (hsp : wst'.w_spin = sys.wst.w_spin) :
    Inv { sys with wst := wst' } := by
  obtain ⟨hwf, hacy, hpr⟩ := wparts_inv hinv.wf hinv.acy hinv.pr hcnt hall hsl hsp
    (fun q => by show (wst'.wmap q).w_class = _; rw [hmap]; rfl)
    (fun q => by show (wst'.wmap q).w_children = _; rw [hmap]; rfl)
    (fun i hi => by rw [hmap])
  refine ⟨hwf, hacy, hpr, ?_, hinv.sleepne, hinv.spinne⟩
  intro lid w hx
  show w < wst'.w_count
  rw [hcnt]
  exact hinv.lockw lid w hx

theorem inv_setSleepChain {sys : Sys} {pid : Nat} {chain' : List (List Nat)}
    (hinv : Inv sys) (hne : ∀ c ∈ chain', c ≠ []) :
    Inv (sys.setSleepChain pid chain') := by
  refine ⟨hinv.wf, hinv.acy, hinv.pr, hinv.lockw, ?_, hinv.spinne⟩
  intro p2 ch hm
  have hm2 : ch ∈ (if p2 = pid then chain' else sys.sleepmap p2) := hm
  by_cases hp : p2 = pid
  · rw [if_pos hp] at hm2
    exact hne ch hm2
  · rw [if_neg hp] at hm2
    exact hinv.sleepne p2 ch hm2

theorem inv_setSpinChain {sys : Sys} {cpu : Nat} {chain' : List (List Nat)}
    (hinv : Inv sys) (hne : ∀ c ∈ chain', c ≠ []) :
    Inv (sys.setSpinChain cpu chain') := by
  refine ⟨hinv.wf, hinv.acy, hinv.pr, hinv.lockw, hinv.sleepne, ?_⟩
  intro p2 ch hm
  have hm2 : ch ∈ (if p2 = cpu then chain' else sys.spinmap p2) := hm
  by_cases hp : p2 = cpu
  · rw [if_pos hp] at hm2
    exact hne ch hm2
  · rw [if_neg hp] at hm2
    exact hinv.spinne p2 ch hm2

theorem inv_modifyLock {sys : Sys} {lid : Nat} {f : LockObject → LockObject}
    (hinv : Inv sys)
    (hf : (f (sys.getLock lid)).lo_witness = (sys.getLock lid).lo_witness) :
    Inv (sys.modifyLock lid f) := by
  refine ⟨hinv.wf, hinv.acy, hinv.pr, ?_, hinv.sleepne, hinv.spinne⟩
  intro x w hx
  have hx2 : (if x = lid then f (sys.getLock lid) else sys.getLock x).lo_witness
      = some w := hx
  by_cases hxl : x = lid
  · rw [if_pos hxl, hf] at hx2
    exact hinv.lockw lid w hx2
  · rw [if_neg hxl] at hx2
    exact hinv.lockw x w hx2

theorem inv_modifyW {sys : Sys} {i : Nat} {f : Witness → Witness}
    (hinv : Inv sys) (hi : i < sys.wst.w_count)
    (hfc : (f (sys.wst.getW i)).w_class = (sys.wst.getW i).w_class)
    (hfch : (f (sys.wst.getW i)).w_children = (sys.wst.getW i).w_children) :
    Inv { sys with wst := sys.wst.modifyW i f } := by
  obtain ⟨hwf, hacy, hpr⟩ := @wparts_inv sys.wst (sys.wst.modifyW i f)
    hinv.wf hinv.acy hinv.pr rfl rfl rfl rfl
    (by
      intro q
      rw [getW_modifyW]
      split
      · next hq =>
        rw [hq]
        exact hfc
      · rfl)
    (by
      intro q
      rw [getW_modifyW]
      split
      · next hq =>
        rw [hq]
        exact hfch
      · rfl)
    (by
      intro j hj
      show (if j = i then _ else sys.wst.wmap j) = sys.wst.wmap j
      rw [if_neg (by omega)])
  refine ⟨hwf, hacy, hpr, ?_, hinv.sleepne, hinv.spinne⟩
  intro lid w hx
  show w < sys.wst.w_count
  exact hinv.lockw lid w hx

/-- The `out:` tail of `witness_lock` preserves the invariant whenever the
acquired witness is an allocated one. -/
theorem witness_lock_out_inv {sys : Sys} {pid cpu lockid wid : Nat}
    {file : String} {line : Int}
    (hinv : Inv sys) (hwid : wid < sys.wst.w_count) :
    Inv (witness_lock_out sys pid cpu lockid wid file line) := by
  have hbase : Inv (({ sys with wst := sys.wst.modifyW wid fun w =>
      { w with w_file := some file, w_line := line } } : Sys).modifyLock lockid
      fun lk => { lk with lo_file := some file, lo_line := line }) :=
    inv_modifyLock (inv_modifyW hinv hwid rfl rfl) rfl
  unfold witness_lock_out
  dsimp only
  set Y := ({ sys with wst := sys.wst.modifyW wid fun w =>
      { w with w_file := some file, w_line := line } } : Sys).modifyLock lockid
      (fun lk => { lk with lo_file := some file, lo_line := line }) with hY
  have hmidc : ∀ wst2 : WState, wst2.wmap = Y.wst.wmap → wst2.w_count = Y.wst.w_count →
      wst2.w_all = Y.wst.w_all → wst2.w_sleep = Y.wst.w_sleep →
      wst2.w_spin = Y.wst.w_spin → Inv ({ Y with wst := wst2 } : Sys) := by
    intro wst2 h1 h2 h3 h4 h5
    exact inv_set_wst_aux hbase h1 h2 h3 h4 h5
  split
  · -- blockable class: the context's sleep chain
    split
    · -- no chunk or full head chunk: take one from the pool
      by_cases hz : sys.wst.w_lock_list_free_count = 0
      · have hwg : witness_lock_list_get Y.wst = (none, { Y.wst with
            witness_dead := true,
            reports := Y.wst.reports ++ [.exhausted .lockListPool] }) := by
          unfold witness_lock_list_get
          rw [if_pos (show Y.wst.w_lock_list_free_count = 0 from hz)]
        rw [hwg]
        exact hmidc _ rfl rfl rfl rfl rfl
      · have hwg : witness_lock_list_get Y.wst = (some (), { Y.wst with
            w_lock_list_free_count := Y.wst.w_lock_list_free_count - 1 }) := by
          unfold witness_lock_list_get
          rw [if_neg (show ¬ Y.wst.w_lock_list_free_count = 0 from hz)]
        rw [hwg]
        refine inv_setSleepChain (hmidc _ rfl rfl rfl rfl rfl) ?_
        intro c hc
        rcases List.mem_cons.mp hc with rfl | hcr
        · simp
        · exact hbase.sleepne pid c hcr
    · refine inv_setSleepChain hbase ?_
      intro c hc
      rcases List.mem_cons.mp hc with rfl | hcr
      · simp
      · exact hbase.sleepne pid c (List.mem_of_mem_tail hcr)
  · -- non-blockable class: the processor's spin chain
    split
    · by_cases hz : sys.wst.w_lock_list_free_count = 0
      · have hwg : witness_lock_list_get Y.wst = (none, { Y.wst with
            witness_dead := true,
            reports := Y.wst.reports ++ [.exhausted .lockListPool] }) := by
          unfold witness_lock_list_get
          rw [if_pos (show Y.wst.w_lock_list_free_count = 0 from hz)]
        rw [hwg]
        exact hmidc _ rfl rfl rfl rfl rfl
      · have hwg : witness_lock_list_get Y.wst = (some (), { Y.wst with
            w_lock_list_free_count := Y.wst.w_lock_list_free_count - 1 }) := by
          unfold witness_lock_list_get
          rw [if_neg (show ¬ Y.wst.w_lock_list_free_count = 0 from hz)]
        rw [hwg]
        refine inv_setSpinChain (hmidc _ rfl rfl rfl rfl rfl) ?_
        intro c hc
        rcases List.mem_cons.mp hc with rfl | hcr
        · simp
        · exact hbase.spinne cpu c hcr
    · refine inv_setSpinChain hbase ?_
      intro c hc
      rcases List.mem_cons.mp hc with rfl | hcr
      · simp
      · exact hbase.spinne cpu c (List.mem_of_mem_tail hcr)

theorem getLastD_mem {l : List Nat} (h : l ≠ []) (d : Nat) : l.getLastD d ∈ l := by
  rw [List.getLastD_eq_getLast?, List.getLast?_eq_getLast l h, Option.getD_some]
  exact List.getLast_mem h

/-- `witness_lock` preserves the invariant: every branch either leaves the
graph alone (possibly flipping squawk flags, appending diagnostics and
pushing the lock) or learns one order edge through `itismychild` under
exactly the guards that keep the graph a pruned DAG. -/
theorem witness_lock_inv {sys : Sys} {pid cpu lockid : Nat} {flags : LockFlags}
    {file : String} {line : Int} {sys2 : Sys}
    (hinv : Inv sys)
    (h : witness_lock sys pid cpu lockid flags file line = .ok sys2) :
    Inv sys2 := by
  unfold witness_lock at h
  by_cases hdead : (sys.wst.witness_cold || sys.wst.witness_dead || sys.panicstr) = true
  · rw [if_pos hdead] at h
    rw [Except.ok.injEq] at h
    subst h
    exact hinv
  · rw [if_neg hdead] at h
    cases hlw : (sys.getLock lockid).lo_witness with
    | none =>
      rw [hlw] at h
      rw [Except.ok.injEq] at h
      subst h
      exact hinv
    | some wid =>
      rw [hlw] at h
      dsimp only at h
      have hwid : wid < sys.wst.w_count := hinv.lockw lockid wid hlw
      have hout : Inv (witness_lock_out sys pid cpu lockid wid file line) :=
        witness_lock_out_inv hinv hwid
      have hb : ∀ p c, Edge sys.wst p c → c < sys.wst.w_count :=
        fun p c he => hinv.wf.child_valid p c (edge_iff_mem.mp he)
      set C := (if (sys.getLock lockid).lo_class.lc_sleep = true then sys.sleepChain pid
        else sys.spinChain cpu) with hC
      by_cases hlocked : (!(sys.getLock lockid).lo_locked) = true
      · rw [if_pos hlocked] at h
        cases h
      · rw [if_neg hlocked] at h
        by_cases hrec : (sys.getLock lockid).lo_recursed = true
        · rw [if_pos hrec] at h
          by_cases hrecable : (!(sys.getLock lockid).lo_recursable) = true
          · rw [if_pos hrecable] at h
            cases h
          · rw [if_neg hrecable] at h
            rw [Except.ok.injEq] at h
            subst h
            exact hinv
        · rw [if_neg hrec] at h
          by_cases hbs : ((sys.getLock lockid).lo_class.lc_sleep
              && !(sys.spinChain cpu).isEmpty) = true
          · rw [if_pos hbs] at h
            cases h
          · rw [if_neg hbs] at h
            by_cases htry : flags.trylock = true
            · rw [if_pos htry] at h
              rw [Except.ok.injEq] at h
              subst h
              exact hout
            · rw [if_neg htry] at h
              by_cases hemp : C.isEmpty = true
              · rw [if_pos hemp] at h
                rw [Except.ok.injEq] at h
                subst h
                exact hout
              · rw [if_neg hemp] at h
                by_cases hdup : (sys.getLock ((C.headD []).getLastD 0)).lo_witness
                    = some wid
                · rw [if_pos hdup] at h
                  by_cases hsq : ((sys.wst.getW wid).w_same_squawked
                      || dup_ok (sys.wst.getW wid)) = true
                  · rw [if_pos hsq] at h
                    rw [Except.ok.injEq] at h
                    subst h
                    exact hout
                  · rw [if_neg hsq] at h
                    rw [Except.ok.injEq] at h
                    subst h
                    have hflag : Inv ({ sys with wst := sys.wst.modifyW wid fun w =>
                        { w with w_same_squawked := true } } : Sys) :=
                      inv_modifyW hinv hwid rfl rfl
                    have hrep := @inv_set_wst_aux _ ((sys.wst.modifyW wid fun w => { w with w_same_squawked := true }).addReport (.duplicate wid)) hflag rfl rfl rfl rfl rfl
                    exact witness_lock_out_inv hrep hwid
                · rw [if_neg hdup] at h
                  cases hw1opt : (sys.getLock ((C.headD []).getLastD 0)).lo_witness with
                  | none =>
                    rw [hw1opt] at h
                    cases h
                  | some w1 =>
                    rw [hw1opt] at h
                    dsimp only at h
                    split at h
                    · -- level fast path
                      rw [Except.ok.injEq] at h
                      subst h
                      exact hout
                    · split at h
                      · -- already ordered
                        rw [Except.ok.injEq] at h
                        subst h
                        exact hout
                      · next hdesc =>
                        cases hscan : findViolationAux sys wid C with
                        | some v =>
                          obtain ⟨lock1v, cs, i⟩ := v
                          rw [hscan] at h
                          dsimp only at h
                          cases heqw1v : (sys.getLock lock1v).lo_witness with
                          | none =>
                            rw [heqw1v] at h
                            cases h
                          | some w1v =>
                            rw [heqw1v] at h
                            dsimp only at h
                            have hw1v : w1v < sys.wst.w_count :=
                              hinv.lockw _ w1v heqw1v
                            split at h
                            · rw [Except.ok.injEq] at h
                              subst h
                              exact hout
                            · split at h
                              · split at h
                                · rw [Except.ok.injEq] at h
                                  subst h
                                  exact hout
                                · rw [Except.ok.injEq] at h
                                  subst h
                                  have hflag : Inv ({ sys with wst := sys.wst.modifyW w1v fun w => { w with w_Giant_squawked := true } } : Sys) :=
                                    inv_modifyW hinv hw1v rfl rfl
                                  have hrep := @inv_set_wst_aux _ ((sys.wst.modifyW w1v fun w => { w with w_Giant_squawked := true }).addReport (.reversal wid w1v true lock1v (earlierScan sys wid cs i) lockid)) hflag rfl rfl rfl rfl rfl
                                  exact witness_lock_out_inv hrep hwid
                              · split at h
                                · rw [Except.ok.injEq] at h
                                  subst h
                                  exact hout
                                · rw [Except.ok.injEq] at h
                                  subst h
                                  have hflag : Inv ({ sys with wst := sys.wst.modifyW w1v fun w => { w with w_other_squawked := true } } : Sys) :=
                                    inv_modifyW hinv hw1v rfl rfl
                                  have hrep := @inv_set_wst_aux _ ((sys.wst.modifyW w1v fun w => { w with w_other_squawked := true }).addReport (.reversal wid w1v false lock1v (earlierScan sys wid cs i) lockid)) hflag rfl rfl rfl rfl rfl
                                  exact witness_lock_out_inv hrep hwid
                        | none =>
                          rw [hscan] at h
                          dsimp only at h
                          cases hiti : itismychild sys.wst w1 wid with
                          | error e =>
                            rw [hiti] at h
                            cases h
                          | ok bs =>
                            obtain ⟨b2, wst3⟩ := bs
                            rw [hiti] at h
                            rw [Except.ok.injEq] at h
                            subst h
                            have hpwv : w1 < sys.wst.w_count :=
                              hinv.lockw _ w1 hw1opt
                            have hne : w1 ≠ wid := by
                              intro he
                              rw [he] at hw1opt
                              exact hdup hw1opt
                            have hnrpc : ¬ Reach sys.wst w1 wid := by
                              refine not_reach_of_dfs_false hb ?_
                              exact Bool.eq_false_iff.mpr hdesc
                            have hnrcp : ¬ Reach sys.wst wid w1 := by
                              refine not_reach_of_dfs_false hb ?_
                              cases hchn : C with
                              | nil =>
                                rw [hchn] at hemp
                                simp at hemp
                              | cons c0 rest =>
                                have hc0ne : c0 ≠ [] := by
                                  by_cases hcl2 : (sys.getLock lockid).lo_class.lc_sleep = true
                                  · rw [hC, if_pos hcl2] at hchn
                                    exact hinv.sleepne pid c0
                                      (by rw [hchn]; exact List.mem_cons_self _ _)
                                  · rw [hC, if_neg hcl2] at hchn
                                    exact hinv.spinne cpu c0
                                      (by rw [hchn]; exact List.mem_cons_self _ _)
                                have hviol := findViolationAux_none
                                  (by rw [← hchn]; exact hscan)
                                  c0 (List.mem_cons_self _ _) (c0.getLastD 0)
                                  (getLastD_mem hc0ne 0)
                                have heqpw := hw1opt
                                rw [hchn] at heqpw
                                unfold violEntry at hviol
                                rw [show ((c0 :: rest).headD []) = c0 from rfl] at heqpw
                                rw [heqpw] at hviol
                                exact hviol
                            obtain ⟨hw3, hacy3, hpr3, hcnt3, -, -, -, -, -, -, -, -⟩ :=
                              itismychild_preserves hinv.wf hinv.acy hinv.pr hpwv hwid
                                hne hnrpc hnrcp hiti
                            have hmid : Inv ({ sys with wst := wst3 } : Sys) := by
                              refine ⟨hw3, hacy3, hpr3, ?_, hinv.sleepne, hinv.spinne⟩
                              intro x w hx
                              show w < wst3.w_count
                              rw [hcnt3]
                              exact hinv.lockw x w hx
                            exact witness_lock_out_inv hmid (by
                              show wid < wst3.w_count
                              rw [hcnt3]
                              exact hwid)

theorem witness_unlock_inv {sys : Sys} {pid cpu lockid : Nat} {flags : LockFlags}
    {file : String} {line : Int} {sys2 : Sys}
    (hinv : Inv sys)
    (h : witness_unlock sys pid cpu lockid flags file line = .ok sys2) :
    Inv sys2 := by
  unfold witness_unlock at h
  by_cases hdead : (sys.wst.witness_cold || sys.wst.witness_dead || sys.panicstr) = true
  · rw [if_pos hdead] at h
    rw [Except.ok.injEq] at h
    subst h
    exact hinv
  · rw [if_neg hdead] at h
    cases hlw : (sys.getLock lockid).lo_witness with
    | none =>
      rw [hlw] at h
      rw [Except.ok.injEq] at h
      subst h
      exact hinv
    | some wid =>
      rw [hlw] at h
      dsimp only at h
      by_cases hrec : (sys.getLock lockid).lo_recursed = true
      · rw [if_pos hrec] at h
        split at h
        · cases h
        · rw [Except.ok.injEq] at h
          subst h
          exact hinv
      · rw [if_neg hrec] at h
        by_cases hsleep : (sys.getLock lockid).lo_class.lc_sleep = true
        · rw [if_pos hsleep] at h
          by_cases hsw : (!flags.noswitch && !(sys.spinChain cpu).isEmpty) = true
          · rw [if_pos hsw] at h
            cases h
          · rw [if_neg hsw] at h
            cases hrm : removeFromChain (sys.sleepChain pid) lockid with
            | none =>
              rw [hrm] at h
              rw [Except.ok.injEq] at h
              subst h
              exact hinv
            | some rb =>
              obtain ⟨chain2, freed⟩ := rb
              rw [hrm] at h
              dsimp only at h
              rw [Except.ok.injEq] at h
              subst h
              have hset : Inv (sys.setSleepChain pid chain2) :=
                inv_setSleepChain hinv (removeFromChain_ne (hinv.sleepne pid) hrm)
              split
              · exact inv_set_wst_aux hset rfl rfl rfl rfl rfl
              · exact hset
        · rw [if_neg hsleep] at h
          cases hrm : removeFromChain (sys.spinChain cpu) lockid with
          | none =>
            rw [hrm] at h
            rw [Except.ok.injEq] at h
            subst h
            exact hinv
          | some rb =>
            obtain ⟨chain2, freed⟩ := rb
            rw [hrm] at h
            dsimp only at h
            rw [Except.ok.injEq] at h
            subst h
            have hset : Inv (sys.setSpinChain cpu chain2) :=
              inv_setSpinChain hinv (removeFromChain_ne (hinv.spinne cpu) hrm)
            split
            · exact inv_set_wst_aux hset rfl rfl rfl rfl rfl
            · exact hset

theorem sleep_fold_inv (sys0 : Sys) (lockarg : Option Nat) :
    ∀ (l : List Nat) (acc : Nat × Sys), Inv acc.2 →
    Inv ((l.foldl (fun acc lid =>
      if some lid = lockarg || lid = giantLockId || (sys0.getLock lid).lo_sleepable
      then acc else (acc.1 + 1, acc.2.addReport (.sleepWarn lid))) acc).2) := by
  intro l
  induction l with
  | nil =>
    intro acc h
    exact h
  | cons x xs ih =>
    intro acc h
    rw [List.foldl_cons]
    refine ih _ ?_
    split
    · exact h
    · exact inv_set_wst_aux h rfl rfl rfl rfl rfl

theorem witness_sleep_inv {sys : Sys} {co : Bool} {pid cpu : Nat}
    {la : Option Nat} {file : String} {line : Int} {n : Nat} {sys2 : Sys}
    (hinv : Inv sys)
    (h : witness_sleep sys co pid cpu la file line = .ok (n, sys2)) :
    Inv sys2 := by
  unfold witness_sleep at h
  split at h
  · rw [Except.ok.injEq, Prod.mk.injEq] at h
    obtain ⟨-, h2⟩ := h
    subst h2
    exact hinv
  · split at h
    · cases h
    · rw [Except.ok.injEq] at h
      have h2 := congrArg Prod.snd h
      dsimp only at h2
      subst h2
      exact sleep_fold_inv sys la _ (0, sys) hinv

theorem witness_init_inv {sys : Sys} {nm : String} {cls : LockClass}
    {wit rec2 sl : Bool} {sys2 : Sys}
    (hinv : Inv sys) (hcl : cls.lc_sleep = !cls.lc_spin)
    (h : witness_init sys nm cls wit rec2 sl = .ok sys2) : Inv sys2 := by
  unfold witness_init at h
  dsimp only at h
  rw [if_neg (by simp)] at h
  split at h
  · cases h
  · split at h
    · cases h
    · split at h
      · cases henr : enroll sys.wst nm cls with
        | error e =>
          rw [henr] at h
          cases h
        | ok ws =>
          obtain ⟨widopt, wst1⟩ := ws
          rw [henr] at h
          rw [Except.ok.injEq] at h
          subst h
          obtain ⟨hw1, hle1, hwopt, hch1, -, -⟩ := enroll_preserves hinv.wf hcl henr
          refine ⟨hw1, acyclic_of_children_eq hch1 hinv.acy,
            pruned_of_children_eq hch1 hinv.pr, ?_, hinv.sleepne, hinv.spinne⟩
          intro lid w hx
          have hx2 : (if lid = sys.lock_count then _ else sys.lockmap lid).lo_witness
              = some w := hx
          by_cases hl : lid = sys.lock_count
          · rw [if_pos hl] at hx2
            exact hwopt w hx2
          · rw [if_neg hl] at hx2
            have := hinv.lockw lid w hx2
            show w < wst1.w_count
            omega
      · rw [Except.ok.injEq] at h
        subst h
        refine ⟨hinv.wf, hinv.acy, hinv.pr, ?_, hinv.sleepne, hinv.spinne⟩
        intro lid w hx
        have hx2 : (if lid = sys.lock_count then _ else sys.lockmap lid).lo_witness
            = some w := hx
        by_cases hl : lid = sys.lock_count
        · rw [if_pos hl] at hx2
          cases hx2
        · rw [if_neg hl] at hx2
          exact hinv.lockw lid w hx2

theorem inv_of_fields {sys sys2 : Sys} (hinv : Inv sys)
    (hw : sys2.wst = sys.wst) (hl : sys2.lockmap = sys.lockmap)
    (hsm : sys2.sleepmap = sys.sleepmap) (hpm : sys2.spinmap = sys.spinmap) :
    Inv sys2 := by
  refine ⟨?_, ?_, ?_, ?_, ?_, ?_⟩
  · rw [hw]
    exact hinv.wf
  · rw [hw]
    exact hinv.acy
  · rw [hw]
    exact hinv.pr
  · intro lid w hx
    have hx2 : (sys2.lockmap lid).lo_witness = some w := hx
    rw [hl] at hx2
    show w < sys2.wst.w_count
    rw [hw]
    exact hinv.lockw lid w hx2
  · intro pid ch hm
    have hm2 : ch ∈ sys2.sleepmap pid := hm
    rw [hsm] at hm2
    exact hinv.sleepne pid ch hm2
  · intro cpu ch hm
    have hm2 : ch ∈ sys2.spinmap cpu := hm
    rw [hpm] at hm2
    exact hinv.spinne cpu ch hm2

theorem witness_destroy_inv {sys : Sys} {lockid : Nat} {sys2 : Sys}
    (hinv : Inv sys)
    (h : witness_destroy sys lockid = .ok sys2) : Inv sys2 := by
  unfold witness_destroy at h
  dsimp only at h
  split at h
  · cases h
  · split at h
    · cases h
    · split at h
      · cases h
      · cases hlw : (sys.getLock lockid).lo_witness with
        | none =>
          rw [hlw] at h
          dsimp only at h
          rw [Except.ok.injEq] at h
          subst h
          refine inv_modifyLock ?_ ?_
          · exact inv_of_fields hinv rfl rfl rfl rfl
          · rfl
        | some wid =>
          rw [hlw] at h
          dsimp only at h
          rw [Except.ok.injEq] at h
          subst h
          have hwid : wid < sys.wst.w_count := hinv.lockw lockid wid hlw
          refine inv_modifyLock ?_ ?_
          · refine inv_of_fields (inv_modifyW hinv hwid ?_ ?_) rfl rfl rfl rfl
            · dsimp only
              split
              · rfl
              · rfl
            · dsimp only
              split
              · rfl
              · rfl
          · rfl

theorem witness_restore_inv {sys : Sys} {lockid : Nat} {file : String}
    {line : Int} {sys2 : Sys}
    (hinv : Inv sys)
    (h : witness_restore sys lockid file line = .ok sys2) : Inv sys2 := by
  unfold witness_restore at h
  split at h
  · cases h
  · cases hlw : (sys.getLock lockid).lo_witness with
    | none =>
      rw [hlw] at h
      rw [Except.ok.injEq] at h
      subst h
      exact hinv
    | some wid =>
      rw [hlw] at h
      dsimp only at h
      rw [Except.ok.injEq] at h
      subst h
      exact inv_modifyLock
        (inv_modifyW hinv (hinv.lockw lockid wid hlw) rfl rfl) rfl

theorem mtxAcquire_inv {sys : Sys} {pid cpu lockid : Nat} {flags : LockFlags}
    {file : String} {line : Int} {sys2 : Sys}
    (hinv : Inv sys)
    (h : mtxAcquire sys pid cpu lockid flags file line = .ok sys2) : Inv sys2 := by
  unfold mtxAcquire at h
  split at h
  · cases h
  · dsimp only at h
    split at h
    · split at h
      · cases h
      · exact witness_lock_inv (inv_modifyLock hinv rfl) h
    · exact witness_lock_inv (inv_modifyLock hinv rfl) h

theorem mtxRelease_inv {sys : Sys} {pid cpu lockid : Nat} {flags : LockFlags}
    {file : String} {line : Int} {sys2 : Sys}
    (hinv : Inv sys)
    (h : mtxRelease sys pid cpu lockid flags file line = .ok sys2) : Inv sys2 := by
  unfold mtxRelease at h
  split at h
  · cases h
  · split at h
    · cases h
    · cases hun : witness_unlock sys pid cpu lockid flags file line with
      | error e =>
        rw [hun] at h
        cases h
      | ok sys3 =>
        rw [hun] at h
        rw [Except.ok.injEq] at h
        subst h
        refine inv_modifyLock (witness_unlock_inv hinv hun) ?_
        split
        · rfl
        · rfl

theorem stepEvent_inv {sys : Sys} {ev : Event} {sys2 : Sys}
    (hinv : Inv sys) (h : stepEvent sys ev = .ok sys2) : Inv sys2 := by
  cases ev with
  | einit n c w r sl =>
    rw [stepEvent] at h
    split at h
    · next hcl => exact witness_init_inv hinv hcl h
    · cases h
  | edestroy l =>
    rw [stepEvent] at h
    split at h
    · cases h
    · exact witness_destroy_inv hinv h
  | eacquire pid cpu l f fi li =>
    rw [stepEvent] at h
    exact mtxAcquire_inv hinv h
  | erelease pid cpu l f fi li =>
    rw [stepEvent] at h
    exact mtxRelease_inv hinv h
  | esleep pid cpu co la fi li =>
    rw [stepEvent] at h
    cases hsl : witness_sleep sys co pid cpu la fi li with
    | error e =>
      rw [hsl] at h
      cases h
    | ok r =>
      obtain ⟨n, sys3⟩ := r
      rw [hsl] at h
      rw [Except.ok.injEq] at h
      subst h
      exact witness_sleep_inv hinv hsl
  | erestore l fi li =>
    rw [stepEvent] at h
    split at h
    · cases h
    · exact witness_restore_inv hinv h

theorem runEvents_inv :
    ∀ (evs : List Event) (sys : Sys) {sys2 : Sys},
    Inv sys → runEvents sys evs = .ok sys2 → Inv sys2 := by
  intro evs
  induction evs with
  | nil =>
    intro sys sys2 hinv h
    have h2 : (Except.ok sys : Except CPanic Sys) = .ok sys2 := h
    rw [Except.ok.injEq] at h2
    subst h2
    exact hinv
  | cons ev rest ih =>
    intro sys sys2 hinv h
    rw [show runEvents sys (ev :: rest) = (ev :: rest).foldlM stepEvent sys from rfl,
      List.foldlM_cons] at h
    cases hstep : stepEvent sys ev with
    | error e =>
      rw [hstep] at h
      replace h : (Except.error e : Except CPanic Sys) = .ok sys2 := h
      cases h
    | ok sys3 =>
      rw [hstep] at h
      replace h : rest.foldlM stepEvent sys3 = .ok sys2 := h
      exact ih sys3 (stepEvent_inv hinv hstep) h

/-- Every reachable machine state satisfies the invariant. -/
theorem reachable_inv {s : Sys} (h : Reachable s) : Inv s := by
  obtain ⟨evs, hrun⟩ := h
  exact runEvents_inv evs initSys inv_initSys hrun

/-- **C1.** For every reachable verifier state, the witness adjacency
relation (the union of all child chunk sets, maintained by
`itismychild`/`removechild`) is a directed acyclic graph: no two witnesses
are each reachable from the other, and every direct child edge whose target
is still reachable from its source without that edge has been removed by the
pruning pass.  Confirmed. -/
theorem c1_dag_invariant {s : Sys} (h : Reachable s) :
    (∀ a b, ¬ (Reach s.wst a b ∧ Reach s.wst b a)) ∧
    (∀ p c, Edge s.wst p c → ¬ Reach (removechild s.wst p c) p c) := by
  have hinv := reachable_inv h
  constructor
  · intro a b hab
    exact hinv.acy a (hab.1.trans hab.2)
  · exact hinv.pr

theorem c1_dag_invariant_witness :
    Reachable initSys ∧
    ((∀ a b, ¬ (Reach initSys.wst a b ∧ Reach initSys.wst b a)) ∧
     (∀ p c, Edge initSys.wst p c → ¬ Reach (removechild initSys.wst p c) p c)) :=
  ⟨⟨[], rfl⟩, c1_dag_invariant ⟨[], rfl⟩⟩

/-- **C2.** Exhaustion of any of the three fixed pools makes the `get` return
NULL (`none`) with the global dead flag raised — a subsystem failure, not a
panic — and once the dead flag is set, `witness_lock` and `witness_unlock`
return immediately with the machine state untouched while the lock primitive
itself still obtains the lock.  Confirmed. -/
theorem c2_pool_exhaustion_and_dead (st : WState) (sys : Sys)
    (hwp : st.w_free_count = 0) (hcp : st.w_child_free_count = 0)
    (hlp : st.w_lock_list_free_count = 0)
    (hdead : sys.wst.witness_dead = true)
    (pid cpu lockid : Nat) (flags : LockFlags) (file : String) (line : Int)
    (hcnt : lockid < sys.lock_count)
    (hunlocked : (sys.getLock lockid).lo_locked = false) :
    ((witness_get st).1 = none ∧ (witness_get st).2.witness_dead = true) ∧
    ((witness_child_get st).1 = none ∧ (witness_child_get st).2.witness_dead = true) ∧
    ((witness_lock_list_get st).1 = none ∧ (witness_lock_list_get st).2.witness_dead = true) ∧
    witness_lock sys pid cpu lockid flags file line = .ok sys ∧
    witness_unlock sys pid cpu lockid flags file line = .ok sys ∧
    mtxAcquire sys pid cpu lockid flags file line =
      .ok (sys.modifyLock lockid fun lk => { lk with lo_locked := true }) := by
  have hdc : (sys.wst.witness_cold || sys.wst.witness_dead || sys.panicstr) = true := by
    rw [hdead]
    simp
  refine ⟨⟨?_, ?_⟩, ⟨?_, ?_⟩, ⟨?_, ?_⟩, ?_, ?_, ?_⟩
  · unfold witness_get
    rw [if_pos hwp]
  · unfold witness_get
    rw [if_pos hwp]
  · unfold witness_child_get
    rw [if_pos hcp]
  · unfold witness_child_get
    rw [if_pos hcp]
  · unfold witness_lock_list_get
    rw [if_pos hlp]
  · unfold witness_lock_list_get
    rw [if_pos hlp]
  · unfold witness_lock
    rw [if_pos hdc]
  · unfold witness_unlock
    rw [if_pos hdc]
  · unfold mtxAcquire
    rw [if_neg (by omega)]
    dsimp only
    rw [if_neg (by rw [hunlocked]; simp)]
    unfold witness_lock
    rw [if_pos (show (((sys.modifyLock lockid fun lk =>
      { lk with lo_locked := true }).wst.witness_cold ||
      (sys.modifyLock lockid fun lk =>
      { lk with lo_locked := true }).wst.witness_dead ||
      (sys.modifyLock lockid fun lk =>
      { lk with lo_locked := true }).panicstr) = true) from hdc)]

set_option maxRecDepth 10000 in
theorem c2_pool_exhaustion_and_dead_witness :
    ({ wstate0 with w_free_count := 0, w_child_free_count := 0, w_lock_list_free_count := 0 } : WState).w_free_count = 0 ∧
    ({ initSys with wst := { initSys.wst with witness_dead := true } } : Sys).wst.witness_dead = true ∧
    (1 : Nat) < ({ initSys with wst := { initSys.wst with witness_dead := true } } : Sys).lock_count ∧
    witness_lock { initSys with wst := { initSys.wst with witness_dead := true } }
      1 1 1 ⟨false, false⟩ "f" 1 =
      .ok { initSys with wst := { initSys.wst with witness_dead := true } } :=
  ⟨rfl, rfl, by decide,
    (c2_pool_exhaustion_and_dead
      { wstate0 with w_free_count := 0, w_child_free_count := 0, w_lock_list_free_count := 0 }
      { initSys with wst := { initSys.wst with witness_dead := true } }
      rfl rfl rfl rfl 1 1 1 ⟨false, false⟩ "f" 1 (by decide) (by decide)).2.2.2.2.1⟩

/-- **C3.** The spec calls a release whose entry is on no chunk of the
calling context's held-lock stack a fatal usage error.  Corrected: the
removal loop of `witness_unlock` simply runs off the end and the function
returns with the machine state unchanged — no panic, no diagnostic. -/
theorem c3_missing_release_silent {sys : Sys} {pid cpu lockid : Nat}
    {flags : LockFlags} {file : String} {line : Int} {wid : Nat}
    (hlive : (sys.wst.witness_cold || sys.wst.witness_dead || sys.panicstr) = false)
    (hw : (sys.getLock lockid).lo_witness = some wid)
    (hnr : (sys.getLock lockid).lo_recursed = false)
    (hsleep : (sys.getLock lockid).lo_class.lc_sleep = true)
    (hsw : (!flags.noswitch && !(sys.spinChain cpu).isEmpty) = false)
    (hmiss : removeFromChain (sys.sleepChain pid) lockid = none) :
    witness_unlock sys pid cpu lockid flags file line = .ok sys := by
  unfold witness_unlock
  rw [if_neg (by rw [hlive]; simp), hw]
  dsimp only
  rw [if_neg (by rw [hnr]; simp), if_pos hsleep, if_neg (by rw [hsw]; simp), hmiss]

set_option maxRecDepth 10000 in
theorem c3_missing_release_silent_witness :
    (initSys.wst.witness_cold || initSys.wst.witness_dead || initSys.panicstr) = false ∧
    (initSys.getLock 0).lo_witness = some 0 ∧
    removeFromChain (initSys.sleepChain 1) 0 = none ∧
    witness_unlock initSys 1 1 0 ⟨false, false⟩ "f" 1 = .ok initSys :=
  ⟨by decide, by decide, by decide,
    @c3_missing_release_silent initSys 1 1 0 ⟨false, false⟩ "f" 1 0
      (by decide) (by decide) (by decide) (by decide) (by decide) (by decide)⟩

set_option maxRecDepth 10000 in
theorem c3_counterexample :
    (match runEvents initSys
        [.einit "c3lock" lock_class_mtx_sleep true false false,
         .eacquire 1 1 2 ⟨false, false⟩ "f" 1,
         .erelease 2 1 2 ⟨false, false⟩ "f" 2] with
     | .ok s => decide (s.sleepChain 1 = [[2]] ∧ (s.getLock 2).lo_locked = false)
     | .error _ => false) = true := by decide

/-- **C8.** `enroll` of a name already present in the registry: with the
matching class it bumps the existing witness's reference count and returns
that witness, changing nothing else; with a different class it panics.
Confirmed. -/
theorem c8_enroll_existing {st : WState} {nm : String} {cls : LockClass} {i : Nat}
    (hwatch : ¬ st.witness_watch = 0)
    (hskip : ¬ (cls.lc_spin && st.witness_skipspin) = true)
    (hfind : st.w_all.find? (fun j => (st.getW j).w_name = nm) = some i) :
    (cls = (st.getW i).w_class →
      enroll st nm cls = .ok (some i,
        st.modifyW i fun w => { w with w_refcount := w.w_refcount + 1 })) ∧
    (cls ≠ (st.getW i).w_class →
      enroll st nm cls = .error .lockClassMismatch) := by
  constructor
  · intro hcl
    unfold enroll
    rw [if_neg hwatch, if_neg hskip, hfind]
    dsimp only
    rw [if_neg (not_ne_iff.mpr hcl)]
  · intro hcl
    unfold enroll
    rw [if_neg hwatch, if_neg hskip, hfind]
    dsimp only
    rw [if_pos hcl]

set_option maxRecDepth 10000 in
theorem c8_enroll_existing_witness :
    (¬ initSys.wst.witness_watch = 0) ∧
    initSys.wst.w_all.find? (fun j => (initSys.wst.getW j).w_name = "Giant") = some 0 ∧
    lock_class_mtx_sleep = (initSys.wst.getW 0).w_class ∧
    enroll initSys.wst "Giant" lock_class_mtx_sleep =
      .ok (some 0, initSys.wst.modifyW 0 fun w =>
        { w with w_refcount := w.w_refcount + 1 }) :=
  ⟨by decide, by decide, by decide,
    (@c8_enroll_existing initSys.wst "Giant" lock_class_mtx_sleep 0
      (by decide) (by decide) (by decide)).1 (by decide)⟩

theorem findIdx?_eraseIdx_erase :
    ∀ {c : List Nat} {x i : Nat}, c.findIdx? (fun y => y = x) = some i →
    c.eraseIdx i = c.erase x := by
  intro c
  induction c with
  | nil =>
    intro x i h
    cases h
  | cons a as ih =>
    intro x i h
    rw [List.findIdx?_cons] at h
    by_cases ha : a = x
    · rw [if_pos (by simp [ha])] at h
      rw [Option.some.injEq] at h
      subst h
      rw [List.erase_cons, if_pos (by simp [ha])]
      rfl
    · rw [if_neg (by simp [ha])] at h
      rw [List.findIdx?_succ] at h
      cases hf : as.findIdx? (fun y => y = x) with
      | none =>
        rw [hf] at h
        cases h
      | some j =>
        rw [hf] at h
        rw [Option.map_some', Option.some.injEq] at h
        subst h
        rw [List.erase_cons, if_neg (by simp [ha]), List.eraseIdx_cons_succ, ih hf]

/-- The removal scan takes out exactly the first matching entry, keeps every
other entry in order, and drops a chunk exactly when it empties. -/
theorem c10_remove_exact :
    ∀ (chain : List (List Nat)) (x : Nat), x ∈ chain.flatten →
    ∃ chain2 freed, removeFromChain chain x = some (chain2, freed) ∧
      chain2.flatten = chain.flatten.erase x ∧
      chain.length = chain2.length + (if freed then 1 else 0) := by
  intro chain
  induction chain with
  | nil =>
    intro x hx
    simp at hx
  | cons c0 rest ih =>
    intro x hx
    rw [removeFromChain]
    cases hf : c0.findIdx? (fun y => y = x) with
    | some i =>
      dsimp only
      have her : c0.eraseIdx i = c0.erase x := findIdx?_eraseIdx_erase hf
      have hxc : x ∈ c0 := by
        obtain ⟨hi, hg⟩ := findIdx?_eq_some_pred hf
        rw [← hg]
        exact List.get_mem _ _ _
      by_cases hemp : (c0.eraseIdx i).isEmpty = true
      · rw [if_pos hemp]
        refine ⟨rest, true, rfl, ?_, by simp⟩
        rw [List.flatten_cons, List.erase_append_left _ hxc, ← her]
        rw [List.isEmpty_iff] at hemp
        rw [hemp]
        simp
      · rw [if_neg hemp]
        refine ⟨c0.eraseIdx i :: rest, false, rfl, ?_, by simp⟩
        rw [List.flatten_cons, List.flatten_cons,
          List.erase_append_left _ hxc, her]
    | none =>
      have hxc : x ∉ c0 := findIdx?_eq_none_not_mem hf
      have hxr : x ∈ rest.flatten := by
        rw [List.flatten_cons, List.mem_append] at hx
        rcases hx with h1 | h1
        · exact absurd h1 hxc
        · exact h1
      obtain ⟨chain2, freed, hrm, hfl, hlen⟩ := ih x hxr
      rw [hrm]
      refine ⟨c0 :: chain2, freed, rfl, ?_, ?_⟩
      · rw [List.flatten_cons, List.flatten_cons,
          List.erase_append_right _ hxc, hfl]
      · cases freed <;> simp at hlen ⊢ <;> omega

/-- **C10.** `witness_unlock` of a lock present on the context's stack
removes exactly one entry — the first match in scan order — leaves every
other entry present and in the same relative order, and returns a chunk to
the pool exactly when its entry count reached zero.  Confirmed. -/
theorem c10_unlock_removes_first {sys : Sys} {pid cpu lockid : Nat}
    {flags : LockFlags} {file : String} {line : Int} {wid : Nat}
    (hlive : (sys.wst.witness_cold || sys.wst.witness_dead || sys.panicstr) = false)
    (hw : (sys.getLock lockid).lo_witness = some wid)
    (hnr : (sys.getLock lockid).lo_recursed = false)
    (hsleep : (sys.getLock lockid).lo_class.lc_sleep = true)
    (hsw : (!flags.noswitch && !(sys.spinChain cpu).isEmpty) = false)
    (hmem : lockid ∈ (sys.sleepChain pid).flatten) :
    ∃ chain2 freed,
      removeFromChain (sys.sleepChain pid) lockid = some (chain2, freed) ∧
      chain2.flatten = (sys.sleepChain pid).flatten.erase lockid ∧
      (sys.sleepChain pid).length = chain2.length + (if freed then 1 else 0) ∧
      witness_unlock sys pid cpu lockid flags file line =
        .ok (if freed then { sys.setSleepChain pid chain2 with
              wst := witness_lock_list_free (sys.setSleepChain pid chain2).wst }
            else sys.setSleepChain pid chain2) := by
  obtain ⟨chain2, freed, hrm, hfl, hlen⟩ := c10_remove_exact _ lockid hmem
  refine ⟨chain2, freed, hrm, hfl, hlen, ?_⟩
  unfold witness_unlock
  rw [if_neg (by rw [hlive]; simp), hw]
  dsimp only
  rw [if_neg (by rw [hnr]; simp), if_pos hsleep, if_neg (by rw [hsw]; simp), hrm]

set_option maxRecDepth 10000 in
theorem c10_unlock_removes_first_witness :
    let S : Sys := { initSys with sleepmap := fun p => if p = 1 then [[0]] else [] }
    (0 : Nat) ∈ (S.sleepChain 1).flatten ∧
    (∃ chain2 freed,
      removeFromChain (S.sleepChain 1) 0 = some (chain2, freed) ∧
      chain2.flatten = (S.sleepChain 1).flatten.erase 0 ∧
      (S.sleepChain 1).length = chain2.length + (if freed then 1 else 0) ∧
      witness_unlock S 1 1 0 ⟨false, false⟩ "f" 1 =
        .ok (if freed then { S.setSleepChain 1 chain2 with
              wst := witness_lock_list_free (S.setSleepChain 1 chain2).wst }
            else S.setSleepChain 1 chain2)) :=
  ⟨by decide,
    @c10_unlock_removes_first
      { initSys with sleepmap := fun p => if p = 1 then [[0]] else [] }
      1 1 0 ⟨false, false⟩ "f" 1 0
      (by decide) (by decide) (by decide) (by decide) (by decide) (by decide)⟩

/-- What the recording tail does, in full: the graph, the squawk flags and
the log (up to an exhaustion line) survive untouched, and the context's
chain gains the entry in place, in a fresh chunk, or — when the chunk pool
is dry — not at all. -/
theorem witness_lock_out_spec (sys : Sys) (pid cpu lockid wid : Nat)
    (file : String) (line : Int) :
    (∀ q, ((witness_lock_out sys pid cpu lockid wid file line).wst.getW q).w_children
        = (sys.wst.getW q).w_children) ∧
    (∀ q, squawks ((witness_lock_out sys pid cpu lockid wid file line).wst.getW q)
        = squawks (sys.wst.getW q)) ∧
    ReportsExh sys.wst (witness_lock_out sys pid cpu lockid wid file line).wst ∧
    (let C := if (sys.getLock lockid).lo_class.lc_sleep = true
        then sys.sleepChain pid else sys.spinChain cpu
     let C2 := if (sys.getLock lockid).lo_class.lc_sleep = true
        then (witness_lock_out sys pid cpu lockid wid file line).sleepChain pid
        else (witness_lock_out sys pid cpu lockid wid file line).spinChain cpu
     ((C.isEmpty || decide ((C.headD []).length = LOCK_CHILDCOUNT)) = false →
        C2 = (C.headD [] ++ [lockid]) :: C.tail) ∧
     ((C.isEmpty || decide ((C.headD []).length = LOCK_CHILDCOUNT)) = true →
        ¬ sys.wst.w_lock_list_free_count = 0 → C2 = [lockid] :: C) ∧
     ((C.isEmpty || decide ((C.headD []).length = LOCK_CHILDCOUNT)) = true →
        sys.wst.w_lock_list_free_count = 0 → C2 = C)) := by
  unfold witness_lock_out
  dsimp only
  set Y := ({ sys with wst := sys.wst.modifyW wid fun w =>
      { w with w_file := some file, w_line := line } } : Sys).modifyLock lockid
      (fun lk => { lk with lo_file := some file, lo_line := line }) with hY
  have hych : ∀ q, (Y.wst.getW q).w_children = (sys.wst.getW q).w_children := by
    intro q
    show ((sys.wst.modifyW wid fun w =>
      { w with w_file := some file, w_line := line }).getW q).w_children = _
    rw [getW_modifyW]
    split
    · next hq => rw [hq]
    · rfl
  have hysq : ∀ q, squawks (Y.wst.getW q) = squawks (sys.wst.getW q) := by
    intro q
    show squawks ((sys.wst.modifyW wid fun w =>
      { w with w_file := some file, w_line := line }).getW q) = _
    rw [getW_modifyW]
    split
    · next hq =>
      rw [hq]
      rfl
    · rfl
  have hcls : (Y.getLock lockid).lo_class = (sys.getLock lockid).lo_class := by
    have h1 : Y.getLock lockid = if lockid = lockid
        then { sys.getLock lockid with lo_file := some file, lo_line := line }
        else sys.getLock lockid := rfl
    rw [h1, if_pos rfl]
  have hsc : Y.sleepChain pid = sys.sleepChain pid := rfl
  have hpc : Y.spinChain cpu = sys.spinChain cpu := rfl
  rw [hcls, hsc, hpc]
  by_cases hz : sys.wst.w_lock_list_free_count = 0
  · have hwg : witness_lock_list_get Y.wst = (none, { Y.wst with
        witness_dead := true,
        reports := Y.wst.reports ++ [.exhausted .lockListPool] }) := by
      unfold witness_lock_list_get
      rw [if_pos (show Y.wst.w_lock_list_free_count = 0 from hz)]
    rw [hwg]
    split
    · -- sleep chain, fullness test
      next hcl2 =>
      split
      · next hfull =>
        refine ⟨hych, hysq, ⟨[.exhausted .lockListPool], rfl, by simp⟩, ?_⟩
        dsimp only
        refine ⟨?_, ?_, ?_⟩
        · intro hcond
          rw [hcond] at hfull
          cases hfull
        · intro _ hpool
          exact absurd hz hpool
        · intro _ _
          rfl
      · next hfull =>
        refine ⟨hych, hysq, ⟨[], by simp only [List.append_nil]; rfl, by simp⟩, ?_⟩
        dsimp only
        refine ⟨?_, ?_, ?_⟩
        · intro _
          show (if pid = pid then _ else _) = _
          rw [if_pos rfl]
        · intro hcond _
          rw [Bool.not_eq_true] at hfull
          rw [hcond] at hfull
          cases hfull
        · intro hcond _
          rw [Bool.not_eq_true] at hfull
          rw [hcond] at hfull
          cases hfull
    · next hcl2 =>
      split
      · next hfull =>
        refine ⟨hych, hysq, ⟨[.exhausted .lockListPool], rfl, by simp⟩, ?_⟩
        dsimp only
        refine ⟨?_, ?_, ?_⟩
        · intro hcond
          rw [hcond] at hfull
          cases hfull
        · intro _ hpool
          exact absurd hz hpool
        · intro _ _
          rfl
      · next hfull =>
        refine ⟨hych, hysq, ⟨[], by simp only [List.append_nil]; rfl, by simp⟩, ?_⟩
        dsimp only
        refine ⟨?_, ?_, ?_⟩
        · intro _
          show (if cpu = cpu then _ else _) = _
          rw [if_pos rfl]
        · intro hcond _
          rw [Bool.not_eq_true] at hfull
          rw [hcond] at hfull
          cases hfull
        · intro hcond _
          rw [Bool.not_eq_true] at hfull
          rw [hcond] at hfull
          cases hfull
  · have hwg : witness_lock_list_get Y.wst = (some (), { Y.wst with
        w_lock_list_free_count := Y.wst.w_lock_list_free_count - 1 }) := by
      unfold witness_lock_list_get
      rw [if_neg (show ¬ Y.wst.w_lock_list_free_count = 0 from hz)]
    rw [hwg]
    split
    · next hcl2 =>
      split
      · next hfull =>
        refine ⟨hych, hysq, ⟨[], by simp only [List.append_nil]; rfl, by simp⟩, ?_⟩
        dsimp only
        refine ⟨?_, ?_, ?_⟩
        · intro hcond
          rw [hcond] at hfull
          cases hfull
        · intro _ _
          show (if pid = pid then _ else _) = _
          rw [if_pos rfl]
        · intro _ hpool
          exact absurd hpool hz
      · next hfull =>
        refine ⟨hych, hysq, ⟨[], by simp only [List.append_nil]; rfl, by simp⟩, ?_⟩
        dsimp only
        refine ⟨?_, ?_, ?_⟩
        · intro _
          show (if pid = pid then _ else _) = _
          rw [if_pos rfl]
        · intro hcond _
          rw [Bool.not_eq_true] at hfull
          rw [hcond] at hfull
          cases hfull
        · intro hcond _
          rw [Bool.not_eq_true] at hfull
          rw [hcond] at hfull
          cases hfull
    · next hcl2 =>
      split
      · next hfull =>
        refine ⟨hych, hysq, ⟨[], by simp only [List.append_nil]; rfl, by simp⟩, ?_⟩
        dsimp only
        refine ⟨?_, ?_, ?_⟩
        · intro hcond
          rw [hcond] at hfull
          cases hfull
        · intro _ _
          show (if cpu = cpu then _ else _) = _
          rw [if_pos rfl]
        · intro _ hpool
          exact absurd hpool hz
      · next hfull =>
        refine ⟨hych, hysq, ⟨[], by simp only [List.append_nil]; rfl, by simp⟩, ?_⟩
        dsimp only
        refine ⟨?_, ?_, ?_⟩
        · intro _
          show (if cpu = cpu then _ else _) = _
          rw [if_pos rfl]
        · intro hcond _
          rw [Bool.not_eq_true] at hfull
          rw [hcond] at hfull
          cases hfull
        · intro hcond _
          rw [Bool.not_eq_true] at hfull
          rw [hcond] at hfull
          cases hfull

/-- `witness_lock_out` records the acquisition site (file, line) on the
acquired lock's witness and on the lock object itself, in every branch. -/
theorem witness_lock_out_site (sys : Sys) (pid cpu lockid wid : Nat)
    (file : String) (line : Int) :
    ((witness_lock_out sys pid cpu lockid wid file line).wst.getW wid).w_file = some file ∧
    ((witness_lock_out sys pid cpu lockid wid file line).wst.getW wid).w_line = line ∧
    ((witness_lock_out sys pid cpu lockid wid file line).getLock lockid).lo_file = some file ∧
    ((witness_lock_out sys pid cpu lockid wid file line).getLock lockid).lo_line = line := by
  unfold witness_lock_out
  dsimp only
  set Y := ({ sys with wst := sys.wst.modifyW wid fun w =>
      { w with w_file := some file, w_line := line } } : Sys).modifyLock lockid
      (fun lk => { lk with lo_file := some file, lo_line := line }) with hY
  have hw1 : Y.wst.getW wid = { sys.wst.getW wid with
      w_file := some file, w_line := line } := by
    have h1 : Y.wst.getW wid = if wid = wid
        then { sys.wst.getW wid with w_file := some file, w_line := line }
        else sys.wst.getW wid := rfl
    rw [h1, if_pos rfl]
  have hl1 : Y.getLock lockid = { sys.getLock lockid with
      lo_file := some file, lo_line := line } := by
    have h1 : Y.getLock lockid = if lockid = lockid
        then { sys.getLock lockid with lo_file := some file, lo_line := line }
        else sys.getLock lockid := rfl
    rw [h1, if_pos rfl]
  have site : (Y.wst.getW wid).w_file = some file ∧ (Y.wst.getW wid).w_line = line ∧
      (Y.getLock lockid).lo_file = some file ∧ (Y.getLock lockid).lo_line = line := by
    rw [hw1, hl1]
    exact ⟨rfl, rfl, rfl, rfl⟩
  by_cases hz : sys.wst.w_lock_list_free_count = 0
  · have hwg : witness_lock_list_get Y.wst = (none, { Y.wst with
        witness_dead := true,
        reports := Y.wst.reports ++ [.exhausted .lockListPool] }) := by
      unfold witness_lock_list_get
      rw [if_pos (show Y.wst.w_lock_list_free_count = 0 from hz)]
    rw [hwg]
    split
    · first | exact site | (split <;> exact site)
    · first | exact site | (split <;> exact site)
  · have hwg : witness_lock_list_get Y.wst = (some (), { Y.wst with
        w_lock_list_free_count := Y.wst.w_lock_list_free_count - 1 }) := by
      unfold witness_lock_list_get
      rw [if_neg (show ¬ Y.wst.w_lock_list_free_count = 0 from hz)]
    rw [hwg]
    split
    · first | exact site | (split <;> exact site)
    · first | exact site | (split <;> exact site)

/-- **C9.** An acquisition with the try-lock flag set skips the duplicate
check, the order-violation check and order learning — `witness_lock` jumps
straight to its `out:` tail, so the order graph, the squawk flags and the
reports (apart from possible pool-exhaustion notes) are untouched — and the
acquisition site is recorded on the witness.  Corrected: the spec says the
lock is nonetheless always appended to the calling context's held-lock
stack, but when a fresh chunk is needed and the lock-list chunk pool is
exhausted the entry is silently dropped, so the append happens only while
the pool holds out. -/
theorem c9_trylock {sys : Sys} {pid cpu lockid wid : Nat} {flags : LockFlags}
    {file : String} {line : Int}
    (hlive : (sys.wst.witness_cold || sys.wst.witness_dead || sys.panicstr) = false)
    (hw : (sys.getLock lockid).lo_witness = some wid)
    (hlocked : (sys.getLock lockid).lo_locked = true)
    (hnr : (sys.getLock lockid).lo_recursed = false)
    (hbs : ((sys.getLock lockid).lo_class.lc_sleep && !(sys.spinChain cpu).isEmpty) = false)
    (htry : flags.trylock = true) :
    witness_lock sys pid cpu lockid flags file line
      = .ok (witness_lock_out sys pid cpu lockid wid file line) ∧
    (∀ q, ((witness_lock_out sys pid cpu lockid wid file line).wst.getW q).w_children
        = (sys.wst.getW q).w_children) ∧
    (∀ q, squawks ((witness_lock_out sys pid cpu lockid wid file line).wst.getW q)
        = squawks (sys.wst.getW q)) ∧
    ReportsExh sys.wst (witness_lock_out sys pid cpu lockid wid file line).wst ∧
    ((witness_lock_out sys pid cpu lockid wid file line).wst.getW wid).w_file = some file ∧
    ((witness_lock_out sys pid cpu lockid wid file line).wst.getW wid).w_line = line ∧
    (let C := if (sys.getLock lockid).lo_class.lc_sleep = true
        then sys.sleepChain pid else sys.spinChain cpu
     let C2 := if (sys.getLock lockid).lo_class.lc_sleep = true
        then (witness_lock_out sys pid cpu lockid wid file line).sleepChain pid
        else (witness_lock_out sys pid cpu lockid wid file line).spinChain cpu
     ((C.isEmpty || decide ((C.headD []).length = LOCK_CHILDCOUNT)) = false →
        C2 = (C.headD [] ++ [lockid]) :: C.tail) ∧
     ((C.isEmpty || decide ((C.headD []).length = LOCK_CHILDCOUNT)) = true →
        ¬ sys.wst.w_lock_list_free_count = 0 → C2 = [lockid] :: C) ∧
     ((C.isEmpty || decide ((C.headD []).length = LOCK_CHILDCOUNT)) = true →
        sys.wst.w_lock_list_free_count = 0 → C2 = C)) := by
  refine ⟨?_, (witness_lock_out_spec sys pid cpu lockid wid file line).1,
    (witness_lock_out_spec sys pid cpu lockid wid file line).2.1,
    (witness_lock_out_spec sys pid cpu lockid wid file line).2.2.1,
    (witness_lock_out_site sys pid cpu lockid wid file line).1,
    (witness_lock_out_site sys pid cpu lockid wid file line).2.1,
    (witness_lock_out_spec sys pid cpu lockid wid file line).2.2.2⟩
  unfold witness_lock
  rw [if_neg (by rw [hlive]; simp), hw]
  dsimp only
  rw [if_neg (by rw [hlocked]; simp), if_neg (by rw [hnr]; simp),
      if_neg (by rw [hbs]; simp), if_pos htry]

set_option maxRecDepth 10000 in
theorem c9_trylock_witness :
    ((Sys.modifyLock initSys 0 (fun lk => { lk with lo_locked := true })).getLock 0).lo_witness
      = some 0 ∧
    witness_lock (Sys.modifyLock initSys 0 (fun lk => { lk with lo_locked := true }))
        1 1 0 ⟨true, false⟩ "f" 1
      = .ok (witness_lock_out
          (Sys.modifyLock initSys 0 (fun lk => { lk with lo_locked := true })) 1 1 0 0 "f" 1) :=
  ⟨by decide,
    (@c9_trylock (Sys.modifyLock initSys 0 (fun lk => { lk with lo_locked := true }))
      1 1 0 0 ⟨true, false⟩ "f" 1
      (by decide) (by decide) (by decide) (by decide) (by decide) (by decide)).1⟩

set_option maxRecDepth 10000 in
theorem c9_counterexample :
    (match runEvents { initSys with wst := { initSys.wst with w_lock_list_free_count := 0 } }
        [.einit "c9lock" lock_class_mtx_sleep true false false,
         .eacquire 1 1 2 ⟨true, false⟩ "f" 1] with
     | .ok s => decide ((s.getLock 2).lo_locked = true ∧ s.sleepChain 1 = [] ∧
         s.wst.witness_dead = true)
     | .error _ => false) = true := by decide


/-- The fold of `witness_sleep` counts exactly the entries its per-entry
test does not exempt: one increment per flagged held lock. -/
theorem sleepFold_count (p : Nat → Bool) :
    ∀ (l : List Nat) (acc : Nat × Sys),
    (l.foldl (fun acc lid => if p lid then acc
        else (acc.1 + 1, acc.2.addReport (.sleepWarn lid))) acc).1
      = acc.1 + (l.filter (fun lid => !(p lid))).length := by
  intro l
  induction l with
  | nil =>
    intro acc
    simp
  | cons a as ih =>
    intro acc
    rw [List.foldl_cons, List.filter_cons]
    by_cases hp : p a = true
    · rw [if_pos hp, ih]
      simp [hp]
    · rw [if_neg hp, ih]
      simp only [hp, Bool.not_false, if_pos]
      rw [List.length_cons]
      omega

/-- **C6.** `witness_sleep` in a live, warmed-up state returns the number of
entries across the calling context's sleep-lock and spin-lock stacks that
survive its per-entry exemption test, one increment per such held lock.
Corrected: besides the exempted lock argument and sleep-while-held locks the
code also unconditionally exempts Giant, which the claim's wording omits. -/
theorem c6_sleep_count {sys : Sys} {co : Bool} {pid cpu : Nat}
    {lockarg : Option Nat} {file : String} {line : Int}
    (hlive : (sys.wst.witness_dead || sys.panicstr) = false)
    (hcold : sys.wst.witness_cold = false) :
    Except.map Prod.fst (witness_sleep sys co pid cpu lockarg file line)
      = .ok (((sleepScanEntries sys pid cpu).filter (fun lid =>
          !(some lid = lockarg || lid = giantLockId
            || (sys.getLock lid).lo_sleepable))).length) := by
  unfold witness_sleep
  rw [if_neg (by rw [hlive]; simp), if_neg (by rw [hcold]; simp)]
  show Except.ok ((sleepScanEntries sys pid cpu).foldl _ (0, sys)).1 = _
  rw [sleepFold_count (fun lid => some lid = lockarg || lid = giantLockId
       || (sys.getLock lid).lo_sleepable) (sleepScanEntries sys pid cpu) (0, sys)]
  simp

set_option maxRecDepth 10000 in
theorem c6_sleep_count_witness :
    (initSys.wst.witness_dead || initSys.panicstr) = false ∧
    Except.map Prod.fst (witness_sleep initSys true 1 1 none "f" 1)
      = .ok (((sleepScanEntries initSys 1 1).filter (fun lid =>
          !(some lid = none || lid = giantLockId
            || (initSys.getLock lid).lo_sleepable))).length) :=
  ⟨by decide, @c6_sleep_count initSys true 1 1 none "f" 1 (by decide) (by decide)⟩

set_option maxRecDepth 10000 in
theorem c6_counterexample :
    (match runEvents initSys [.eacquire 1 1 0 ⟨false, false⟩ "f" 1] with
     | .ok s =>
       match witness_sleep s true 1 1 none "f" 2 with
       | .ok (n, _) => decide (n = 0 ∧ c6_claimCount s 1 1 none = 1)
       | .error _ => false
     | .error _ => false) = true := by decide


/-- The insertion half of `itismychild` only ever appends pool-exhaustion
reports, with no side conditions. -/
theorem itismychildRaw_reports (st : WState) (p c : Nat) :
    ReportsExh st (itismychildRaw st p c).2 := by
  unfold itismychildRaw
  cases hins : insertIntoChunks ((st.getW p).w_children) c with
  | some chunks2 =>
    exact ReportsExh.of_eq rfl
  | none =>
    by_cases hz : st.w_child_free_count = 0
    · have hg : witness_child_get st = (none, { st with witness_dead := true, reports := st.reports ++ [.exhausted .childPool] }) := by
        unfold witness_child_get
        rw [if_pos hz]
      rw [hg]
      exact ⟨[.exhausted .childPool], rfl, by simp⟩
    · have hg : witness_child_get st = (some (), { st with w_child_free_count := st.w_child_free_count - 1 }) := by
        unfold witness_child_get
        rw [if_neg hz]
      rw [hg]
      exact ReportsExh.of_eq rfl

/-- One pruning step only ever appends pool-exhaustion reports. -/
theorem pruneStep_reports {st : WState} {pc : Nat × Nat} {st2 : WState}
    (h : pruneStep st pc = .ok st2) : ReportsExh st st2 := by
  unfold pruneStep at h
  by_cases h1 : isitmychild st pc.1 pc.2 = true
  · rw [if_pos h1] at h
    by_cases h2 : isitmydescendant (removechild st pc.1 pc.2) pc.1 pc.2 = true
    · rw [if_pos h2] at h
      rw [Except.ok.injEq] at h
      subst h
      exact ReportsExh.of_eq (removechild_reports st pc.1 pc.2)
    · rw [if_neg h2] at h
      cases hcall : itismychildR (removechild st pc.1 pc.2) pc.1 pc.2 with
      | error e =>
        rw [hcall] at h
        cases h
      | ok pr =>
        rw [hcall] at h
        obtain ⟨b, st3⟩ := pr
        dsimp only at h
        rw [Except.ok.injEq] at h
        subst h
        unfold itismychildR at hcall
        split at hcall
        · cases hcall
        · rw [Except.ok.injEq] at hcall
          refine (ReportsExh.of_eq (removechild_reports st pc.1 pc.2)).rtrans ?_
          have h3 := itismychildRaw_reports (removechild st pc.1 pc.2) pc.1 pc.2
          rw [hcall] at h3
          exact h3
  · rw [if_neg h1] at h
    rw [Except.ok.injEq] at h
    subst h
    exact ReportsExh.rrefl st

/-- The whole pruning pass only ever appends pool-exhaustion reports. -/
theorem prunePassFold_reports :
    ∀ (pairs : List (Nat × Nat)) {st st2 : WState},
    pairs.foldlM pruneStep st = .ok st2 → ReportsExh st st2 := by
  intro pairs
  induction pairs with
  | nil =>
    intro st st2 h
    have h2 : (Except.ok st : Except CPanic WState) = .ok st2 := h
    rw [Except.ok.injEq] at h2
    subst h2
    exact ReportsExh.rrefl st
  | cons pc rest ih =>
    intro st st2 h
    rw [List.foldlM_cons] at h
    cases hstep : pruneStep st pc with
    | error e =>
      rw [hstep] at h
      cases h
    | ok st1 =>
      rw [hstep] at h
      exact (pruneStep_reports hstep).rtrans (ih h)

/-- `witness_leveldescendents` never touches the report log. -/
theorem leveldescendents_reports :
    ∀ (fuel : Nat) (st : WState) (p level : Nat),
    (witness_leveldescendents fuel st p level).reports = st.reports := by
  intro fuel
  induction fuel with
  | zero =>
    intro st p level
    rfl
  | succ fuel ih =>
    intro st p level
    unfold witness_leveldescendents
    dsimp only
    have haux : ∀ (l : List Nat) (acc : WState), acc.reports = st.reports →
        (l.foldl (fun a c => witness_leveldescendents fuel a c (level + 1)) acc).reports
          = st.reports := by
      intro l
      induction l with
      | nil =>
        intro acc h
        exact h
      | cons x xs ihl =>
        intro acc h
        rw [List.foldl_cons]
        exact ihl _ ((ih acc x (level + 1)).trans h)
    refine haux _ _ ?_
    split
    · rfl
    · rfl

/-- `witness_levelall` never touches the report log. -/
theorem levelall_reports (st : WState) :
    (witness_levelall st).reports = st.reports := by
  unfold witness_levelall
  have phase1 : ∀ (l : List Nat) (acc : WState), acc.reports = st.reports →
      (l.foldl (fun a i => a.modifyW i fun w => { w with w_level := 0 }) acc).reports
        = st.reports := by
    intro l
    induction l with
    | nil =>
      intro acc h
      exact h
    | cons x xs ihl =>
      intro acc h
      rw [List.foldl_cons]
      exact ihl _ h
  have phase2 : ∀ (l : List Nat) (acc : WState), acc.reports = st.reports →
      (l.foldl (fun acc w =>
        let L := if (acc.getW w).w_class.lc_sleep then acc.w_sleep else acc.w_spin
        if L.any fun w1 => isitmychild acc w1 w then acc
        else witness_leveldescendents (acc.w_count + 1) acc w 0) acc).reports
        = st.reports := by
    intro l
    induction l with
    | nil =>
      intro acc h
      exact h
    | cons x xs ihl =>
      intro acc h
      rw [List.foldl_cons]
      refine ihl _ ?_
      dsimp only
      split <;> split <;> first | exact h | (rw [leveldescendents_reports]; exact h)
  exact phase2 _ _ (phase1 _ _ rfl)

/-- `itismychild` only ever appends pool-exhaustion reports: learning an
order edge never emits a violation diagnostic by itself. -/
theorem itismychild_reports {st : WState} {p c : Nat} {b : Bool} {st2 : WState}
    (h : itismychild st p c = .ok (b, st2)) : ReportsExh st st2 := by
  unfold itismychild at h
  split at h
  · cases h
  · cases hraw : itismychildRaw st p c with
    | mk fail st1 =>
      rw [hraw] at h
      have hr1 : ReportsExh st st1 := by
        have h3 := itismychildRaw_reports st p c
        rw [hraw] at h3
        exact h3
      cases fail with
      | true =>
        dsimp only at h
        rw [Except.ok.injEq, Prod.mk.injEq] at h
        obtain ⟨-, rfl⟩ := h
        exact hr1
      | false =>
        dsimp only at h
        cases hpass : prunePass st1
            (if (st1.getW p).w_class.lc_sleep = true then st1.w_sleep else st1.w_spin) with
        | error e =>
          rw [hpass] at h
          cases h
        | ok st3 =>
          rw [hpass] at h
          dsimp only at h
          rw [Except.ok.injEq, Prod.mk.injEq] at h
          obtain ⟨-, rfl⟩ := h
          refine hr1.rtrans ((prunePassFold_reports _ hpass).rtrans ?_)
          exact ReportsExh.of_eq (levelall_reports st3)

/-- Pool-exhaustion reports never match a reversal-report predicate, so
`ReportsExh` preserves every reversal count. -/
theorem countP_reportsExh {s1 s2 : WState} (h : ReportsExh s1 s2) (v : Nat) (g : Bool) :
    s2.reports.countP (isRevHeld v g) = s1.reports.countP (isRevHeld v g) := by
  obtain ⟨d, he, hall⟩ := h
  rw [he, List.countP_append]
  have hz : d.countP (isRevHeld v g) = 0 := by
    rw [List.countP_eq_zero]
    intro r hr
    obtain ⟨k, rfl⟩ := hall r hr
    simp [isRevHeld]
  rw [hz]
  rfl

/-- **C4.** Lock-order-violation diagnostics are sticky-suppressed, but the
key is not the offending pair: the squawk flags live on the held witness,
one for violations whose held instance is the global Giant mutex and one for
all others.  Corrected: once the flag for (held witness, Giant tag) is set,
`witness_lock` never adds another reversal report with that key — but the
same pair can be reported twice under the two tags, so "at most one per
distinct offending pair" as the spec words it does not hold. -/
theorem c4_sticky_suppression {sys : Sys} {pid cpu lockid : Nat}
    {flags : LockFlags} {file : String} {line : Int} {sys2 : Sys} {v : Nat} {g : Bool}
    (hflag : (if g then (sys.wst.getW v).w_Giant_squawked
              else (sys.wst.getW v).w_other_squawked) = true)
    (h : witness_lock sys pid cpu lockid flags file line = .ok sys2) :
    sys2.wst.reports.countP (isRevHeld v g)
      = sys.wst.reports.countP (isRevHeld v g) := by
  unfold witness_lock at h
  by_cases h0 : (sys.wst.witness_cold || sys.wst.witness_dead || sys.panicstr) = true
  · rw [if_pos h0] at h
    rw [Except.ok.injEq] at h
    subst h
    rfl
  · rw [if_neg h0] at h
    cases hwo : (sys.getLock lockid).lo_witness with
    | none =>
      rw [hwo] at h
      rw [Except.ok.injEq] at h
      subst h
      rfl
    | some wid =>
      rw [hwo] at h
      dsimp only at h
      by_cases h1 : (!(sys.getLock lockid).lo_locked) = true
      · rw [if_pos h1] at h
        cases h
      · rw [if_neg h1] at h
        by_cases h2 : (sys.getLock lockid).lo_recursed = true
        · rw [if_pos h2] at h
          by_cases h3 : (!(sys.getLock lockid).lo_recursable) = true
          · rw [if_pos h3] at h
            cases h
          · rw [if_neg h3] at h
            rw [Except.ok.injEq] at h
            subst h
            rfl
        · rw [if_neg h2] at h
          by_cases h4 : ((sys.getLock lockid).lo_class.lc_sleep
              && !(sys.spinChain cpu).isEmpty) = true
          · rw [if_pos h4] at h
            cases h
          · rw [if_neg h4] at h
            by_cases h5 : flags.trylock = true
            · rw [if_pos h5] at h
              rw [Except.ok.injEq] at h
              subst h
              rw [countP_reportsExh
                ((witness_lock_out_spec sys pid cpu lockid wid file line).2.2.1) v g]
            · rw [if_neg h5] at h
              set C := if (sys.getLock lockid).lo_class.lc_sleep = true
                  then sys.sleepChain pid else sys.spinChain cpu with hC
              by_cases h6 : C.isEmpty = true
              · rw [if_pos h6] at h
                rw [Except.ok.injEq] at h
                subst h
                rw [countP_reportsExh
                  ((witness_lock_out_spec sys pid cpu lockid wid file line).2.2.1) v g]
              · rw [if_neg h6] at h
                by_cases h7 : (sys.getLock ((C.headD []).getLastD 0)).lo_witness = some wid
                · rw [if_pos h7] at h
                  by_cases h8 : ((sys.wst.getW wid).w_same_squawked
                      || dup_ok (sys.wst.getW wid)) = true
                  · rw [if_pos h8] at h
                    rw [Except.ok.injEq] at h
                    subst h
                    rw [countP_reportsExh
                      ((witness_lock_out_spec sys pid cpu lockid wid file line).2.2.1) v g]
                  · rw [if_neg h8] at h
                    rw [Except.ok.injEq] at h
                    subst h
                    rw [countP_reportsExh
                      ((witness_lock_out_spec _ pid cpu lockid wid file line).2.2.1) v g]
                    show (sys.wst.reports ++ [Report.duplicate wid]).countP (isRevHeld v g)
                      = sys.wst.reports.countP (isRevHeld v g)
                    rw [List.countP_append]
                    simp [isRevHeld]
                · rw [if_neg h7] at h
                  cases hw1 : (sys.getLock ((C.headD []).getLastD 0)).lo_witness with
                  | none =>
                    rw [hw1] at h
                    cases h
                  | some w1 =>
                    rw [hw1] at h
                    dsimp only at h
                    by_cases h9 : (decide (sys.wst.witness_watch > 1)
                        && decide ((sys.wst.getW wid).w_level
                          > (sys.wst.getW w1).w_level)) = true
                    · rw [if_pos h9] at h
                      rw [Except.ok.injEq] at h
                      subst h
                      rw [countP_reportsExh
                        ((witness_lock_out_spec sys pid cpu lockid wid file line).2.2.1) v g]
                    · rw [if_neg h9] at h
                      by_cases h10 : isitmydescendant sys.wst w1 wid = true
                      · rw [if_pos h10] at h
                        rw [Except.ok.injEq] at h
                        subst h
                        rw [countP_reportsExh
                          ((witness_lock_out_spec sys pid cpu lockid wid file line).2.2.1) v g]
                      · rw [if_neg h10] at h
                        cases hfv : findViolationAux sys wid C with
                        | some t =>
                          obtain ⟨lock1v, cs, i⟩ := t
                          rw [hfv] at h
                          dsimp only at h
                          cases hw1v : (sys.getLock lock1v).lo_witness with
                          | none =>
                            rw [hw1v] at h
                            cases h
                          | some w1v =>
                            rw [hw1v] at h
                            dsimp only at h
                            by_cases h11 : blessed (sys.wst.getW wid) (sys.wst.getW w1v) = true
                            · rw [if_pos h11] at h
                              rw [Except.ok.injEq] at h
                              subst h
                              rw [countP_reportsExh
                                ((witness_lock_out_spec sys pid cpu lockid wid file line).2.2.1) v g]
                            · rw [if_neg h11] at h
                              by_cases h12 : lock1v = giantLockId
                              · rw [if_pos h12] at h
                                by_cases h13 : (sys.wst.getW w1v).w_Giant_squawked = true
                                · rw [if_pos h13] at h
                                  rw [Except.ok.injEq] at h
                                  subst h
                                  rw [countP_reportsExh
                                    ((witness_lock_out_spec sys pid cpu lockid wid file line).2.2.1) v g]
                                · rw [if_neg h13] at h
                                  rw [Except.ok.injEq] at h
                                  subst h
                                  rw [countP_reportsExh
                                    ((witness_lock_out_spec _ pid cpu lockid wid file line).2.2.1) v g]
                                  have hrev : isRevHeld v g (Report.reversal wid w1v true
                                      lock1v (earlierScan sys wid cs i) lockid) = false := by
                                    rw [show isRevHeld v g (Report.reversal wid w1v true
                                        lock1v (earlierScan sys wid cs i) lockid)
                                      = (w1v == v && (true == g)) from rfl]
                                    by_cases hv : w1v = v
                                    · cases g with
                                      | true =>
                                        exfalso
                                        have hf2 : (sys.wst.getW v).w_Giant_squawked = true := by
                                          simpa using hflag
                                        refine h13 ?_
                                        rw [hv]
                                        exact hf2
                                      | false =>
                                        simp
                                    · simp [hv]
                                  show (sys.wst.reports ++ [Report.reversal wid w1v true
                                      lock1v (earlierScan sys wid cs i) lockid]).countP (isRevHeld v g)
                                    = sys.wst.reports.countP (isRevHeld v g)
                                  rw [List.countP_append]
                                  simp [hrev]
                              · rw [if_neg h12] at h
                                by_cases h14 : (sys.wst.getW w1v).w_other_squawked = true
                                · rw [if_pos h14] at h
                                  rw [Except.ok.injEq] at h
                                  subst h
                                  rw [countP_reportsExh
                                    ((witness_lock_out_spec sys pid cpu lockid wid file line).2.2.1) v g]
                                · rw [if_neg h14] at h
                                  rw [Except.ok.injEq] at h
                                  subst h
                                  rw [countP_reportsExh
                                    ((witness_lock_out_spec _ pid cpu lockid wid file line).2.2.1) v g]
                                  have hrev : isRevHeld v g (Report.reversal wid w1v false
                                      lock1v (earlierScan sys wid cs i) lockid) = false := by
                                    rw [show isRevHeld v g (Report.reversal wid w1v false
                                        lock1v (earlierScan sys wid cs i) lockid)
                                      = (w1v == v && (false == g)) from rfl]
                                    by_cases hv : w1v = v
                                    · cases g with
                                      | false =>
                                        exfalso
                                        have hf2 : (sys.wst.getW v).w_other_squawked = true := by
                                          simpa using hflag
                                        refine h14 ?_
                                        rw [hv]
                                        exact hf2
                                      | true =>
                                        simp
                                    · simp [hv]
                                  show (sys.wst.reports ++ [Report.reversal wid w1v false
                                      lock1v (earlierScan sys wid cs i) lockid]).countP (isRevHeld v g)
                                    = sys.wst.reports.countP (isRevHeld v g)
                                  rw [List.countP_append]
                                  simp [hrev]
                        | none =>
                          rw [hfv] at h
                          dsimp only at h
                          cases him : itismychild sys.wst w1 wid with
                          | error e =>
                            rw [him] at h
                            cases h
                          | ok pr =>
                            obtain ⟨b2, wst2⟩ := pr
                            rw [him] at h
                            dsimp only at h
                            rw [Except.ok.injEq] at h
                            subst h
                            rw [countP_reportsExh
                              ((witness_lock_out_spec _ pid cpu lockid wid file line).2.2.1) v g]
                            show wst2.reports.countP (isRevHeld v g)
                              = sys.wst.reports.countP (isRevHeld v g)
                            exact countP_reportsExh (itismychild_reports him) v g

set_option maxRecDepth 10000 in
theorem c4_sticky_suppression_witness :
    (if true then (({ initSys with wst := initSys.wst.modifyW 0 (fun w => { w with w_Giant_squawked := true }) } : Sys).wst.getW 0).w_Giant_squawked
     else (({ initSys with wst := initSys.wst.modifyW 0 (fun w => { w with w_Giant_squawked := true }) } : Sys).wst.getW 0).w_other_squawked)
      = true ∧
    witness_lock { initSys with wst := initSys.wst.modifyW 0 (fun w => { w with w_Giant_squawked := true }) } 1 1 9999 ⟨false, false⟩ "f" 1
      = .ok { initSys with wst := initSys.wst.modifyW 0 (fun w => { w with w_Giant_squawked := true }) } ∧
    ({ initSys with wst := initSys.wst.modifyW 0 (fun w => { w with w_Giant_squawked := true }) } : Sys).wst.reports.countP (isRevHeld 0 true)
      = ({ initSys with wst := initSys.wst.modifyW 0 (fun w => { w with w_Giant_squawked := true }) } : Sys).wst.reports.countP (isRevHeld 0 true) :=
  ⟨by decide, rfl,
    @c4_sticky_suppression
      { initSys with wst := initSys.wst.modifyW 0 (fun w => { w with w_Giant_squawked := true }) }
      1 1 9999 ⟨false, false⟩ "f" 1
      { initSys with wst := initSys.wst.modifyW 0 (fun w => { w with w_Giant_squawked := true }) }
      0 true (by decide) rfl⟩

set_option maxRecDepth 10000 in
theorem c4_counterexample :
    (match runEvents initSys
        [ .einit "alock" lock_class_mtx_sleep true false false,
          .eacquire 1 1 2 ⟨false, false⟩ "f" 1,
          .eacquire 1 1 0 ⟨false, false⟩ "f" 2,
          .erelease 1 1 0 ⟨false, false⟩ "f" 3,
          .erelease 1 1 2 ⟨false, false⟩ "f" 4,
          .eacquire 1 1 0 ⟨false, false⟩ "f" 5,
          .eacquire 1 1 2 ⟨false, false⟩ "f" 6,
          .erelease 1 1 2 ⟨false, false⟩ "f" 7,
          .erelease 1 1 0 ⟨false, false⟩ "f" 8,
          .einit "Giant" lock_class_mtx_sleep true true false,
          .eacquire 1 1 3 ⟨false, false⟩ "f" 9,
          .eacquire 1 1 2 ⟨false, false⟩ "f" 10,
          .erelease 1 1 2 ⟨false, false⟩ "f" 11,
          .erelease 1 1 3 ⟨false, false⟩ "f" 12 ] with
     | .ok s => decide (s.wst.reports.countP (isRevPair 13 0) = 2)
     | .error _ => false) = true := by decide

/-- **C5.** Acquiring a watched lock whose witness equals the witness of the
most recently pushed entry on the calling context's stack: with the
witness's `w_same_squawked` flag clear and the name not on the
duplicate-allowed list, one duplicate warning is reported and the flag is
set; with the flag set or the name duplicate-allowed, no warning.  In both
cases the acquisition proceeds through the `out:` tail and is recorded.
Corrected: the once-only key is the witness node (`w_same_squawked`), not
the witness name — a destroyed-and-re-enrolled name gets a fresh node and a
second warning, see the counterexample. -/
theorem c5_dup_once {sys : Sys} {pid cpu lockid wid : Nat} {flags : LockFlags}
    {file : String} {line : Int}
    (hlive : (sys.wst.witness_cold || sys.wst.witness_dead || sys.panicstr) = false)
    (hw : (sys.getLock lockid).lo_witness = some wid)
    (hlocked : (sys.getLock lockid).lo_locked = true)
    (hnr : (sys.getLock lockid).lo_recursed = false)
    (hbs : ((sys.getLock lockid).lo_class.lc_sleep && !(sys.spinChain cpu).isEmpty) = false)
    (hntry : flags.trylock = false)
    (hne : (if (sys.getLock lockid).lo_class.lc_sleep = true
        then sys.sleepChain pid else sys.spinChain cpu).isEmpty = false)
    (hdup : (sys.getLock (((if (sys.getLock lockid).lo_class.lc_sleep = true
        then sys.sleepChain pid else sys.spinChain cpu).headD []).getLastD 0)).lo_witness
        = some wid) :
    (((sys.wst.getW wid).w_same_squawked || dup_ok (sys.wst.getW wid)) = true →
      witness_lock sys pid cpu lockid flags file line
        = .ok (witness_lock_out sys pid cpu lockid wid file line)) ∧
    (((sys.wst.getW wid).w_same_squawked || dup_ok (sys.wst.getW wid)) = false →
      witness_lock sys pid cpu lockid flags file line
        = .ok (witness_lock_out { sys with wst := (sys.wst.modifyW wid fun w =>
            { w with w_same_squawked := true }).addReport (.duplicate wid) }
            pid cpu lockid wid file line)) := by
  have hred : witness_lock sys pid cpu lockid flags file line =
      (if ((sys.wst.getW wid).w_same_squawked || dup_ok (sys.wst.getW wid)) = true
       then .ok (witness_lock_out sys pid cpu lockid wid file line)
       else .ok (witness_lock_out { sys with wst := (sys.wst.modifyW wid fun w =>
         { w with w_same_squawked := true }).addReport (.duplicate wid) }
         pid cpu lockid wid file line)) := by
    unfold witness_lock
    rw [if_neg (by rw [hlive]; simp), hw]
    dsimp only
    rw [if_neg (by rw [hlocked]; simp), if_neg (by rw [hnr]; simp),
        if_neg (by rw [hbs]; simp), if_neg (by rw [hntry]; simp),
        if_neg (by rw [hne]; simp), if_pos hdup]
  constructor
  · intro hfl
    rw [hred, if_pos hfl]
  · intro hfl
    rw [hred, if_neg (by rw [hfl]; simp)]

set_option maxRecDepth 10000 in
theorem c5_dup_once_witness :
    ((((Sys.setSleepChain (Sys.modifyLock initSys 0 (fun lk => { lk with lo_locked := true })) 1 [[0]]).wst.getW 0).w_same_squawked || dup_ok ((Sys.setSleepChain (Sys.modifyLock initSys 0 (fun lk => { lk with lo_locked := true })) 1 [[0]]).wst.getW 0)) = false) ∧
    witness_lock (Sys.setSleepChain (Sys.modifyLock initSys 0 (fun lk => { lk with lo_locked := true })) 1 [[0]]) 1 1 0 ⟨false, false⟩ "f" 1
      = .ok (witness_lock_out { Sys.setSleepChain (Sys.modifyLock initSys 0 (fun lk => { lk with lo_locked := true })) 1 [[0]] with
          wst := ((Sys.setSleepChain (Sys.modifyLock initSys 0 (fun lk => { lk with lo_locked := true })) 1 [[0]]).wst.modifyW 0 fun w =>
            { w with w_same_squawked := true }).addReport (.duplicate 0) } 1 1 0 0 "f" 1) :=
  ⟨by decide,
    (@c5_dup_once (Sys.setSleepChain (Sys.modifyLock initSys 0 (fun lk => { lk with lo_locked := true })) 1 [[0]])
      1 1 0 0 ⟨false, false⟩ "f" 1
      (by decide) (by decide) (by decide) (by decide) (by decide) (by decide)
      (by decide) (by decide)).2 (by decide)⟩

set_option maxRecDepth 10000 in
theorem c5_counterexample :
    (match runEvents initSys
        [ .einit "xlock" lock_class_mtx_sleep true false false,
          .einit "xlock" lock_class_mtx_sleep true false false,
          .eacquire 1 1 2 ⟨false, false⟩ "f" 1,
          .eacquire 1 1 3 ⟨false, false⟩ "f" 2,
          .erelease 1 1 3 ⟨false, false⟩ "f" 3,
          .erelease 1 1 2 ⟨false, false⟩ "f" 4,
          .edestroy 2, .edestroy 3,
          .einit "xlock" lock_class_mtx_sleep true false false,
          .einit "xlock" lock_class_mtx_sleep true false false,
          .eacquire 1 1 4 ⟨false, false⟩ "f" 5,
          .eacquire 1 1 5 ⟨false, false⟩ "f" 6,
          .erelease 1 1 5 ⟨false, false⟩ "f" 7,
          .erelease 1 1 4 ⟨false, false⟩ "f" 8 ] with
     | .ok s => decide (s.wst.reports = [.duplicate 13, .duplicate 14])
     | .error _ => false) = true := by decide

theorem mem_pushChain {c : List (List Nat)} {l x : Nat} :
    x ∈ (pushChain c l).flatten ↔ x = l ∨ x ∈ c.flatten := by
  cases c with
  | nil =>
    simp [pushChain]
  | cons hd tl =>
    unfold pushChain
    split
    · simp only [List.flatten_cons, List.mem_append, List.mem_singleton]
    · simp only [List.headD_cons, List.tail_cons, List.flatten_cons, List.mem_append,
        List.mem_singleton]
      tauto

theorem pushChain_chunks_ne {c : List (List Nat)} {l : Nat}
    (h : ∀ ch ∈ c, ch ≠ []) : ∀ ch ∈ pushChain c l, ch ≠ [] := by
  cases c with
  | nil =>
    intro ch hch
    simp only [pushChain, List.isEmpty_nil, Bool.true_or, if_pos] at hch
    rcases List.mem_cons.mp hch with h1 | h1
    · subst h1
      simp
    · cases h1
  | cons hd tl =>
    unfold pushChain
    split
    · intro ch hch
      rcases List.mem_cons.mp hch with h1 | h1
      · subst h1
        simp
      · exact h ch h1
    · intro ch hch
      simp only [List.headD_cons, List.tail_cons] at hch
      rcases List.mem_cons.mp hch with h1 | h1
      · subst h1
        simp
      · exact h ch (List.mem_cons_of_mem hd h1)

theorem removeFromChain_not_mem :
    ∀ {c : List (List Nat)} {l : Nat}, l ∉ c.flatten → removeFromChain c l = none := by
  intro c
  induction c with
  | nil =>
    intro l h
    rfl
  | cons a as ih =>
    intro l h
    rw [List.flatten_cons] at h
    unfold removeFromChain
    have hfa : a.findIdx? (fun y => y = l) = none := by
      rw [List.findIdx?_eq_none_iff]
      intro x hx
      rw [decide_eq_false_iff_not]
      intro he
      exact h (List.mem_append.mpr (Or.inl (he ▸ hx)))
    rw [hfa, ih fun hm => h (List.mem_append.mpr (Or.inr hm))]
    rfl

theorem removeFromChain_pushChain {c : List (List Nat)} {l : Nat}
    (hl : l ∉ c.flatten) (hch : ∀ ch ∈ c, ch ≠ []) :
    ∃ fr, removeFromChain (pushChain c l) l = some (c, fr) := by
  by_cases hfull : ((c.isEmpty || decide ((c.headD []).length = LOCK_CHILDCOUNT)) = true)
  · refine ⟨true, ?_⟩
    unfold pushChain
    rw [if_pos hfull]
    unfold removeFromChain
    have hf : [l].findIdx? (fun y => y = l) = some 0 := by simp
    rw [hf]
    rfl
  · cases c with
    | nil =>
      exfalso
      exact hfull (by simp)
    | cons hd tl =>
      refine ⟨false, ?_⟩
      unfold pushChain
      rw [if_neg hfull]
      simp only [List.headD_cons, List.tail_cons]
      unfold removeFromChain
      have hnl : l ∉ hd := by
        intro hm
        exact hl (by rw [List.flatten_cons]; exact List.mem_append.mpr (Or.inl hm))
      have hf : (hd ++ [l]).findIdx? (fun y => y = l) = some hd.length := by
        rw [List.findIdx?_append]
        have h1 : hd.findIdx? (fun y => y = l) = none := by
          rw [List.findIdx?_eq_none_iff]
          intro x hx
          rw [decide_eq_false_iff_not]
          intro he
          exact hnl (he ▸ hx)
        rw [h1]
        simp
      rw [hf]
      dsimp only
      have he : (hd ++ [l]).eraseIdx hd.length = hd := by
        rw [List.eraseIdx_append_of_length_le (le_refl hd.length)]
        simp
      rw [he]
      have hdne : hd ≠ [] := hch hd (List.mem_cons_self hd tl)
      have hne : hd.isEmpty = false := by
        cases hd with
        | nil => exact absurd rfl hdne
        | cons a b => rfl
      rw [hne]
      rfl
theorem itismychildRaw_cold (st : WState) (p c : Nat) :
    (itismychildRaw st p c).2.witness_cold = st.witness_cold := by
  unfold itismychildRaw
  cases hins : insertIntoChunks ((st.getW p).w_children) c with
  | some chunks2 =>
    rfl
  | none =>
    by_cases hz : st.w_child_free_count = 0
    · have hg : witness_child_get st = (none, { st with witness_dead := true, reports := st.reports ++ [.exhausted .childPool] }) := by
        unfold witness_child_get
        rw [if_pos hz]
      rw [hg]
    · have hg : witness_child_get st = (some (), { st with w_child_free_count := st.w_child_free_count - 1 }) := by
        unfold witness_child_get
        rw [if_neg hz]
      rw [hg]
      rfl

theorem pruneStep_cold {st : WState} {pc : Nat × Nat} {st2 : WState}
    (h : pruneStep st pc = .ok st2) : st2.witness_cold = st.witness_cold := by
  unfold pruneStep at h
  by_cases h1 : isitmychild st pc.1 pc.2 = true
  · rw [if_pos h1] at h
    by_cases h2 : isitmydescendant (removechild st pc.1 pc.2) pc.1 pc.2 = true
    · rw [if_pos h2] at h
      rw [Except.ok.injEq] at h
      subst h
      exact removechild_cold st pc.1 pc.2
    · rw [if_neg h2] at h
      cases hcall : itismychildR (removechild st pc.1 pc.2) pc.1 pc.2 with
      | error e =>
        rw [hcall] at h
        cases h
      | ok pr =>
        rw [hcall] at h
        obtain ⟨b, st3⟩ := pr
        dsimp only at h
        rw [Except.ok.injEq] at h
        subst h
        unfold itismychildR at hcall
        split at hcall
        · cases hcall
        · rw [Except.ok.injEq] at hcall
          have h3 := itismychildRaw_cold (removechild st pc.1 pc.2) pc.1 pc.2
          rw [hcall] at h3
          rw [show ((b, st3).2 : WState) = st3 from rfl] at h3
          rw [h3]
          exact removechild_cold st pc.1 pc.2
  · rw [if_neg h1] at h
    rw [Except.ok.injEq] at h
    subst h
    rfl

theorem prunePassFold_cold :
    ∀ (pairs : List (Nat × Nat)) {st st2 : WState},
    pairs.foldlM pruneStep st = .ok st2 → st2.witness_cold = st.witness_cold := by
  intro pairs
  induction pairs with
  | nil =>
    intro st st2 h
    have h2 : (Except.ok st : Except CPanic WState) = .ok st2 := h
    rw [Except.ok.injEq] at h2
    subst h2
    rfl
  | cons pc rest ih =>
    intro st st2 h
    rw [List.foldlM_cons] at h
    cases hstep : pruneStep st pc with
    | error e =>
      rw [hstep] at h
      cases h
    | ok st1 =>
      rw [hstep] at h
      rw [ih h]
      exact pruneStep_cold hstep

/-- `itismychild` never touches the cold flag. -/
theorem itismychild_cold {st : WState} {p c : Nat} {b : Bool} {st2 : WState}
    (h : itismychild st p c = .ok (b, st2)) : st2.witness_cold = st.witness_cold := by
  unfold itismychild at h
  split at h
  · cases h
  · cases hraw : itismychildRaw st p c with
    | mk fail st1 =>
      rw [hraw] at h
      have hr1 : st1.witness_cold = st.witness_cold := by
        have h3 := itismychildRaw_cold st p c
        rw [hraw] at h3
        exact h3
      cases fail with
      | true =>
        dsimp only at h
        rw [Except.ok.injEq, Prod.mk.injEq] at h
        obtain ⟨-, rfl⟩ := h
        exact hr1
      | false =>
        dsimp only at h
        cases hpass : prunePass st1
            (if (st1.getW p).w_class.lc_sleep = true then st1.w_sleep else st1.w_spin) with
        | error e =>
          rw [hpass] at h
          cases h
        | ok st3 =>
          rw [hpass] at h
          dsimp only at h
          rw [Except.ok.injEq, Prod.mk.injEq] at h
          obtain ⟨-, rfl⟩ := h
          rw [levelall_cold, prunePassFold_cold _ hpass]
          exact hr1

/-- Frames of `witness_lock_out`: the cold flag, the panic string, every
other lock object, and all fields of the acquired lock other than the
acquisition site. -/
theorem witness_lock_out_frames (sys : Sys) (pid cpu lockid wid : Nat)
    (file : String) (line : Int) :
    (witness_lock_out sys pid cpu lockid wid file line).wst.witness_cold
      = sys.wst.witness_cold ∧
    (witness_lock_out sys pid cpu lockid wid file line).panicstr = sys.panicstr ∧
    (∀ y, y ≠ lockid →
      (witness_lock_out sys pid cpu lockid wid file line).getLock y = sys.getLock y) ∧
    ((witness_lock_out sys pid cpu lockid wid file line).getLock lockid).lo_witness
      = (sys.getLock lockid).lo_witness ∧
    ((witness_lock_out sys pid cpu lockid wid file line).getLock lockid).lo_locked
      = (sys.getLock lockid).lo_locked ∧
    ((witness_lock_out sys pid cpu lockid wid file line).getLock lockid).lo_recursed
      = (sys.getLock lockid).lo_recursed ∧
    ((witness_lock_out sys pid cpu lockid wid file line).getLock lockid).lo_class
      = (sys.getLock lockid).lo_class := by
  unfold witness_lock_out
  dsimp only
  set Y := ({ sys with wst := sys.wst.modifyW wid fun w =>
      { w with w_file := some file, w_line := line } } : Sys).modifyLock lockid
      (fun lk => { lk with lo_file := some file, lo_line := line }) with hY
  have hl1 : Y.getLock lockid = { sys.getLock lockid with
      lo_file := some file, lo_line := line } := by
    have h1 : Y.getLock lockid = if lockid = lockid
        then { sys.getLock lockid with lo_file := some file, lo_line := line }
        else sys.getLock lockid := rfl
    rw [h1, if_pos rfl]
  have hl2 : ∀ y, y ≠ lockid → Y.getLock y = sys.getLock y := by
    intro y hy
    have h1 : Y.getLock y = if y = lockid
        then { sys.getLock lockid with lo_file := some file, lo_line := line }
        else sys.getLock y := rfl
    rw [h1, if_neg hy]
  have site : Y.wst.witness_cold = sys.wst.witness_cold ∧ Y.panicstr = sys.panicstr ∧
      (∀ y, y ≠ lockid → Y.getLock y = sys.getLock y) ∧
      (Y.getLock lockid).lo_witness = (sys.getLock lockid).lo_witness ∧
      (Y.getLock lockid).lo_locked = (sys.getLock lockid).lo_locked ∧
      (Y.getLock lockid).lo_recursed = (sys.getLock lockid).lo_recursed ∧
      (Y.getLock lockid).lo_class = (sys.getLock lockid).lo_class := by
    rw [hl1]
    exact ⟨rfl, rfl, hl2, rfl, rfl, rfl, rfl⟩
  by_cases hz : sys.wst.w_lock_list_free_count = 0
  · have hwg : witness_lock_list_get Y.wst = (none, { Y.wst with
        witness_dead := true,
        reports := Y.wst.reports ++ [.exhausted .lockListPool] }) := by
      unfold witness_lock_list_get
      rw [if_pos (show Y.wst.w_lock_list_free_count = 0 from hz)]
    rw [hwg]
    split
    · first | exact site | (split <;> exact site)
    · first | exact site | (split <;> exact site)
  · have hwg : witness_lock_list_get Y.wst = (some (), { Y.wst with
        w_lock_list_free_count := Y.wst.w_lock_list_free_count - 1 }) := by
      unfold witness_lock_list_get
      rw [if_neg (show ¬ Y.wst.w_lock_list_free_count = 0 from hz)]
    rw [hwg]
    split
    · first | exact site | (split <;> exact site)
    · first | exact site | (split <;> exact site)

/-- `witness_lock_out` never touches the chain it was not aimed at. -/
theorem witness_lock_out_other (sys : Sys) (pid cpu lockid wid : Nat)
    (file : String) (line : Int) :
    ((sys.getLock lockid).lo_class.lc_sleep = true →
      (witness_lock_out sys pid cpu lockid wid file line).spinChain cpu
        = sys.spinChain cpu) ∧
    ((sys.getLock lockid).lo_class.lc_sleep = false →
      (witness_lock_out sys pid cpu lockid wid file line).sleepChain pid
        = sys.sleepChain pid) := by
  unfold witness_lock_out
  dsimp only
  set Y := ({ sys with wst := sys.wst.modifyW wid fun w =>
      { w with w_file := some file, w_line := line } } : Sys).modifyLock lockid
      (fun lk => { lk with lo_file := some file, lo_line := line }) with hY
  have hcls : (Y.getLock lockid).lo_class = (sys.getLock lockid).lo_class := by
    have h1 : Y.getLock lockid = if lockid = lockid
        then { sys.getLock lockid with lo_file := some file, lo_line := line }
        else sys.getLock lockid := rfl
    rw [h1, if_pos rfl]
  rw [hcls]
  by_cases hz : sys.wst.w_lock_list_free_count = 0
  · have hwg : witness_lock_list_get Y.wst = (none, { Y.wst with
        witness_dead := true,
        reports := Y.wst.reports ++ [.exhausted .lockListPool] }) := by
      unfold witness_lock_list_get
      rw [if_pos (show Y.wst.w_lock_list_free_count = 0 from hz)]
    rw [hwg]
    split
    · next hcl =>
      split
      · exact ⟨fun _ => rfl, fun hcond => by rw [hcl] at hcond; cases hcond⟩
      · exact ⟨fun _ => rfl, fun hcond => by rw [hcl] at hcond; cases hcond⟩
    · next hcl =>
      rw [Bool.not_eq_true] at hcl
      split
      · exact ⟨fun hcond => (by rw [hcl] at hcond; cases hcond), fun _ => rfl⟩
      · exact ⟨fun hcond => (by rw [hcl] at hcond; cases hcond), fun _ => rfl⟩
  · have hwg : witness_lock_list_get Y.wst = (some (), { Y.wst with
        w_lock_list_free_count := Y.wst.w_lock_list_free_count - 1 }) := by
      unfold witness_lock_list_get
      rw [if_neg (show ¬ Y.wst.w_lock_list_free_count = 0 from hz)]
    rw [hwg]
    split
    · next hcl =>
      split
      · exact ⟨fun _ => rfl, fun hcond => by rw [hcl] at hcond; cases hcond⟩
      · exact ⟨fun _ => rfl, fun hcond => by rw [hcl] at hcond; cases hcond⟩
    · next hcl =>
      rw [Bool.not_eq_true] at hcl
      split
      · exact ⟨fun hcond => (by rw [hcl] at hcond; cases hcond), fun _ => rfl⟩
      · exact ⟨fun hcond => (by rw [hcl] at hcond; cases hcond), fun _ => rfl⟩

/-- The `out:` tail applied to `sys` with an updated verifier registry:
frames plus the chain effect, given the branch conditions that guard every
`out` jump in `witness_lock`. -/
theorem out_effect {sys : Sys} (wst1 : WState) {pid cpu lockid wid : Nat}
    {file : String} {line : Int}
    (hcold : wst1.witness_cold = sys.wst.witness_cold)
    (hw : (sys.getLock lockid).lo_witness ≠ none)
    (hnr : (sys.getLock lockid).lo_recursed = false) :
    (witness_lock_out { sys with wst := wst1 } pid cpu lockid wid file line).wst.witness_cold
      = sys.wst.witness_cold ∧
    (witness_lock_out { sys with wst := wst1 } pid cpu lockid wid file line).panicstr
      = sys.panicstr ∧
    (∀ y, y ≠ lockid →
      (witness_lock_out { sys with wst := wst1 } pid cpu lockid wid file line).getLock y
        = sys.getLock y) ∧
    ((witness_lock_out { sys with wst := wst1 } pid cpu lockid wid file line).getLock lockid).lo_witness
      = (sys.getLock lockid).lo_witness ∧
    ((witness_lock_out { sys with wst := wst1 } pid cpu lockid wid file line).getLock lockid).lo_locked
      = (sys.getLock lockid).lo_locked ∧
    ((witness_lock_out { sys with wst := wst1 } pid cpu lockid wid file line).getLock lockid).lo_recursed
      = (sys.getLock lockid).lo_recursed ∧
    ((witness_lock_out { sys with wst := wst1 } pid cpu lockid wid file line).getLock lockid).lo_class
      = (sys.getLock lockid).lo_class ∧
    chainDisj sys (witness_lock_out { sys with wst := wst1 } pid cpu lockid wid file line)
      pid cpu lockid := by
  obtain ⟨hf1, hf2, hf3, hf4, hf5, hf6, hf7⟩ :=
    witness_lock_out_frames { sys with wst := wst1 } pid cpu lockid wid file line
  obtain ⟨ho1, ho2⟩ :=
    witness_lock_out_other { sys with wst := wst1 } pid cpu lockid wid file line
  refine ⟨hf1.trans hcold, hf2, hf3, hf4, hf5, hf6, hf7, ?_⟩
  obtain ⟨hc1, hc2, hc3⟩ :=
    (witness_lock_out_spec { sys with wst := wst1 } pid cpu lockid wid file line).2.2.2
  by_cases hcl : (({ sys with wst := wst1 } : Sys).getLock lockid).lo_class.lc_sleep = true
  · simp only [if_pos hcl] at hc1 hc2 hc3
    by_cases hfull : ((({ sys with wst := wst1 } : Sys).sleepChain pid).isEmpty
        || decide (((({ sys with wst := wst1 } : Sys).sleepChain pid).headD []).length
          = LOCK_CHILDCOUNT)) = true
    · by_cases hz : wst1.w_lock_list_free_count = 0
      · exact Or.inl ⟨hc3 hfull hz, ho1 hcl⟩
      · refine Or.inr (Or.inl ⟨hcl, hnr, hw, ?_, ho1 hcl⟩)
        have hp : pushChain (sys.sleepChain pid) lockid = [lockid] :: sys.sleepChain pid := by
          unfold pushChain
          rw [if_pos (show ((sys.sleepChain pid).isEmpty
            || decide (((sys.sleepChain pid).headD []).length = LOCK_CHILDCOUNT)) = true from hfull)]
        rw [hp]
        exact hc2 hfull hz
    · rw [Bool.not_eq_true] at hfull
      refine Or.inr (Or.inl ⟨hcl, hnr, hw, ?_, ho1 hcl⟩)
      have hp : pushChain (sys.sleepChain pid) lockid
          = ((sys.sleepChain pid).headD [] ++ [lockid]) :: (sys.sleepChain pid).tail := by
        unfold pushChain
        rw [if_neg (show ¬ ((sys.sleepChain pid).isEmpty
          || decide (((sys.sleepChain pid).headD []).length = LOCK_CHILDCOUNT)) = true by
            rw [show ((sys.sleepChain pid).isEmpty
              || decide (((sys.sleepChain pid).headD []).length = LOCK_CHILDCOUNT)) = false from hfull]
            simp)]
      rw [hp]
      exact hc1 hfull
  · simp only [if_neg hcl] at hc1 hc2 hc3
    have hcl2 : (sys.getLock lockid).lo_class.lc_sleep = false := by
      have h2 : ¬ (sys.getLock lockid).lo_class.lc_sleep = true := hcl
      rw [Bool.not_eq_true] at h2
      exact h2
    by_cases hfull : ((({ sys with wst := wst1 } : Sys).spinChain cpu).isEmpty
        || decide (((({ sys with wst := wst1 } : Sys).spinChain cpu).headD []).length
          = LOCK_CHILDCOUNT)) = true
    · by_cases hz : wst1.w_lock_list_free_count = 0
      · exact Or.inl ⟨ho2 hcl2, hc3 hfull hz⟩
      · refine Or.inr (Or.inr ⟨hcl2, hnr, hw, ?_, ho2 hcl2⟩)
        have hp : pushChain (sys.spinChain cpu) lockid = [lockid] :: sys.spinChain cpu := by
          unfold pushChain
          rw [if_pos (show ((sys.spinChain cpu).isEmpty
            || decide (((sys.spinChain cpu).headD []).length = LOCK_CHILDCOUNT)) = true from hfull)]
        rw [hp]
        exact hc2 hfull hz
    · rw [Bool.not_eq_true] at hfull
      refine Or.inr (Or.inr ⟨hcl2, hnr, hw, ?_, ho2 hcl2⟩)
      have hp : pushChain (sys.spinChain cpu) lockid
          = ((sys.spinChain cpu).headD [] ++ [lockid]) :: (sys.spinChain cpu).tail := by
        unfold pushChain
        rw [if_neg (show ¬ ((sys.spinChain cpu).isEmpty
          || decide (((sys.spinChain cpu).headD []).length = LOCK_CHILDCOUNT)) = true by
            rw [show ((sys.spinChain cpu).isEmpty
              || decide (((sys.spinChain cpu).headD []).length = LOCK_CHILDCOUNT)) = false from hfull]
            simp)]
      rw [hp]
      exact hc1 hfull

/-- Every `.ok` outcome of `witness_lock`: frames for the cold flag, the
panic string and the lock map, and the chain effect `chainDisj`. -/
theorem witness_lock_effect {sys : Sys} {pid cpu lockid : Nat}
    {flags : LockFlags} {file : String} {line : Int} {sys2 : Sys}
    (h : witness_lock sys pid cpu lockid flags file line = .ok sys2) :
    sys2.wst.witness_cold = sys.wst.witness_cold ∧
    sys2.panicstr = sys.panicstr ∧
    (∀ y, y ≠ lockid → sys2.getLock y = sys.getLock y) ∧
    (sys2.getLock lockid).lo_witness = (sys.getLock lockid).lo_witness ∧
    (sys2.getLock lockid).lo_locked = (sys.getLock lockid).lo_locked ∧
    (sys2.getLock lockid).lo_recursed = (sys.getLock lockid).lo_recursed ∧
    (sys2.getLock lockid).lo_class = (sys.getLock lockid).lo_class ∧
    chainDisj sys sys2 pid cpu lockid := by
  unfold witness_lock at h
  by_cases h0 : (sys.wst.witness_cold || sys.wst.witness_dead || sys.panicstr) = true
  · rw [if_pos h0] at h
    rw [Except.ok.injEq] at h
    subst h
    exact ⟨rfl, rfl, fun y _ => rfl, rfl, rfl, rfl, rfl, Or.inl ⟨rfl, rfl⟩⟩
  · rw [if_neg h0] at h
    cases hwo : (sys.getLock lockid).lo_witness with
    | none =>
      rw [hwo] at h
      rw [Except.ok.injEq] at h
      subst h
      exact ⟨rfl, rfl, fun y _ => rfl, hwo, rfl, rfl, rfl, Or.inl ⟨rfl, rfl⟩⟩
    | some wid =>
      rw [hwo] at h
      dsimp only at h
      have hw2 : (sys.getLock lockid).lo_witness ≠ none := by
        rw [hwo]
        simp
      by_cases h1 : (!(sys.getLock lockid).lo_locked) = true
      · rw [if_pos h1] at h
        cases h
      · rw [if_neg h1] at h
        by_cases h2 : (sys.getLock lockid).lo_recursed = true
        · rw [if_pos h2] at h
          by_cases h3 : (!(sys.getLock lockid).lo_recursable) = true
          · rw [if_pos h3] at h
            cases h
          · rw [if_neg h3] at h
            rw [Except.ok.injEq] at h
            subst h
            exact ⟨rfl, rfl, fun y _ => rfl, hwo, rfl, rfl, rfl, Or.inl ⟨rfl, rfl⟩⟩
        · rw [if_neg h2] at h
          have hnr2 : (sys.getLock lockid).lo_recursed = false := by
            have h4 := h2
            rw [Bool.not_eq_true] at h4
            exact h4
          by_cases h4 : ((sys.getLock lockid).lo_class.lc_sleep
              && !(sys.spinChain cpu).isEmpty) = true
          · rw [if_pos h4] at h
            cases h
          · rw [if_neg h4] at h
            by_cases h5 : flags.trylock = true
            · rw [if_pos h5] at h
              rw [Except.ok.injEq] at h
              subst h
              have hb := @out_effect sys sys.wst pid cpu lockid wid file line rfl hw2 hnr2
              exact ⟨hb.1, hb.2.1, hb.2.2.1, hb.2.2.2.1.trans hwo, hb.2.2.2.2.1, hb.2.2.2.2.2.1, hb.2.2.2.2.2.2.1, hb.2.2.2.2.2.2.2⟩
            · rw [if_neg h5] at h
              set C := if (sys.getLock lockid).lo_class.lc_sleep = true
                  then sys.sleepChain pid else sys.spinChain cpu with hC
              by_cases h6 : C.isEmpty = true
              · rw [if_pos h6] at h
                rw [Except.ok.injEq] at h
                subst h
                have hb := @out_effect sys sys.wst pid cpu lockid wid file line rfl hw2 hnr2
                exact ⟨hb.1, hb.2.1, hb.2.2.1, hb.2.2.2.1.trans hwo, hb.2.2.2.2.1, hb.2.2.2.2.2.1, hb.2.2.2.2.2.2.1, hb.2.2.2.2.2.2.2⟩
              · rw [if_neg h6] at h
                by_cases h7 : (sys.getLock ((C.headD []).getLastD 0)).lo_witness = some wid
                · rw [if_pos h7] at h
                  by_cases h8 : ((sys.wst.getW wid).w_same_squawked
                      || dup_ok (sys.wst.getW wid)) = true
                  · rw [if_pos h8] at h
                    rw [Except.ok.injEq] at h
                    subst h
                    have hb := @out_effect sys sys.wst pid cpu lockid wid file line rfl hw2 hnr2
                    exact ⟨hb.1, hb.2.1, hb.2.2.1, hb.2.2.2.1.trans hwo, hb.2.2.2.2.1, hb.2.2.2.2.2.1, hb.2.2.2.2.2.2.1, hb.2.2.2.2.2.2.2⟩
                  · rw [if_neg h8] at h
                    rw [Except.ok.injEq] at h
                    subst h
                    have hb := @out_effect sys ((sys.wst.modifyW wid fun w =>
                      { w with w_same_squawked := true }).addReport (.duplicate wid))
                      pid cpu lockid wid file line rfl hw2 hnr2
                    exact ⟨hb.1, hb.2.1, hb.2.2.1, hb.2.2.2.1.trans hwo, hb.2.2.2.2.1, hb.2.2.2.2.2.1, hb.2.2.2.2.2.2.1, hb.2.2.2.2.2.2.2⟩
                · rw [if_neg h7] at h
                  cases hw1 : (sys.getLock ((C.headD []).getLastD 0)).lo_witness with
                  | none =>
                    rw [hw1] at h
                    cases h
                  | some w1 =>
                    rw [hw1] at h
                    dsimp only at h
                    by_cases h9 : (decide (sys.wst.witness_watch > 1)
                        && decide ((sys.wst.getW wid).w_level
                          > (sys.wst.getW w1).w_level)) = true
                    · rw [if_pos h9] at h
                      rw [Except.ok.injEq] at h
                      subst h
                      have hb := @out_effect sys sys.wst pid cpu lockid wid file line rfl hw2 hnr2
                      exact ⟨hb.1, hb.2.1, hb.2.2.1, hb.2.2.2.1.trans hwo, hb.2.2.2.2.1, hb.2.2.2.2.2.1, hb.2.2.2.2.2.2.1, hb.2.2.2.2.2.2.2⟩
                    · rw [if_neg h9] at h
                      by_cases h10 : isitmydescendant sys.wst w1 wid = true
                      · rw [if_pos h10] at h
                        rw [Except.ok.injEq] at h
                        subst h
                        have hb := @out_effect sys sys.wst pid cpu lockid wid file line rfl hw2 hnr2
                        exact ⟨hb.1, hb.2.1, hb.2.2.1, hb.2.2.2.1.trans hwo, hb.2.2.2.2.1, hb.2.2.2.2.2.1, hb.2.2.2.2.2.2.1, hb.2.2.2.2.2.2.2⟩
                      · rw [if_neg h10] at h
                        cases hfv : findViolationAux sys wid C with
                        | some t =>
                          obtain ⟨lock1v, cs, i⟩ := t
                          rw [hfv] at h
                          dsimp only at h
                          cases hw1v : (sys.getLock lock1v).lo_witness with
                          | none =>
                            rw [hw1v] at h
                            cases h
                          | some w1v =>
                            rw [hw1v] at h
                            dsimp only at h
                            by_cases h11 : blessed (sys.wst.getW wid) (sys.wst.getW w1v) = true
                            · rw [if_pos h11] at h
                              rw [Except.ok.injEq] at h
                              subst h
                              have hb := @out_effect sys sys.wst pid cpu lockid wid file line rfl hw2 hnr2
                              exact ⟨hb.1, hb.2.1, hb.2.2.1, hb.2.2.2.1.trans hwo, hb.2.2.2.2.1, hb.2.2.2.2.2.1, hb.2.2.2.2.2.2.1, hb.2.2.2.2.2.2.2⟩
                            · rw [if_neg h11] at h
                              by_cases h12 : lock1v = giantLockId
                              · rw [if_pos h12] at h
                                by_cases h13 : (sys.wst.getW w1v).w_Giant_squawked = true
                                · rw [if_pos h13] at h
                                  rw [Except.ok.injEq] at h
                                  subst h
                                  have hb := @out_effect sys sys.wst pid cpu lockid wid file line rfl hw2 hnr2
                                  exact ⟨hb.1, hb.2.1, hb.2.2.1, hb.2.2.2.1.trans hwo, hb.2.2.2.2.1, hb.2.2.2.2.2.1, hb.2.2.2.2.2.2.1, hb.2.2.2.2.2.2.2⟩
                                · rw [if_neg h13] at h
                                  rw [Except.ok.injEq] at h
                                  subst h
                                  have hb := @out_effect sys ((sys.wst.modifyW w1v fun w =>
                                    { w with w_Giant_squawked := true }).addReport
                                    (.reversal wid w1v true lock1v (earlierScan sys wid cs i) lockid))
                                    pid cpu lockid wid file line rfl hw2 hnr2
                                  exact ⟨hb.1, hb.2.1, hb.2.2.1, hb.2.2.2.1.trans hwo, hb.2.2.2.2.1, hb.2.2.2.2.2.1, hb.2.2.2.2.2.2.1, hb.2.2.2.2.2.2.2⟩
                              · rw [if_neg h12] at h
                                by_cases h14 : (sys.wst.getW w1v).w_other_squawked = true
                                · rw [if_pos h14] at h
                                  rw [Except.ok.injEq] at h
                                  subst h
                                  have hb := @out_effect sys sys.wst pid cpu lockid wid file line rfl hw2 hnr2
                                  exact ⟨hb.1, hb.2.1, hb.2.2.1, hb.2.2.2.1.trans hwo, hb.2.2.2.2.1, hb.2.2.2.2.2.1, hb.2.2.2.2.2.2.1, hb.2.2.2.2.2.2.2⟩
                                · rw [if_neg h14] at h
                                  rw [Except.ok.injEq] at h
                                  subst h
                                  have hb := @out_effect sys ((sys.wst.modifyW w1v fun w =>
                                    { w with w_other_squawked := true }).addReport
                                    (.reversal wid w1v false lock1v (earlierScan sys wid cs i) lockid))
                                    pid cpu lockid wid file line rfl hw2 hnr2
                                  exact ⟨hb.1, hb.2.1, hb.2.2.1, hb.2.2.2.1.trans hwo, hb.2.2.2.2.1, hb.2.2.2.2.2.1, hb.2.2.2.2.2.2.1, hb.2.2.2.2.2.2.2⟩
                        | none =>
                          rw [hfv] at h
                          dsimp only at h
                          cases him : itismychild sys.wst w1 wid with
                          | error e =>
                            rw [him] at h
                            cases h
                          | ok pr =>
                            obtain ⟨b2, wst2⟩ := pr
                            rw [him] at h
                            dsimp only at h
                            rw [Except.ok.injEq] at h
                            subst h
                            have hb := @out_effect sys wst2 pid cpu lockid wid file line (itismychild_cold him) hw2 hnr2
                            exact ⟨hb.1, hb.2.1, hb.2.2.1, hb.2.2.2.1.trans hwo, hb.2.2.2.2.1, hb.2.2.2.2.2.1, hb.2.2.2.2.2.2.1, hb.2.2.2.2.2.2.2⟩

/-- Every `.ok` outcome of `witness_unlock` in a live, warmed-up state:
the verifier flags, the lock map and the untargeted chain are framed, and
the targeted chain loses the first matching entry exactly when the released
lock is watched, non-recursed and of the matching class. -/
theorem witness_unlock_effect {sys : Sys} {pid cpu l : Nat} {flags : LockFlags}
    {file : String} {line : Int} {sys2 : Sys}
    (h0 : (sys.wst.witness_cold || sys.wst.witness_dead || sys.panicstr) = false)
    (h : witness_unlock sys pid cpu l flags file line = .ok sys2) :
    sys2.wst.witness_cold = sys.wst.witness_cold ∧
    sys2.wst.witness_dead = sys.wst.witness_dead ∧
    sys2.panicstr = sys.panicstr ∧
    (∀ y, sys2.getLock y = sys.getLock y) ∧
    sys2.sleepChain pid = (if ((sys.getLock l).lo_witness ≠ none ∧
        (sys.getLock l).lo_recursed = false ∧ (sys.getLock l).lo_class.lc_sleep = true)
      then ((removeFromChain (sys.sleepChain pid) l).elim (sys.sleepChain pid) Prod.fst)
      else sys.sleepChain pid) ∧
    sys2.spinChain cpu = (if ((sys.getLock l).lo_witness ≠ none ∧
        (sys.getLock l).lo_recursed = false ∧ (sys.getLock l).lo_class.lc_sleep = false)
      then ((removeFromChain (sys.spinChain cpu) l).elim (sys.spinChain cpu) Prod.fst)
      else sys.spinChain cpu) := by
  unfold witness_unlock at h
  rw [if_neg (by rw [h0]; simp)] at h
  cases hwo : (sys.getLock l).lo_witness with
  | none =>
    rw [hwo] at h
    rw [Except.ok.injEq] at h
    subst h
    refine ⟨rfl, rfl, rfl, fun y => rfl, ?_, ?_⟩
    · rw [if_neg (by simp)]
    · rw [if_neg (by simp)]
  | some w =>
    rw [hwo] at h
    dsimp only at h
    by_cases h2 : (sys.getLock l).lo_recursed = true
    · rw [if_pos h2] at h
      by_cases h3 : (!(sys.getLock l).lo_locked) = true
      · rw [if_pos h3] at h
        cases h
      · rw [if_neg h3] at h
        rw [Except.ok.injEq] at h
        subst h
        refine ⟨rfl, rfl, rfl, fun y => rfl, ?_, ?_⟩
        · rw [if_neg (by rw [h2]; simp)]
        · rw [if_neg (by rw [h2]; simp)]
    · rw [if_neg h2] at h
      have hnr2 : (sys.getLock l).lo_recursed = false := by
        have h4 := h2
        rw [Bool.not_eq_true] at h4
        exact h4
      have hwne : some w ≠ (none : Option Nat) := by simp
      by_cases hcl : (sys.getLock l).lo_class.lc_sleep = true
      · rw [if_pos hcl] at h
        by_cases hsw : (!flags.noswitch && !(sys.spinChain cpu).isEmpty) = true
        · rw [if_pos hsw] at h
          cases h
        · rw [if_neg hsw] at h
          cases hrm : removeFromChain (sys.sleepChain pid) l with
          | none =>
            rw [hrm] at h
            rw [Except.ok.injEq] at h
            subst h
            refine ⟨rfl, rfl, rfl, fun y => rfl, ?_, ?_⟩
            · rw [if_pos ⟨hwne, hnr2, hcl⟩]
              rfl
            · rw [if_neg (by rw [hcl]; simp)]
          | some pr =>
            obtain ⟨chain2, fr⟩ := pr
            rw [hrm] at h
            dsimp only at h
            rw [Except.ok.injEq] at h
            subst h
            have hgoal1 : (if fr = true
                then { sys.setSleepChain pid chain2 with
                  wst := witness_lock_list_free (sys.setSleepChain pid chain2).wst }
                else sys.setSleepChain pid chain2).sleepChain pid = chain2 := by
              split
              · show (if pid = pid then chain2 else sys.sleepmap pid) = chain2
                rw [if_pos rfl]
              · show (if pid = pid then chain2 else sys.sleepmap pid) = chain2
                rw [if_pos rfl]
            have hgoal2 : (if fr = true
                then { sys.setSleepChain pid chain2 with
                  wst := witness_lock_list_free (sys.setSleepChain pid chain2).wst }
                else sys.setSleepChain pid chain2).spinChain cpu = sys.spinChain cpu := by
              split <;> rfl
            refine ⟨by split <;> rfl, by split <;> rfl, by split <;> rfl,
              fun y => by split <;> rfl, ?_, ?_⟩
            · rw [hgoal1, if_pos ⟨hwne, hnr2, hcl⟩]
              rfl
            · rw [hgoal2, if_neg (by rw [hcl]; simp)]
      · have hcl2 : (sys.getLock l).lo_class.lc_sleep = false := by
          have h4 := hcl
          rw [Bool.not_eq_true] at h4
          exact h4
        rw [if_neg hcl] at h
        cases hrm : removeFromChain (sys.spinChain cpu) l with
        | none =>
          rw [hrm] at h
          rw [Except.ok.injEq] at h
          subst h
          refine ⟨rfl, rfl, rfl, fun y => rfl, ?_, ?_⟩
          · rw [if_neg (by rw [hcl2]; simp)]
          · rw [if_pos ⟨hwne, hnr2, hcl2⟩]
            rfl
        | some pr =>
          obtain ⟨chain2, fr⟩ := pr
          rw [hrm] at h
          dsimp only at h
          rw [Except.ok.injEq] at h
          subst h
          have hgoal1 : (if fr = true
              then { sys.setSpinChain cpu chain2 with
                wst := witness_lock_list_free (sys.setSpinChain cpu chain2).wst }
              else sys.setSpinChain cpu chain2).spinChain cpu = chain2 := by
            split
            · show (if cpu = cpu then chain2 else sys.spinmap cpu) = chain2
              rw [if_pos rfl]
            · show (if cpu = cpu then chain2 else sys.spinmap cpu) = chain2
              rw [if_pos rfl]
          have hgoal2 : (if fr = true
              then { sys.setSpinChain cpu chain2 with
                wst := witness_lock_list_free (sys.setSpinChain cpu chain2).wst }
              else sys.setSpinChain cpu chain2).sleepChain pid = sys.sleepChain pid := by
            split <;> rfl
          refine ⟨by split <;> rfl, by split <;> rfl, by split <;> rfl,
            fun y => by split <;> rfl, ?_, ?_⟩
          · rw [hgoal2, if_neg (by rw [hcl2]; simp)]
          · rw [hgoal1, if_pos ⟨hwne, hnr2, hcl2⟩]
            rfl

/-- Once dead, `witness_lock` is a no-op. -/
theorem witness_lock_dead_noop {sys : Sys} {pid cpu l : Nat} {flags : LockFlags}
    {file : String} {line : Int} (hd : sys.wst.witness_dead = true) :
    witness_lock sys pid cpu l flags file line = .ok sys := by
  unfold witness_lock
  rw [if_pos (by rw [hd]; simp)]

/-- Once dead, `witness_unlock` is a no-op. -/
theorem witness_unlock_dead_noop {sys : Sys} {pid cpu l : Nat} {flags : LockFlags}
    {file : String} {line : Int} (hd : sys.wst.witness_dead = true) :
    witness_unlock sys pid cpu l flags file line = .ok sys := by
  unfold witness_unlock
  rw [if_pos (by rw [hd]; simp)]

/-- The dead flag survives a successful `mtx` acquire. -/
theorem mtxAcquire_dead {S S1 : Sys} {pid cpu l : Nat} {fl : LockFlags}
    {f : String} {n : Int}
    (h : mtxAcquire S pid cpu l fl f n = .ok S1)
    (hd : S.wst.witness_dead = true) : S1.wst.witness_dead = true := by
  unfold mtxAcquire at h
  by_cases hcnt : S.lock_count ≤ l
  · rw [if_pos hcnt] at h
    cases h
  · rw [if_neg hcnt] at h
    dsimp only at h
    by_cases hlk : (S.getLock l).lo_locked = true
    · rw [if_pos hlk] at h
      by_cases hrc : (!(S.getLock l).lo_recursable) = true
      · rw [if_pos hrc] at h
        cases h
      · rw [if_neg hrc] at h
        rw [witness_lock_dead_noop] at h
        · rw [Except.ok.injEq] at h
          subst h
          exact hd
        · exact hd
    · rw [if_neg hlk] at h
      rw [witness_lock_dead_noop] at h
      · rw [Except.ok.injEq] at h
        subst h
        exact hd
      · exact hd

/-- The dead flag survives a successful `mtx` release. -/
theorem mtxRelease_dead {S S1 : Sys} {pid cpu l : Nat} {fl : LockFlags}
    {f : String} {n : Int}
    (h : mtxRelease S pid cpu l fl f n = .ok S1)
    (hd : S.wst.witness_dead = true) : S1.wst.witness_dead = true := by
  unfold mtxRelease at h
  by_cases hcnt : S.lock_count ≤ l
  · rw [if_pos hcnt] at h
    cases h
  · rw [if_neg hcnt] at h
    by_cases hlk : (!(S.getLock l).lo_locked) = true
    · rw [if_pos hlk] at h
      cases h
    · rw [if_neg hlk] at h
      rw [witness_unlock_dead_noop] at h
      · dsimp only at h
        rw [Except.ok.injEq] at h
        subst h
        exact hd
      · exact hd

theorem runEvents_cons_split {S S2 : Sys} {e : Event} {t : List Event}
    (h : runEvents S (e :: t) = .ok S2) :
    ∃ S1, stepEvent S e = .ok S1 ∧ runEvents S1 t = .ok S2 := by
  unfold runEvents at h
  rw [List.foldlM_cons] at h
  cases h1 : stepEvent S e with
  | error e2 =>
    rw [h1] at h
    replace h : (Except.error e2 : Except CPanic Sys) = .ok S2 := h
    cases h
  | ok S1 =>
    rw [h1] at h
    exact ⟨S1, rfl, h⟩

theorem runEvents_append_split {S S2 : Sys} {s t : List Event}
    (h : runEvents S (s ++ t) = .ok S2) :
    ∃ S1, runEvents S s = .ok S1 ∧ runEvents S1 t = .ok S2 := by
  unfold runEvents at h
  rw [List.foldlM_append] at h
  cases h1 : s.foldlM stepEvent S with
  | error e2 =>
    rw [h1] at h
    replace h : (Except.error e2 : Except CPanic Sys) = .ok S2 := h
    cases h
  | ok S1 =>
    rw [h1] at h
    exact ⟨S1, h1, h⟩

theorem aLocks_append (s t : List Event) :
    aLocks (s ++ t) = aLocks s ++ aLocks t := by
  unfold aLocks
  rw [List.flatMap_append]

theorem aLocks_bracket (pid cpu l : Nat) (fl1 fl2 : LockFlags) (f1 f2 : String)
    (n1 n2 : Int) (s : List Event) :
    aLocks (.eacquire pid cpu l fl1 f1 n1 :: (s ++ [.erelease pid cpu l fl2 f2 n2]))
      = l :: aLocks s := by
  unfold aLocks
  rw [List.flatMap_cons, List.flatMap_append]
  simp

/-- The dead flag survives any well-nested run. -/
theorem wn_dead_mono {pid cpu : Nat} {evs : List Event} (hwn : WNEvents pid cpu evs) :
    ∀ {S S2 : Sys}, runEvents S evs = .ok S2 →
    S.wst.witness_dead = true → S2.wst.witness_dead = true := by
  induction hwn with
  | nil =>
    intro S S2 h hd
    have h2 : (Except.ok S : Except CPanic Sys) = .ok S2 := h
    rw [Except.ok.injEq] at h2
    subst h2
    exact hd
  | seq hs ht ihs iht =>
    intro S S2 h hd
    obtain ⟨S1, h1, h2⟩ := runEvents_append_split h
    exact iht h2 (ihs h1 hd)
  | bracket hs ihs =>
    intro S S2 h hd
    obtain ⟨S1, h1, h2⟩ := runEvents_cons_split h
    obtain ⟨S3, h3, h4⟩ := runEvents_append_split h2
    obtain ⟨S4, h5, h6⟩ := runEvents_cons_split h4
    have h7 : (Except.ok S4 : Except CPanic Sys) = .ok S2 := h6
    rw [Except.ok.injEq] at h7
    subst h7
    exact mtxRelease_dead h5 (ihs h3 (mtxAcquire_dead h1 hd))

/-- Every `.ok` outcome of `mtxAcquire`: frames, and the chain effect of the
enclosed `witness_lock` call relative to the pre-acquire state. -/
theorem mtxAcquire_effect {S S1 : Sys} {pid cpu l : Nat} {fl : LockFlags}
    {f : String} {n : Int}
    (h : mtxAcquire S pid cpu l fl f n = .ok S1) :
    S1.wst.witness_cold = S.wst.witness_cold ∧
    S1.panicstr = S.panicstr ∧
    (∀ y, y ≠ l → S1.getLock y = S.getLock y) ∧
    (S1.getLock l).lo_witness = (S.getLock l).lo_witness ∧
    (S1.getLock l).lo_class = (S.getLock l).lo_class ∧
    ((S1.sleepChain pid = S.sleepChain pid ∧ S1.spinChain cpu = S.spinChain cpu) ∨
     ((S.getLock l).lo_class.lc_sleep = true ∧ (S1.getLock l).lo_recursed = false ∧
      (S.getLock l).lo_witness ≠ none ∧
      S1.sleepChain pid = pushChain (S.sleepChain pid) l ∧
      S1.spinChain cpu = S.spinChain cpu) ∨
     ((S.getLock l).lo_class.lc_sleep = false ∧ (S1.getLock l).lo_recursed = false ∧
      (S.getLock l).lo_witness ≠ none ∧
      S1.spinChain cpu = pushChain (S.spinChain cpu) l ∧
      S1.sleepChain pid = S.sleepChain pid)) := by
  unfold mtxAcquire at h
  by_cases hcnt : S.lock_count ≤ l
  · rw [if_pos hcnt] at h
    cases h
  · rw [if_neg hcnt] at h
    dsimp only at h
    by_cases hlk : (S.getLock l).lo_locked = true
    · rw [if_pos hlk] at h
      by_cases hrc : (!(S.getLock l).lo_recursable) = true
      · rw [if_pos hrc] at h
        cases h
      · rw [if_neg hrc] at h
        obtain ⟨e1, e2, e3, e4, e5, e6, e7, e8⟩ := witness_lock_effect h
        have hM : (S.modifyLock l fun lk =>
            { lk with lo_recursed := true, lo_recurse := lk.lo_recurse + 1 }).getLock l
            = { S.getLock l with lo_recursed := true, lo_recurse := (S.getLock l).lo_recurse + 1 } := by
          have h1 : (S.modifyLock l fun lk =>
              { lk with lo_recursed := true, lo_recurse := lk.lo_recurse + 1 }).getLock l
              = if l = l then { S.getLock l with lo_recursed := true, lo_recurse := (S.getLock l).lo_recurse + 1 } else S.getLock l := rfl
          rw [h1, if_pos rfl]
        have hMf : ∀ y, y ≠ l → (S.modifyLock l fun lk =>
            { lk with lo_recursed := true, lo_recurse := lk.lo_recurse + 1 }).getLock y
            = S.getLock y := by
          intro y hy
          have h1 : (S.modifyLock l fun lk =>
              { lk with lo_recursed := true, lo_recurse := lk.lo_recurse + 1 }).getLock y
              = if y = l then { S.getLock l with lo_recursed := true, lo_recurse := (S.getLock l).lo_recurse + 1 } else S.getLock y := rfl
          rw [h1, if_neg hy]
        refine ⟨e1, e2, fun y hy => (e3 y hy).trans (hMf y hy),
          e4.trans (by rw [hM]), e7.trans (by rw [hM]), ?_⟩
        rcases e8 with hl | hm | hr
        · exact Or.inl hl
        · obtain ⟨-, hnr2, -, -, -⟩ := hm
          rw [hM] at hnr2
          simp at hnr2
        · obtain ⟨-, hnr2, -, -, -⟩ := hr
          rw [hM] at hnr2
          simp at hnr2
    · rw [if_neg hlk] at h
      obtain ⟨e1, e2, e3, e4, e5, e6, e7, e8⟩ := witness_lock_effect h
      have hM : (S.modifyLock l fun lk => { lk with lo_locked := true }).getLock l
          = { S.getLock l with lo_locked := true } := by
        have h1 : (S.modifyLock l fun lk => { lk with lo_locked := true }).getLock l
            = if l = l then { S.getLock l with lo_locked := true }
              else S.getLock l := rfl
        rw [h1, if_pos rfl]
      have hMf : ∀ y, y ≠ l →
          (S.modifyLock l fun lk => { lk with lo_locked := true }).getLock y
          = S.getLock y := by
        intro y hy
        have h1 : (S.modifyLock l fun lk => { lk with lo_locked := true }).getLock y
            = if y = l then { S.getLock l with lo_locked := true }
              else S.getLock y := rfl
        rw [h1, if_neg hy]
      refine ⟨e1, e2, fun y hy => (e3 y hy).trans (hMf y hy),
        e4.trans (by rw [hM]), e7.trans (by rw [hM]), ?_⟩
      rcases e8 with hl | hm | hr
      · exact Or.inl hl
      · obtain ⟨hcl, hnr2, hw1, hpush, hother⟩ := hm
        refine Or.inr (Or.inl ⟨by rw [hM] at hcl; exact hcl,
          e6.trans hnr2, by rw [hM] at hw1; exact hw1, hpush, hother⟩)
      · obtain ⟨hcl, hnr2, hw1, hpush, hother⟩ := hr
        refine Or.inr (Or.inr ⟨by rw [hM] at hcl; exact hcl,
          e6.trans hnr2, by rw [hM] at hw1; exact hw1, hpush, hother⟩)

/-- Every `.ok` outcome of `mtxRelease` in a live, warmed-up state. -/
theorem mtxRelease_effect {S S1 : Sys} {pid cpu l : Nat} {fl : LockFlags}
    {f : String} {n : Int}
    (h : mtxRelease S pid cpu l fl f n = .ok S1)
    (h0 : (S.wst.witness_cold || S.wst.witness_dead || S.panicstr) = false) :
    S1.wst.witness_cold = S.wst.witness_cold ∧
    S1.panicstr = S.panicstr ∧
    (∀ y, y ≠ l → S1.getLock y = S.getLock y) ∧
    S1.sleepChain pid = (if ((S.getLock l).lo_witness ≠ none ∧
        (S.getLock l).lo_recursed = false ∧ (S.getLock l).lo_class.lc_sleep = true)
      then ((removeFromChain (S.sleepChain pid) l).elim (S.sleepChain pid) Prod.fst)
      else S.sleepChain pid) ∧
    S1.spinChain cpu = (if ((S.getLock l).lo_witness ≠ none ∧
        (S.getLock l).lo_recursed = false ∧ (S.getLock l).lo_class.lc_sleep = false)
      then ((removeFromChain (S.spinChain cpu) l).elim (S.spinChain cpu) Prod.fst)
      else S.spinChain cpu) := by
  unfold mtxRelease at h
  by_cases hcnt : S.lock_count ≤ l
  · rw [if_pos hcnt] at h
    cases h
  · rw [if_neg hcnt] at h
    by_cases hlk : (!(S.getLock l).lo_locked) = true
    · rw [if_pos hlk] at h
      cases h
    · rw [if_neg hlk] at h
      cases hul : witness_unlock S pid cpu l fl f n with
      | error e =>
        rw [hul] at h
        cases h
      | ok S3 =>
        rw [hul] at h
        dsimp only at h
        rw [Except.ok.injEq] at h
        subst h
        obtain ⟨b1, b2, b3, b4, b5, b6⟩ := witness_unlock_effect h0 hul
        have hMf : ∀ y, y ≠ l → (S3.modifyLock l fun lk =>
            if 0 < lk.lo_recurse then
              { lk with lo_recurse := lk.lo_recurse - 1,
                        lo_recursed := lk.lo_recurse - 1 != 0 }
            else { lk with lo_locked := false }).getLock y = S3.getLock y := by
          intro y hy
          have h1 : (S3.modifyLock l fun lk =>
              if 0 < lk.lo_recurse then
                { lk with lo_recurse := lk.lo_recurse - 1,
                          lo_recursed := lk.lo_recurse - 1 != 0 }
              else { lk with lo_locked := false }).getLock y
              = if y = l then (if 0 < (S3.getLock l).lo_recurse then { S3.getLock l with lo_recurse := (S3.getLock l).lo_recurse - 1, lo_recursed := (S3.getLock l).lo_recurse - 1 != 0 } else { S3.getLock l with lo_locked := false })
                else S3.getLock y := rfl
          rw [h1, if_neg hy]
        exact ⟨b1, b3, fun y hy => (hMf y hy).trans (b4 y), b5, b6⟩

/-- Stack restoration for one context: a well-nested sequence of acquires
and releases of pairwise distinct locks, none of which is already on the
context's chains, leaves both chains exactly as it found them — provided
the verifier never went dead (pool exhaustion mid-sequence voids the
guarantee, see the counterexample). -/
theorem wn_restore {pid cpu : Nat} {evs : List Event} (hwn : WNEvents pid cpu evs) :
    ∀ {S S2 : Sys}, runEvents S evs = .ok S2 →
    (aLocks evs).Nodup →
    (∀ x ∈ aLocks evs, x ∉ (S.sleepChain pid).flatten ∧ x ∉ (S.spinChain cpu).flatten) →
    (∀ ch ∈ S.sleepChain pid, ch ≠ []) →
    (∀ ch ∈ S.spinChain cpu, ch ≠ []) →
    S.wst.witness_cold = false → S.panicstr = false →
    S2.wst.witness_dead = false →
    S2.sleepChain pid = S.sleepChain pid ∧ S2.spinChain cpu = S.spinChain cpu ∧
    (∀ x, x ∉ aLocks evs → S2.getLock x = S.getLock x) ∧
    S2.wst.witness_cold = false ∧ S2.panicstr = false := by
  induction hwn with
  | nil =>
    intro S S2 h hnd hnotin hchs hchp hcold hpanic hdead
    have h2 : (Except.ok S : Except CPanic Sys) = .ok S2 := h
    rw [Except.ok.injEq] at h2
    subst h2
    exact ⟨rfl, rfl, fun x _ => rfl, hcold, hpanic⟩
  | @seq s t hs ht ihs iht =>
    intro S S2 h hnd hnotin hchs hchp hcold hpanic hdead
    rw [aLocks_append] at hnd hnotin
    obtain ⟨S1, h1, h2⟩ := runEvents_append_split h
    have hd1 : S1.wst.witness_dead = false := by
      by_cases hb : S1.wst.witness_dead = true
      · exact absurd (wn_dead_mono ht h2 hb) (by rw [hdead]; simp)
      · rw [Bool.not_eq_true] at hb
        exact hb
    have hnds : (aLocks s).Nodup := hnd.of_append_left
    have hndt : (aLocks t).Nodup := hnd.of_append_right
    have hnotins : ∀ x ∈ aLocks s,
        x ∉ (S.sleepChain pid).flatten ∧ x ∉ (S.spinChain cpu).flatten :=
      fun x hx => hnotin x (List.mem_append.mpr (Or.inl hx))
    obtain ⟨d1, d2, dfr, dcold, dpan⟩ := ihs h1 hnds hnotins hchs hchp hcold hpanic hd1
    have hnotint : ∀ x ∈ aLocks t,
        x ∉ (S1.sleepChain pid).flatten ∧ x ∉ (S1.spinChain cpu).flatten := by
      intro x hx
      rw [d1, d2]
      exact hnotin x (List.mem_append.mpr (Or.inr hx))
    have hchs1 : ∀ ch ∈ S1.sleepChain pid, ch ≠ [] := by
      rw [d1]
      exact hchs
    have hchp1 : ∀ ch ∈ S1.spinChain cpu, ch ≠ [] := by
      rw [d2]
      exact hchp
    obtain ⟨e1, e2, efr, ecold, epan⟩ := iht h2 hndt hnotint hchs1 hchp1 dcold dpan hdead
    refine ⟨e1.trans d1, e2.trans d2, ?_, ecold, epan⟩
    intro x hx
    rw [aLocks_append] at hx
    have hxs : x ∉ aLocks s := fun hm => hx (List.mem_append.mpr (Or.inl hm))
    have hxt : x ∉ aLocks t := fun hm => hx (List.mem_append.mpr (Or.inr hm))
    exact (efr x hxt).trans (dfr x hxs)
  | @bracket s l fl1 fl2 f1 f2 n1 n2 hs ihs =>
    intro S S2 h hnd hnotin hchs hchp hcold hpanic hdead
    rw [aLocks_bracket] at hnd hnotin
    obtain ⟨S1, h1, h2⟩ := runEvents_cons_split h
    obtain ⟨S3, h3, h4⟩ := runEvents_append_split h2
    obtain ⟨S4, h5, h6⟩ := runEvents_cons_split h4
    have h7 : (Except.ok S4 : Except CPanic Sys) = .ok S2 := h6
    rw [Except.ok.injEq] at h7
    subst h7
    have h1m : mtxAcquire S pid cpu l fl1 f1 n1 = .ok S1 := h1
    have hd3 : S3.wst.witness_dead = false := by
      by_cases hb : S3.wst.witness_dead = true
      · exact absurd (mtxRelease_dead (show mtxRelease S3 pid cpu l fl2 f2 n2 = .ok S4 from h5) hb)
          (by rw [hdead]; simp)
      · rw [Bool.not_eq_true] at hb
        exact hb
    have hd1 : S1.wst.witness_dead = false := by
      by_cases hb : S1.wst.witness_dead = true
      · exact absurd (wn_dead_mono hs h3 hb) (by rw [hd3]; simp)
      · rw [Bool.not_eq_true] at hb
        exact hb
    obtain ⟨a1, a2, a3, a4, a5, a6⟩ := mtxAcquire_effect h1m
    have hlmem : l ∉ (S.sleepChain pid).flatten ∧ l ∉ (S.spinChain cpu).flatten :=
      hnotin l (List.mem_cons_self l _)
    have hlnins : l ∉ aLocks s := (List.nodup_cons.mp hnd).1
    have hnds : (aLocks s).Nodup := (List.nodup_cons.mp hnd).2
    have hcold1 : S1.wst.witness_cold = false := a1.trans hcold
    have hpan1 : S1.panicstr = false := a2.trans hpanic
    rcases a6 with ⟨c1, c2⟩ | ⟨hcl, hnr1, hw1, hpush, hother⟩ | ⟨hcl, hnr1, hw1, hpush, hother⟩
    · have hnotin1 : ∀ x ∈ aLocks s,
          x ∉ (S1.sleepChain pid).flatten ∧ x ∉ (S1.spinChain cpu).flatten := by
        intro x hx
        rw [c1, c2]
        exact hnotin x (List.mem_cons_of_mem l hx)
      have hchs1 : ∀ ch ∈ S1.sleepChain pid, ch ≠ [] := by
        rw [c1]
        exact hchs
      have hchp1 : ∀ ch ∈ S1.spinChain cpu, ch ≠ [] := by
        rw [c2]
        exact hchp
      obtain ⟨d1, d2, dfr, dcold, dpan⟩ := ihs h3 hnds hnotin1 hchs1 hchp1 hcold1 hpan1 hd3
      have h0rel : (S3.wst.witness_cold || S3.wst.witness_dead || S3.panicstr) = false := by
        rw [dcold, hd3, dpan]
        rfl
      obtain ⟨b1, b2, b3, b4, b5⟩ :=
        mtxRelease_effect (show mtxRelease S3 pid cpu l fl2 f2 n2 = .ok S4 from h5) h0rel
      have hnl3s : l ∉ (S3.sleepChain pid).flatten := by
        rw [d1, c1]
        exact hlmem.1
      have hnl3p : l ∉ (S3.spinChain cpu).flatten := by
        rw [d2, c2]
        exact hlmem.2
      rw [removeFromChain_not_mem hnl3s] at b4
      rw [removeFromChain_not_mem hnl3p] at b5
      have hb4 : S4.sleepChain pid = S3.sleepChain pid := by
        rw [b4]
        split
        · rfl
        · rfl
      have hb5 : S4.spinChain cpu = S3.spinChain cpu := by
        rw [b5]
        split
        · rfl
        · rfl
      refine ⟨hb4.trans (d1.trans c1), hb5.trans (d2.trans c2), ?_,
        b1.trans dcold, b2.trans dpan⟩
      intro x hx
      rw [aLocks_bracket] at hx
      have hxl : x ≠ l := fun he => hx (he ▸ List.mem_cons_self l _)
      have hxs : x ∉ aLocks s := fun hm => hx (List.mem_cons_of_mem l hm)
      exact ((b3 x hxl).trans (dfr x hxs)).trans (a3 x hxl)
    · have hnotin1 : ∀ x ∈ aLocks s,
          x ∉ (S1.sleepChain pid).flatten ∧ x ∉ (S1.spinChain cpu).flatten := by
        intro x hx
        have hxl : x ≠ l := fun he => hlnins (he ▸ hx)
        constructor
        · rw [hpush]
          intro hm
          rcases mem_pushChain.mp hm with he | hm2
          · exact hxl he
          · exact (hnotin x (List.mem_cons_of_mem l hx)).1 hm2
        · rw [hother]
          exact (hnotin x (List.mem_cons_of_mem l hx)).2
      have hchs1 : ∀ ch ∈ S1.sleepChain pid, ch ≠ [] := by
        rw [hpush]
        exact pushChain_chunks_ne hchs
      have hchp1 : ∀ ch ∈ S1.spinChain cpu, ch ≠ [] := by
        rw [hother]
        exact hchp
      obtain ⟨d1, d2, dfr, dcold, dpan⟩ := ihs h3 hnds hnotin1 hchs1 hchp1 hcold1 hpan1 hd3
      have h0rel : (S3.wst.witness_cold || S3.wst.witness_dead || S3.panicstr) = false := by
        rw [dcold, hd3, dpan]
        rfl
      obtain ⟨b1, b2, b3, b4, b5⟩ :=
        mtxRelease_effect (show mtxRelease S3 pid cpu l fl2 f2 n2 = .ok S4 from h5) h0rel
      have hfl3 : S3.getLock l = S1.getLock l := dfr l hlnins
      have hcond : (S3.getLock l).lo_witness ≠ none ∧ (S3.getLock l).lo_recursed = false ∧
          (S3.getLock l).lo_class.lc_sleep = true := by
        rw [hfl3]
        refine ⟨?_, hnr1, ?_⟩
        · rw [a4]
          exact hw1
        · rw [a5]
          exact hcl
      have hs3 : S3.sleepChain pid = pushChain (S.sleepChain pid) l := d1.trans hpush
      obtain ⟨fr2, hrm⟩ := removeFromChain_pushChain hlmem.1 hchs
      have hb4 : S4.sleepChain pid = S.sleepChain pid := by
        rw [b4, if_pos hcond, hs3, hrm]
        rfl
      have hncond : ¬((S3.getLock l).lo_witness ≠ none ∧ (S3.getLock l).lo_recursed = false ∧
          (S3.getLock l).lo_class.lc_sleep = false) := by
        intro hc
        exact absurd hc.2.2 (by rw [hcond.2.2]; simp)
      have hb5 : S4.spinChain cpu = S.spinChain cpu := by
        rw [b5, if_neg hncond]
        exact d2.trans hother
      refine ⟨hb4, hb5, ?_, b1.trans dcold, b2.trans dpan⟩
      intro x hx
      rw [aLocks_bracket] at hx
      have hxl : x ≠ l := fun he => hx (he ▸ List.mem_cons_self l _)
      have hxs : x ∉ aLocks s := fun hm => hx (List.mem_cons_of_mem l hm)
      exact ((b3 x hxl).trans (dfr x hxs)).trans (a3 x hxl)
    · have hnotin1 : ∀ x ∈ aLocks s,
          x ∉ (S1.sleepChain pid).flatten ∧ x ∉ (S1.spinChain cpu).flatten := by
        intro x hx
        have hxl : x ≠ l := fun he => hlnins (he ▸ hx)
        constructor
        · rw [hother]
          exact (hnotin x (List.mem_cons_of_mem l hx)).1
        · rw [hpush]
          intro hm
          rcases mem_pushChain.mp hm with he | hm2
          · exact hxl he
          · exact (hnotin x (List.mem_cons_of_mem l hx)).2 hm2
      have hchs1 : ∀ ch ∈ S1.sleepChain pid, ch ≠ [] := by
        rw [hother]
        exact hchs
      have hchp1 : ∀ ch ∈ S1.spinChain cpu, ch ≠ [] := by
        rw [hpush]
        exact pushChain_chunks_ne hchp
      obtain ⟨d1, d2, dfr, dcold, dpan⟩ := ihs h3 hnds hnotin1 hchs1 hchp1 hcold1 hpan1 hd3
      have h0rel : (S3.wst.witness_cold || S3.wst.witness_dead || S3.panicstr) = false := by
        rw [dcold, hd3, dpan]
        rfl
      obtain ⟨b1, b2, b3, b4, b5⟩ :=
        mtxRelease_effect (show mtxRelease S3 pid cpu l fl2 f2 n2 = .ok S4 from h5) h0rel
      have hfl3 : S3.getLock l = S1.getLock l := dfr l hlnins
      have hcond : (S3.getLock l).lo_witness ≠ none ∧ (S3.getLock l).lo_recursed = false ∧
          (S3.getLock l).lo_class.lc_sleep = false := by
        rw [hfl3]
        refine ⟨?_, hnr1, ?_⟩
        · rw [a4]
          exact hw1
        · rw [a5]
          exact hcl
      have hs3 : S3.spinChain cpu = pushChain (S.spinChain cpu) l := d2.trans hpush
      obtain ⟨fr2, hrm⟩ := removeFromChain_pushChain hlmem.2 hchp
      have hb5 : S4.spinChain cpu = S.spinChain cpu := by
        rw [b5, if_pos hcond, hs3, hrm]
        rfl
      have hncond : ¬((S3.getLock l).lo_witness ≠ none ∧ (S3.getLock l).lo_recursed = false ∧
          (S3.getLock l).lo_class.lc_sleep = true) := by
        intro hc
        exact absurd hc.2.2 (by rw [hcond.2.2]; simp)
      have hb4 : S4.sleepChain pid = S.sleepChain pid := by
        rw [b4, if_neg hncond]
        exact d1.trans hother
      refine ⟨hb4, hb5, ?_, b1.trans dcold, b2.trans dpan⟩
      intro x hx
      rw [aLocks_bracket] at hx
      have hxl : x ≠ l := fun he => hx (he ▸ List.mem_cons_self l _)
      have hxs : x ∉ aLocks s := fun hm => hx (List.mem_cons_of_mem l hm)
      exact ((b3 x hxl).trans (dfr x hxs)).trans (a3 x hxl)

/-- **C7.** A well-nested sequence of acquire/release operations on pairwise
distinct watched lock instances, performed by one context starting from
empty held-lock stacks, leaves both stacks empty, and `witness_sleep`
called immediately afterwards returns 0.  Corrected: this needs the proviso
that the verifier has not gone dead by the end of the run — a pool
exhaustion mid-sequence turns the releases into no-ops and strands the
stack entries (see the counterexample), while the claim states the property
unconditionally. -/
theorem c7_well_nested {pid cpu : Nat} {evs : List Event} {S S2 : Sys}
    (co : Bool) (file : String) (line : Int)
    (hwn : WNEvents pid cpu evs)
    (hrun : runEvents S evs = .ok S2)
    (hnd : (aLocks evs).Nodup)
    (hs0 : S.sleepChain pid = [])
    (hp0 : S.spinChain cpu = [])
    (hcold : S.wst.witness_cold = false)
    (hpanic : S.panicstr = false)
    (hdead : S2.wst.witness_dead = false) :
    S2.sleepChain pid = [] ∧ S2.spinChain cpu = [] ∧
    witness_sleep S2 co pid cpu none file line = .ok (0, S2) := by
  obtain ⟨c1, c2, -, ecold, epan⟩ := wn_restore hwn hrun hnd
    (by intro x hx; rw [hs0, hp0]; exact ⟨by simp, by simp⟩)
    (by rw [hs0]; simp)
    (by rw [hp0]; simp)
    hcold hpanic hdead
  have hc1 : S2.sleepChain pid = [] := c1.trans hs0
  have hc2 : S2.spinChain cpu = [] := c2.trans hp0
  have hscan : sleepScanEntries S2 pid cpu = [] := by
    unfold sleepScanEntries
    rw [hc1, hc2]
    rfl
  refine ⟨hc1, hc2, ?_⟩
  unfold witness_sleep
  rw [if_neg (by rw [hdead, epan]; simp), if_neg (by rw [ecold]; simp), hscan]
  rfl

set_option maxRecDepth 10000 in
theorem c7_well_nested_witness :
    ∃ S2, runEvents initSys
        [ .eacquire 1 1 0 ⟨false, false⟩ "f" 1,
          .erelease 1 1 0 ⟨false, false⟩ "f" 2 ] = .ok S2 ∧
      S2.sleepChain 1 = [] ∧ S2.spinChain 1 = [] ∧
      witness_sleep S2 true 1 1 none "f" 3 = .ok (0, S2) := by
  cases hr : runEvents initSys
      [ .eacquire 1 1 0 ⟨false, false⟩ "f" 1,
        .erelease 1 1 0 ⟨false, false⟩ "f" 2 ] with
  | error e =>
    exfalso
    have hok : (match runEvents initSys
        [ .eacquire 1 1 0 ⟨false, false⟩ "f" 1,
          .erelease 1 1 0 ⟨false, false⟩ "f" 2 ] with
      | .ok _ => true
      | .error _ => false) = true := by decide
    rw [hr] at hok
    cases hok
  | ok S2 =>
    have hok : (match runEvents initSys
        [ .eacquire 1 1 0 ⟨false, false⟩ "f" 1,
          .erelease 1 1 0 ⟨false, false⟩ "f" 2 ] with
      | .ok s => !s.wst.witness_dead
      | .error _ => false) = true := by decide
    rw [hr] at hok
    have hdead : S2.wst.witness_dead = false := by
      by_cases hb : S2.wst.witness_dead = true
      · rw [show (match (Except.ok S2 : Except CPanic Sys) with
          | .ok s => !s.wst.witness_dead
          | .error _ => false) = !S2.wst.witness_dead from rfl] at hok
        rw [hb] at hok
        simp at hok
      · rw [Bool.not_eq_true] at hb
        exact hb
    exact ⟨S2, rfl, c7_well_nested true "f" 3
      (@WNEvents.bracket 1 1 [] 0 ⟨false, false⟩ ⟨false, false⟩ "f" "f" 1 2 WNEvents.nil)
      hr (by decide) (by decide) (by decide) (by decide) (by decide) hdead⟩

set_option maxRecDepth 10000 in
theorem c7_counterexample :
    (match runEvents { initSys with wst := { initSys.wst with w_child_free_count := 0 } }
        [ .einit "c7a" lock_class_mtx_sleep true false false,
          .einit "c7b" lock_class_mtx_sleep true false false,
          .eacquire 1 1 2 ⟨false, false⟩ "f" 1,
          .eacquire 1 1 3 ⟨false, false⟩ "f" 2,
          .erelease 1 1 3 ⟨false, false⟩ "f" 3,
          .erelease 1 1 2 ⟨false, false⟩ "f" 4 ] with
     | .ok s =>
       match witness_sleep s true 1 1 none "f" 5 with
       | .ok (n, _) => decide (s.sleepChain 1 = [[2, 3]] ∧ s.wst.witness_dead = true ∧ n = 0)
       | .error _ => false
     | .error _ => false) = true := by decide

end WitnessV